import Mathlib

/-!
Verification of the Fluid capacity-tracking application.

Shallow embedding of the parts of the code base that the checked claims
are about: the date-range helper and loading upsert of
`src/db/fluiddbinterface.py`, the requirements/allocations comparison,
the availability query of `src/blueprints/availability.py`, the loading
grid save of `src/blueprints/loading.py`, the delete operations of the
products and items blueprints, the SQL extraction and auto-fix pass of
`src/ai_wrapper.py`, and the resource-name extraction of
`src/fallback_viz.py`.

Percentages (SQL `REAL` / Python `float`) are modelled as rationals;
machine floats are not needed for any of the claims, which only use
exact decimal values. Strings are modelled as `List Char` where
character-level scanning is needed, with `String` wrappers at the
claim level.
-/

namespace Fluid

/-- ASCII decimal digit test, as used by the `strptime` patterns. -/
def isDigitChar (c : Char) : Bool := '0' ≤ c && c ≤ '9'

/-- Numeric value of an ASCII digit. -/
def digitVal (c : Char) : Nat := c.toNat - '0'.toNat

/-! ## `generate_month_range` (src/db/fluiddbinterface.py lines 428-443)

`datetime.strptime(s, '%Y-%m')` compiles the format into the regular
expression `(?P<Y>\d\d\d\d)-(?P<m>1[0-2]|0[1-9]|[1-9])` anchored at the
start, and raises `ValueError` unless the match consumes the whole
string.  So the year is exactly four digits, while the month may be one
or two digits (a Python `strptime` quirk): `'2025-1'` parses to month 1.
-/

/-- The `%m` directive of `strptime`: Python's pattern is
`1[0-2]|0[1-9]|[1-9]`, alternatives tried in order. Returns the month
value and the unconsumed rest. -/
def parseMonthDirective : List Char → Option (Nat × List Char)
  | '1' :: c2 :: rest =>
      if '0' ≤ c2 && c2 ≤ '2' then some (10 + digitVal c2, rest)
      else some (1, c2 :: rest)
  | '0' :: c2 :: rest =>
      if '1' ≤ c2 && c2 ≤ '9' then some (digitVal c2, rest)
      else none
  | c :: rest =>
      if '1' ≤ c && c ≤ '9' then some (digitVal c, rest) else none
  | [] => none

/-- `datetime.strptime(s, '%Y-%m')` as used by `generate_month_range`:
four digits, a hyphen, the `%m` month pattern, and nothing left over.
Returns `(year, month)` or `none` (the `ValueError` case). -/
def pyStrptimeYM (s : List Char) : Option (Nat × Nat) :=
  match s with
  | a :: b :: c :: d :: '-' :: rest =>
      if isDigitChar a && isDigitChar b && isDigitChar c && isDigitChar d then
        match parseMonthDirective rest with
        | some (m, []) =>
            some (1000 * digitVal a + 100 * digitVal b + 10 * digitVal c + digitVal d, m)
        | _ => none
      else none
  | _ => none

/-- The ASCII digit character of `n % 10`. -/
def natDigit (n : Nat) : Char :=
  match n % 10 with
  | 0 => '0' | 1 => '1' | 2 => '2' | 3 => '3' | 4 => '4'
  | 5 => '5' | 6 => '6' | 7 => '7' | 8 => '8' | _ => '9'

/-- `dt.strftime('%Y-%m')` for the first of month `m` of year `y`:
a zero-padded four-digit year, a hyphen, a zero-padded two-digit month
(every year this code formats came from a four-digit parse). -/
def formatYM (y m : Nat) : String :=
  String.mk
    [natDigit (y / 1000), natDigit (y / 100), natDigit (y / 10), natDigit y,
     '-', natDigit (m / 10), natDigit m]

/-- Month index on a single timeline: `year * 12 + (month - 1)`. -/
def monthIndex (y m : Nat) : Nat := y * 12 + (m - 1)

/-- The year/month pair of a month index. -/
def ofMonthIndex (i : Nat) : Nat × Nat := (i / 12, i % 12 + 1)

/-- `generate_month_range` of `FluidDBInterface`: parses both inputs
with `strptime('%Y-%m')`, returning `[]` on a parse failure, and
otherwise walks `dateutil.rrule(MONTHLY)` from the start date up to and
including the end date (empty when the end precedes the start),
formatting each month as `YYYY-MM`. -/
def generate_month_range (start_month end_month : String) : List String :=
  match pyStrptimeYM start_month.toList, pyStrptimeYM end_month.toList with
  | some (ys, ms), some (ye, me) =>
      let lo := monthIndex ys ms
      let hi := monthIndex ye me
      if lo ≤ hi then
        (List.range (hi - lo + 1)).map fun i =>
          formatYM (ofMonthIndex (lo + i)).1 (ofMonthIndex (lo + i)).2
      else []
  | _, _ => []

/-! ## Character and string toolkit

ASCII-level helpers shared by the embeddings of the Python string code:
Python's `str.strip`, `str.upper`/`lower`, `str.startswith`, substring
search, and SQLite's case-insensitive `LIKE '%x%'`.  Strings are
handled as `List Char`.
-/

/-- Python `str.isspace` characters relevant to `strip` / `\s`. -/
def isSpaceChar (c : Char) : Bool :=
  c = ' ' || c = '\t' || c = '\n' || c = '\x0d' || c = '\x0c' || c = '\x0b'

/-- ASCII upper-case letter test. -/
def isUpperA (c : Char) : Bool := 'A' ≤ c && c ≤ 'Z'

/-- ASCII lower-case letter test. -/
def isLowerA (c : Char) : Bool := 'a' ≤ c && c ≤ 'z'

/-- Regex word character (`\w` / `\b` boundaries): `[A-Za-z0-9_]`. -/
def isWordChar (c : Char) : Bool :=
  isUpperA c || isLowerA c || isDigitChar c || c = '_'

/-- ASCII lower-casing of one character (Python `str.lower` on ASCII). -/
def lowerA (c : Char) : Char :=
  if isUpperA c then Char.ofNat (c.toNat + 32) else c

/-- ASCII upper-casing of one character (Python `str.upper` on ASCII). -/
def upperA (c : Char) : Char :=
  if isLowerA c then Char.ofNat (c.toNat - 32) else c

/-- ASCII-case-insensitive character equality. -/
def eqCI (a b : Char) : Bool := lowerA a = lowerA b

/-- Python `str.strip()`: drop whitespace from both ends. -/
def stripPy (s : List Char) : List Char :=
  ((s.dropWhile isSpaceChar).reverse.dropWhile isSpaceChar).reverse

/-- Case-sensitive prefix test (`str.startswith`). -/
def isPrefixOfCS : List Char → List Char → Bool
  | [], _ => true
  | _, [] => false
  | p :: ps, c :: cs => p = c && isPrefixOfCS ps cs

/-- Case-insensitive (ASCII) prefix test. -/
def isPrefixOfCI : List Char → List Char → Bool
  | [], _ => true
  | _, [] => false
  | p :: ps, c :: cs => eqCI p c && isPrefixOfCI ps cs

/-- Case-sensitive substring containment. -/
def containsSubCS (pat : List Char) : List Char → Bool
  | [] => isPrefixOfCS pat []
  | c :: cs => isPrefixOfCS pat (c :: cs) || containsSubCS pat cs

/-- Case-insensitive (ASCII) substring containment; this is also
SQLite's `LIKE '%pat%'` test, which is case-insensitive for ASCII. -/
def containsSubCI (pat : List Char) : List Char → Bool
  | [] => isPrefixOfCI pat []
  | c :: cs => isPrefixOfCI pat (c :: cs) || containsSubCI pat cs

/-- Byte-wise (memcmp) lexicographic `≤` on strings, the collation
SQLite uses for `TEXT` comparison and `BETWEEN`. -/
def memcmpLe : List Char → List Char → Bool
  | [], _ => true
  | _ :: _, [] => false
  | a :: as, b :: bs =>
      if a.toNat < b.toNat then true
      else if b.toNat < a.toNat then false
      else memcmpLe as bs

/-- SQLite `x BETWEEN lo AND hi` on text values. -/
def sqlBetween (x lo hi : String) : Bool :=
  memcmpLe lo.toList x.toList && memcmpLe x.toList hi.toList

/-! ## Deterministic pattern combinators

The regular expressions in `ai_wrapper.py` and `fallback_viz.py` are
simple enough that each is expressed as a deterministic parser over
`List Char` (a `Matcher α` consumes a prefix and yields a parsed value):
their character classes never overlap the literals that follow them, so
Python's backtracking never changes the outcome and maximal-munch
scanning is exact.  `searchM` is `re.search` (leftmost match),
`subAllM` is `re.sub` (replace all, resuming after each match).
-/

/-- A deterministic matcher: consume a prefix of the input, return a
value and the rest. -/
def Matcher (α : Type) : Type := List Char → Option (α × List Char)

/-- Match an exact literal, ASCII-case-insensitively (patterns compiled
with `re.IGNORECASE`). -/
def mLitCI (pat : List Char) : Matcher Unit := fun s =>
  if isPrefixOfCI pat s then some ((), s.drop pat.length) else none

/-- Match an exact literal, case-sensitively. -/
def mLitCS (pat : List Char) : Matcher Unit := fun s =>
  if isPrefixOfCS pat s then some ((), s.drop pat.length) else none

/-- `\s+`: one or more whitespace characters (greedy). -/
def mWs1 : Matcher Unit := fun s =>
  let r := s.dropWhile isSpaceChar
  if r.length < s.length then some ((), r) else none

/-- `\s*`: any run of whitespace (greedy). -/
def mWsStar : Matcher Unit := fun s => some ((), s.dropWhile isSpaceChar)

/-- `[class]+` maximal munch: one or more characters satisfying `p`,
returning the matched run. -/
def mClassPlus (p : Char → Bool) : Matcher (List Char) := fun s =>
  let run := s.takeWhile p
  if run.isEmpty then none else some (run, s.drop run.length)

/-- A single character satisfying `p`. -/
def mChar (p : Char → Bool) : Matcher Char := fun s =>
  match s with
  | [] => none
  | c :: cs => if p c then some (c, cs) else none

/-- Sequencing of matchers. -/
def mBind {α β : Type} (m : Matcher α) (f : α → Matcher β) : Matcher β := fun s =>
  match m s with
  | some (a, rest) => f a rest
  | none => none

/-- Map over a matcher's result. -/
def mMap {α β : Type} (f : α → β) (m : Matcher α) : Matcher β := fun s =>
  match m s with
  | some (a, rest) => some (f a, rest)
  | none => none

/-- Succeed without consuming. -/
def mPure {α : Type} (a : α) : Matcher α := fun s => some (a, s)

/-- First of two alternatives (regex `|`, left-biased). -/
def mOr {α : Type} (m1 m2 : Matcher α) : Matcher α := fun s =>
  match m1 s with
  | some r => some r
  | none => m2 s

/-- A trailing `\b`: succeeds (consuming nothing) when the next
character is not a word character, or at end of input. -/
def mBoundary : Matcher Unit := fun s =>
  match s with
  | [] => some ((), [])
  | c :: _ => if isWordChar c then none else some ((), s)

/-- `re.search`: scan left to right for the first match of `m`; the
`needB` flag asks for a leading `\b` (previous character not a word
character).  Returns `(prefix before the match, value, rest after)`.
All `\b`-prefixed patterns in the source start with a word character,
so the leading boundary reduces to "the previous character is not a
word character (or start of string)", which is what `needB` checks. -/
def searchM {α : Type} (m : Matcher α) (needB : Bool) : List Char → Option (List Char × α × List Char) :=
  go none
where
  /-- `prev` is the character before the current position. -/
  go (prev : Option Char) : List Char → Option (List Char × α × List Char) := fun s =>
    let bOk := !needB || (match prev with | none => true | some c => !isWordChar c)
    match (if bOk then m s else none) with
    | some (a, rest) => some ([], a, rest)
    | none =>
        match s with
        | [] => none
        | c :: cs =>
            match go (some c) cs with
            | some (pre, a, rest) => some (c :: pre, a, rest)
            | none => none

/-- Does `m` match anywhere (`re.search` as a test)? -/
def hasMatch {α : Type} (m : Matcher α) (needB : Bool) (s : List Char) : Bool :=
  (searchM m needB s).isSome

/-- `re.sub`: replace every (leftmost, non-overlapping) match of `m` by
`repl` of its parsed value, resuming after each match.  `fuel` bounds
the recursion (callers pass `s.length + 1`; every match of the patterns
used here consumes at least one character, which the `guard` on the
rest's length enforces). -/
def subAllM {α : Type} (m : Matcher α) (repl : α → List Char) (needB : Bool) :
    Nat → Option Char → List Char → List Char
  | 0, _, s => s
  | _ + 1, _, [] => []
  | fuel + 1, prev, c :: cs =>
      let bOk := !needB || (match prev with | none => true | some p => !isWordChar p)
      match (if bOk then m (c :: cs) else none) with
      | some (a, rest) =>
          if rest.length < cs.length + 1 then
            repl a ++
              subAllM m repl needB fuel ((c :: cs).take (cs.length + 1 - rest.length)).getLast? rest
          else c :: subAllM m repl needB fuel (some c) cs
      | none => c :: subAllM m repl needB fuel (some c) cs

/-- `re.sub` over a whole string. -/
def subAll {α : Type} (m : Matcher α) (repl : α → List Char) (needB : Bool) (s : List Char) : List Char :=
  subAllM m repl needB (s.length + 1) none s

/-- A well-formed `YYYY-MM` string in the sense of the specification:
exactly four digits, a hyphen, and a two-digit month between `01` and
`12`. (Stated from the spec's words, to compare with what the code's
parser actually accepts.) -/
def specWellFormedYYYYMM (s : String) : Bool :=
  match s.toList with
  | [a, b, c, d, '-', m1, m2] =>
      isDigitChar a && isDigitChar b && isDigitChar c && isDigitChar d &&
      isDigitChar m1 && isDigitChar m2 &&
      1 ≤ 10 * digitVal m1 + digitVal m2 && 10 * digitVal m1 + digitVal m2 ≤ 12
  | _ => false

/-! ## Relational data model

Row shapes of the tables the claims touch, from the evolved schema
(`migratedb.py` / `migrate_add_productionloading.py`): `itemtypes`,
`items`, `itemcharacteristics`, `itemloading` (with nullable
`fkproduct`), `productrequirements`, `item_product_map`.  SQL `NULL`
foreign keys are `Option Nat`; `REAL` percentages are `ℚ`.
-/

/-- A row of `itemtypes`. -/
structure ItemTypeRow where
  id : Int
  typename : String
deriving Repr, DecidableEq

/-- A row of `items`. -/
structure ItemRow where
  id : Int
  itemname : String
  fkitemtype : Int
deriving Repr, DecidableEq

/-- A row of `itemcharacteristics`. -/
structure CharRow where
  id : Int
  fkitem : Int
  itemkey : String
  itemvalue : String
deriving Repr, DecidableEq

/-- A row of `itemloading`. -/
structure LoadingRow where
  id : Int
  fkitem : Int
  dailyrollupexists : Int
  monthyear : String
  percent : ℚ
  fkproduct : Option Int
deriving Repr, DecidableEq

/-- A row of `productrequirements`. -/
structure PReqRow where
  id : Int
  fkproduct : Int
  fkitem : Int
  monthyear : String
  percent : ℚ
deriving Repr, DecidableEq

/-- A row of `item_product_map`. -/
structure MapRow where
  id : Int
  fkitem : Int
  fkproduct : Int
deriving Repr, DecidableEq

/-- The database state over the tables the claims are about. -/
structure DB where
  itemtypes : List ItemTypeRow
  items : List ItemRow
  itemcharacteristics : List CharRow
  itemloading : List LoadingRow
  productrequirements : List PReqRow
  item_product_map : List MapRow
deriving Repr, DecidableEq

/-- SQLite's autoincrement rowid for an insert into `itemloading`: one
more than the largest existing id. -/
def nextLoadingId (t : List LoadingRow) : Int :=
  (t.map (·.id)).foldr max 0 + 1

/-- `FluidDBInterface.add_loading`: plain `INSERT` into `itemloading`
with an auto-generated id. -/
def add_loading (t : List LoadingRow) (fkitem dailyrollupexists : Int)
    (monthyear : String) (percent : ℚ) (fkproduct : Option Int) : List LoadingRow :=
  t ++ [⟨nextLoadingId t, fkitem, dailyrollupexists, monthyear, percent, fkproduct⟩]

/-- The match predicate of `upsert_loading`'s lookup:
`"fkitem" = ? AND "monthyear" = ? AND ("fkproduct" = ? OR ("fkproduct"
IS NULL AND ? IS NULL))`.  Under SQL three-valued logic this is exactly
`Option` equality on `fkproduct`. -/
def loadingKeyMatches (r : LoadingRow) (fkitem : Int) (monthyear : String)
    (fkproduct : Option Int) : Bool :=
  r.fkitem = fkitem && r.monthyear = monthyear && r.fkproduct = fkproduct

/-- `FluidDBInterface.upsert_loading`: look up an existing row by
`(fkitem, monthyear, fkproduct)`; update its `percent` in place
(`UPDATE ... WHERE id = existing id`) if found, else insert a fresh row
via `add_loading` with `dailyrollupexists = 0`. -/
def upsert_loading (t : List LoadingRow) (fkitem : Int) (monthyear : String)
    (percent : ℚ) (fkproduct : Option Int) : List LoadingRow :=
  match t.find? (fun r => loadingKeyMatches r fkitem monthyear fkproduct) with
  | some existing =>
      t.map fun r => if r.id = existing.id then { r with percent := percent } else r
  | none => add_loading t fkitem 0 monthyear percent fkproduct

/-! ## `compare_requirements_vs_allocations`
(src/db/fluiddbinterface.py lines 840-943) -/

/-- A fetched requirement row: `pr.fkitem, i.itemname, it.typename,
pr.percent AS required_percent` for one product and month. -/
structure ReqFetched where
  fkitem : Int
  itemname : String
  typename : String
  required_percent : ℚ
deriving Repr, DecidableEq

/-- A fetched allocation row: `il.fkitem, i.itemname, it.typename,
il.percent AS allocated_percent` for one product and month. -/
structure AllocFetched where
  fkitem : Int
  itemname : String
  typename : String
  allocated_percent : ℚ
deriving Repr, DecidableEq

/-- The requirements query: `productrequirements` rows for the product
and month, inner-joined to `items` and `itemtypes`. -/
def fetchRequirements (db : DB) (product_id : Int) (monthyear : String) : List ReqFetched :=
  (db.productrequirements.filter fun pr =>
      pr.fkproduct = product_id && pr.monthyear = monthyear).filterMap fun pr =>
    match db.items.find? (fun i => i.id = pr.fkitem) with
    | none => none
    | some i =>
        match db.itemtypes.find? (fun it => it.id = i.fkitemtype) with
        | none => none
        | some it => some ⟨pr.fkitem, i.itemname, it.typename, pr.percent⟩

/-- The allocations query: `itemloading` rows for the product and
month, inner-joined to `items` and `itemtypes`.  `il.fkproduct = ?`
under SQL semantics never matches a `NULL` product. -/
def fetchAllocations (db : DB) (product_id : Int) (monthyear : String) : List AllocFetched :=
  (db.itemloading.filter fun il =>
      il.fkproduct = some product_id && il.monthyear = monthyear).filterMap fun il =>
    match db.items.find? (fun i => i.id = il.fkitem) with
    | none => none
    | some i =>
        match db.itemtypes.find? (fun it => it.id = i.fkitemtype) with
        | none => none
        | some it => some ⟨il.fkitem, i.itemname, it.typename, il.percent⟩

/-- Insert into a Python dict modelled as an association list: an
existing key keeps its position and takes the new value, a new key is
appended (insertion order). -/
def dictInsert {α : Type} (d : List (Int × α)) (k : Int) (v : α) : List (Int × α) :=
  if d.any (fun kv => kv.1 = k) then
    d.map fun kv => if kv.1 = k then (k, v) else kv
  else d ++ [(k, v)]

/-- `{r[key]: r for r in rows}`: build a dict from a row list. -/
def buildDict {α : Type} (key : α → Int) (rows : List α) : List (Int × α) :=
  rows.foldl (fun d r => dictInsert d (key r) r) []

/-- Dict lookup (`k in d` / `d[k]`). -/
def dictGet {α : Type} (d : List (Int × α)) (k : Int) : Option α :=
  (d.find? (fun kv => kv.1 = k)).map (·.2)

/-- A gap entry produced by the comparison. -/
structure GapEntry where
  fkitem : Int
  itemname : String
  typename : String
  required_percent : ℚ
  allocated_percent : ℚ
  gap_percent : ℚ
deriving Repr, DecidableEq

/-- An excess entry produced by the comparison. -/
structure ExcessEntry where
  fkitem : Int
  itemname : String
  typename : String
  required_percent : ℚ
  allocated_percent : ℚ
  excess_percent : ℚ
deriving Repr, DecidableEq

/-- The comparison's result (`requirements`, `allocations`, `gaps`,
`excess`). -/
structure CompareResult where
  requirements : List ReqFetched
  allocations : List AllocFetched
  gaps : List GapEntry
  excess : List ExcessEntry
deriving Repr, DecidableEq

/-- One iteration of the gaps loop: a requirement with no allocation
is a full gap (`allocated_percent 0`, `gap_percent` = the required
percent); one allocated less than required is a partial gap
(`gap_percent = required - allocated`, kept only when positive). -/
def gapEntryOf (alloc_dict : List (Int × AllocFetched)) (kv : Int × ReqFetched) :
    Option GapEntry :=
  match dictGet alloc_dict kv.1 with
  | none =>
      some ⟨kv.1, kv.2.itemname, kv.2.typename, kv.2.required_percent, 0,
            kv.2.required_percent⟩
  | some alloc =>
      let gap := kv.2.required_percent - alloc.allocated_percent
      if gap > 0 then
        some ⟨kv.1, kv.2.itemname, kv.2.typename, kv.2.required_percent,
              alloc.allocated_percent, gap⟩
      else none

/-- One iteration of the excess loop: an allocation with no requirement
is a full excess (`excess_percent` = the allocated percent); one
allocated more than required is a partial excess
(`excess_percent = allocated - required`, kept only when positive). -/
def excessEntryOf (req_dict : List (Int × ReqFetched)) (kv : Int × AllocFetched) :
    Option ExcessEntry :=
  match dictGet req_dict kv.1 with
  | none =>
      some ⟨kv.1, kv.2.itemname, kv.2.typename, 0, kv.2.allocated_percent,
            kv.2.allocated_percent⟩
  | some req =>
      let excess_amt := kv.2.allocated_percent - req.required_percent
      if excess_amt > 0 then
        some ⟨kv.1, kv.2.itemname, kv.2.typename, req.required_percent,
              kv.2.allocated_percent, excess_amt⟩
      else none

/-- The requirement rows keyed by `fkitem` (`req_dict`). -/
def reqDict (db : DB) (product_id : Int) (monthyear : String) :
    List (Int × ReqFetched) :=
  buildDict (·.fkitem) (fetchRequirements db product_id monthyear)

/-- The allocation rows keyed by `fkitem` (`alloc_dict`). -/
def allocDict (db : DB) (product_id : Int) (monthyear : String) :
    List (Int × AllocFetched) :=
  buildDict (·.fkitem) (fetchAllocations db product_id monthyear)

/-- `FluidDBInterface.compare_requirements_vs_allocations`: fetch the
two row sets, key each by `fkitem`, then emit a gap entry for every
requirement either missing from the allocations (full gap) or with a
positive `required - allocated` difference, and an excess entry for
every allocation either missing from the requirements (full excess) or
with a positive `allocated - required` difference. -/
def compare_requirements_vs_allocations (db : DB) (product_id : Int)
    (monthyear : String) : CompareResult :=
  let requirements := fetchRequirements db product_id monthyear
  let allocations := fetchAllocations db product_id monthyear
  let req_dict := reqDict db product_id monthyear
  let alloc_dict := allocDict db product_id monthyear
  ⟨requirements, allocations,
   req_dict.filterMap (gapEntryOf alloc_dict),
   alloc_dict.filterMap (excessEntryOf req_dict)⟩

/-! ## Delete endpoints (src/blueprints/products.py, src/blueprints/items.py) -/

/-- Outcome of a delete endpoint (the flashed message category). -/
inductive DeleteOutcome where
  | notFound
  | reservedUnallocated
  | inUse
  | deleted
deriving Repr, DecidableEq

/-- Cascade of `DELETE FROM items` under the evolved schema's
`ON DELETE CASCADE` foreign keys: rows of `itemcharacteristics`,
`itemloading` (via `fkitem` and via `fkproduct`), `productrequirements`
and `item_product_map` that reference the item go with it. -/
def deleteItemCascade (db : DB) (id : Int) : DB :=
  { db with
    items := db.items.filter (fun i => i.id ≠ id)
    itemcharacteristics := db.itemcharacteristics.filter (fun c => c.fkitem ≠ id)
    itemloading := db.itemloading.filter
      (fun l => l.fkitem ≠ id && l.fkproduct ≠ some id)
    productrequirements := db.productrequirements.filter
      (fun r => r.fkitem ≠ id && r.fkproduct ≠ id)
    item_product_map := db.item_product_map.filter
      (fun m => m.fkitem ≠ id && m.fkproduct ≠ id) }

/-- The usage counts of `products.delete_product`:
`COUNT(DISTINCT ipm.fkitem)` over `item_product_map` rows whose
`fkproduct` is the item, and `COUNT(DISTINCT il.id)` over `itemloading`
rows whose `fkproduct` is the item. -/
def productUsage (db : DB) (id : Int) : Nat × Nat :=
  (((db.item_product_map.filter (fun m => m.fkproduct = id)).map (·.fkitem)).dedup.length,
   ((db.itemloading.filter (fun l => l.fkproduct = some id)).map (·.id)).dedup.length)

/-- `products.delete_product`: not-found and `UNALLOCATED` guards, then
the usage check, then `delete_item` and commit. -/
def products_delete_product (db : DB) (id : Int) : DeleteOutcome × DB :=
  match db.items.find? (fun i => i.id = id) with
  | none => (DeleteOutcome.notFound, db)
  | some product =>
      if product.itemname = "UNALLOCATED" then (DeleteOutcome.reservedUnallocated, db)
      else
        let usage := productUsage db id
        if usage.1 > 0 || usage.2 > 0 then (DeleteOutcome.inUse, db)
        else (DeleteOutcome.deleted, deleteItemCascade db id)

/-- `items.delete_item`: the generic items blueprint's delete — a
not-found guard and then an unconditional `delete_item`, with no usage
check and no `UNALLOCATED` guard. -/
def items_delete_item (db : DB) (id : Int) : DeleteOutcome × DB :=
  match db.items.find? (fun i => i.id = id) with
  | none => (DeleteOutcome.notFound, db)
  | some _ => (DeleteOutcome.deleted, deleteItemCascade db id)

/-! ## JSON values

A small JSON model for the bodies the endpoints build with `jsonify`.
-/

/-- A JSON value. -/
inductive JVal where
  | null : JVal
  | bool (b : Bool) : JVal
  | num (q : ℚ) : JVal
  | str (s : String) : JVal
  | arr (xs : List JVal) : JVal
  | obj (fields : List (String × JVal)) : JVal
deriving Repr, BEq

/-- Look up a top-level key of a JSON object body. -/
def jLookup (j : JVal) (k : String) : Option JVal :=
  match j with
  | JVal.obj fields => (fields.find? (fun f => f.1 = k)).map (·.2)
  | _ => none

/-! ## Availability query (src/blueprints/availability.py lines 51-199)

The SQL query left-joins `items` (inner-joined to `itemtypes`, and to
`itemcharacteristics` when the characteristic filter is active) to
`itemloading`, applies the `WHERE` filters (including
`il.monthyear IS NULL OR il.monthyear BETWEEN start AND end`), groups
by `(i.id, i.itemname, it.typename, il.monthyear)` and sums
`il.percent` with `COALESCE(..., 0)`.  The `ORDER BY` clause only
affects presentation order and is not modelled; the claims about the
result are membership statements.  Application code then synthesizes a
`0 / 100` row for every requested month an item has no grouped row for.
-/

/-- The form fields of the availability query endpoint (already
URL-decoded strings; `itemtype_id` is `request.form.get(..., type=int)`). -/
structure AvailForm where
  itemtype_id : Option Int
  char_key : String
  char_value : String
  itemname_filter : String
  start_month : String
  end_month : String
deriving Repr, DecidableEq

/-- `str.strip()` on a `String`. -/
def stripStr (s : String) : String := String.mk (stripPy s.toList)

/-- The group key of the availability SQL query:
`(i.id, i.itemname, it.typename, il.monthyear)` (the month is `NULL`
on the left-join's null-extended row). -/
structure AvailKey where
  id : Int
  itemname : String
  typename : String
  monthyear : Option String
deriving Repr, DecidableEq

/-- `b.all p`: an optional filter clause that passes when the filter is
inactive (`none`) or its payload satisfies the test. -/
def optAll {α : Type} (p : α → Bool) : Option α → Bool
  | none => true
  | some a => p a

/-- The `WHERE` clause of the availability query, on one joined row.
`itemtypeF` is the itemtype filter (`if itemtype_id:` — Python
truthiness, so `0` and `None` both deactivate it), `charF` the
characteristic key/value pair (active when both are non-empty), and
`nameF` the item-name `LIKE` filter. -/
def availWhere (itemtypeF : Option Int) (charF : Option (String × String))
    (nameF : Option String) (start_month end_month : String)
    (i : ItemRow) (lo : Option LoadingRow) (ic : Option CharRow) : Bool :=
  optAll (fun t => i.fkitemtype = t) itemtypeF &&
  (match charF with
   | some (k, v) =>
       match ic with
       | some c => c.itemkey = k && containsSubCI v.toList c.itemvalue.toList
       | none => false
   | none => true) &&
  optAll (fun nf => containsSubCI nf.toList i.itemname.toList) nameF &&
  optAll (fun l => sqlBetween l.monthyear start_month end_month) lo

/-- The kept joined rows contributed by one `items`/`itemtypes` row
pair: the item's loading rows (or the single null-extended row when it
has none), crossed with its characteristic rows when the characteristic
filter is active, restricted to the `WHERE` clause. -/
def availIcOpts (db : DB) (charF : Option (String × String)) (i : ItemRow) :
    List (Option CharRow) :=
  match charF with
  | some _ => (db.itemcharacteristics.filter (fun c => c.fkitem = i.id)).map some
  | none => [none]

def loPercent : Option LoadingRow → ℚ
  | none => 0
  | some l => l.percent

def availLoRow (db : DB) (itemtypeF : Option Int)
    (charF : Option (String × String)) (nameF : Option String)
    (start_month end_month : String) (i : ItemRow) (it : ItemTypeRow)
    (lo : Option LoadingRow) : List (AvailKey × ℚ) :=
  (availIcOpts db charF i).filterMap fun ic =>
    if availWhere itemtypeF charF nameF start_month end_month i lo ic then
      some (⟨i.id, i.itemname, it.typename, lo.map (·.monthyear)⟩, loPercent lo)
    else none

def availItemRows (db : DB) (itemtypeF : Option Int)
    (charF : Option (String × String)) (nameF : Option String)
    (start_month end_month : String) (i : ItemRow) (it : ItemTypeRow) :
    List (AvailKey × ℚ) :=
  let los := db.itemloading.filter (fun l => l.fkitem = i.id)
  let loOpts : List (Option LoadingRow) := if los.isEmpty then [none] else los.map some
  loOpts.flatMap (availLoRow db itemtypeF charF nameF start_month end_month i it)

/-- The joined, filtered row set of the availability SQL query, before
grouping: each kept row is its group key plus its `il.percent`
contribution (`0` for the null-extended row, as `COALESCE(SUM(...),0)`
yields). -/
def availJoinedRows (db : DB) (itemtypeF : Option Int)
    (charF : Option (String × String)) (nameF : Option String)
    (start_month end_month : String) : List (AvailKey × ℚ) :=
  db.items.flatMap fun i =>
    (db.itemtypes.filter (fun it => it.id = i.fkitemtype)).flatMap fun it =>
      availItemRows db itemtypeF charF nameF start_month end_month i it

/-- One `GROUP BY` accumulation step: add the row's percent to its
group's sum, or open a new group. -/
def gStep (acc : List (AvailKey × ℚ)) (kv : AvailKey × ℚ) : List (AvailKey × ℚ) :=
  if acc.any (fun e => e.1 = kv.1) then
    acc.map (fun e => if e.1 = kv.1 then (e.1, e.2 + kv.2) else e)
  else acc ++ [kv]

/-- `GROUP BY` with `SUM`: fold the kept rows into per-key sums, keyed
in first-occurrence order. -/
def groupSum (rows : List (AvailKey × ℚ)) : List (AvailKey × ℚ) :=
  rows.foldl gStep []

/-- The summed percent of a grouped key (`none` when the key has no
row). -/
def lookupQ (l : List (AvailKey × ℚ)) (k : AvailKey) : Option ℚ :=
  (l.find? (fun kv => kv.1 = k)).map (·.2)

/-- The sum of the values of the rows carrying a given key. -/
def sumK (rows : List (AvailKey × ℚ)) (k : AvailKey) : ℚ :=
  ((rows.filter (fun kv => kv.1 = k)).map (·.2)).sum

/-- One row of the JSON `data` list of the availability report. -/
structure AvailDataRow where
  id : Int
  itemname : String
  typename : String
  monthyear : String
  allocated_percent : ℚ
  available_percent : ℚ
deriving Repr, DecidableEq

/-- One entry of the post-processing `items_dict`: item identity plus
its recorded `(monthyear → (allocated, available))` map. -/
structure AvailItemEntry where
  id : Int
  itemname : String
  typename : String
  months : List (String × ℚ × ℚ)
deriving Repr, DecidableEq

/-- The month-map update for one grouped row: record
`(allocated, available)` under the row's month (`NULL` months are not
recorded). -/
def monthsStep (ms : List (String × ℚ × ℚ)) (kv : AvailKey × ℚ) :
    List (String × ℚ × ℚ) :=
  match kv.1.monthyear with
  | none => ms
  | some m =>
      if ms.any (fun p => p.1 = m) then
        ms.map (fun p => if p.1 = m then (m, kv.2, 100 - kv.2) else p)
      else ms ++ [(m, kv.2, 100 - kv.2)]

/-- The month map produced by a run of grouped rows. -/
def monthsOfRows (ms : List (String × ℚ × ℚ)) (rs : List (AvailKey × ℚ)) :
    List (String × ℚ × ℚ) :=
  rs.foldl monthsStep ms

/-- One `items_dict` accumulation step: register the row's item on
first sight (with an empty month map), then record the row's month. -/
def iStep (acc : List AvailItemEntry) (kv : AvailKey × ℚ) : List AvailItemEntry :=
  let key := kv.1
  let acc' :=
    if acc.any (fun e => e.id = key.id) then acc
    else acc ++ [⟨key.id, key.itemname, key.typename, []⟩]
  match key.monthyear with
  | none => acc'
  | some _ =>
      acc'.map fun e =>
        if e.id = key.id then { e with months := monthsStep e.months kv } else e

/-- Build `items_dict` from the grouped SQL result rows: register each
item on first sight, and record `(allocated, available)` under the
month for every non-`NULL` `monthyear`. -/
def availItemsDict (grouped : List (AvailKey × ℚ)) : List AvailItemEntry :=
  grouped.foldl iStep []

/-- The report row of one registered item and one requested month: the
recorded row if one exists, else the synthesized
`allocated 0 / available 100` row. -/
def availRowFor (e : AvailItemEntry) (m : String) : AvailDataRow :=
  match e.months.find? (fun p => p.1 = m) with
  | some p => ⟨e.id, e.itemname, e.typename, m, p.2.1, p.2.2⟩
  | none => ⟨e.id, e.itemname, e.typename, m, 0, 100⟩

/-- The post-processed `data` list: for every registered item and every
month of the requested range, its report row. -/
def availData (itemsDict : List AvailItemEntry) (month_range : List String) :
    List AvailDataRow :=
  itemsDict.flatMap fun e =>
    month_range.map (availRowFor e)

/-- Result of the availability query endpoint before JSON rendering. -/
inductive AvailResponse where
  | badRequest (error : String) : AvailResponse
  | ok (data : List AvailDataRow) (itemtype_id : Option Int)
      (char_key char_value itemname_filter date_range : String) : AvailResponse
deriving Repr, DecidableEq

/-- The itemtype filter as the endpoint activates it
(`if itemtype_id:` — Python truthiness, so `None` and `0` deactivate). -/
def itemtypeFOf (form : AvailForm) : Option Int :=
  match form.itemtype_id with
  | some t => if t ≠ 0 then some t else none
  | none => none

/-- The characteristic filter (active when both stripped fields are
non-empty). -/
def charFOf (form : AvailForm) : Option (String × String) :=
  if stripStr form.char_key ≠ "" && stripStr form.char_value ≠ "" then
    some (stripStr form.char_key, stripStr form.char_value)
  else none

/-- The item-name filter (active when the stripped field is
non-empty). -/
def nameFOf (form : AvailForm) : Option String :=
  if stripStr form.itemname_filter ≠ "" then some (stripStr form.itemname_filter) else none

/-- The full `data` list of the availability report for a request. -/
def availDataOf (db : DB) (form : AvailForm) : List AvailDataRow :=
  availData
    (availItemsDict (groupSum (availJoinedRows db (itemtypeFOf form) (charFOf form)
      (nameFOf form) form.start_month form.end_month)))
    (generate_month_range form.start_month form.end_month)

/-- `availability.query_availability`: read and strip the filters,
reject a missing or invalid month range with a 400, otherwise run the
grouped query and post-process it into the full `data` list. -/
def query_availability (db : DB) (form : AvailForm) : AvailResponse :=
  if form.start_month ≠ "" && form.end_month ≠ "" then
    if (generate_month_range form.start_month form.end_month).isEmpty then
      AvailResponse.badRequest "Invalid date range"
    else
      AvailResponse.ok (availDataOf db form) form.itemtype_id (stripStr form.char_key)
        (stripStr form.char_value) (stripStr form.itemname_filter)
        (form.start_month ++ " to " ++ form.end_month)
  else AvailResponse.badRequest "Date range required"

/-- JSON rendering of one availability data row. -/
def availDataRowJson (r : AvailDataRow) : JVal :=
  JVal.obj
    [("id", JVal.num r.id), ("itemname", JVal.str r.itemname),
     ("typename", JVal.str r.typename), ("monthyear", JVal.str r.monthyear),
     ("allocated_percent", JVal.num r.allocated_percent),
     ("available_percent", JVal.num r.available_percent)]

/-- The HTTP status and JSON body of the availability query endpoint:
errors are `jsonify({'error': ...}), 400`, success is the
`{'success': True, 'data': ..., 'row_count': ..., 'filters': ...}`
body. -/
def availabilityResponse (db : DB) (form : AvailForm) : Nat × JVal :=
  match query_availability db form with
  | AvailResponse.badRequest e => (400, JVal.obj [("error", JVal.str e)])
  | AvailResponse.ok data itemtype_id ck cv nf dr =>
      (200, JVal.obj
        [("success", JVal.bool true),
         ("data", JVal.arr (data.map availDataRowJson)),
         ("row_count", JVal.num data.length),
         ("filters", JVal.obj
           [("itemtype_id", match itemtype_id with | some t => JVal.num t | none => JVal.null),
            ("char_key", JVal.str ck), ("char_value", JVal.str cv),
            ("itemname_filter", JVal.str nf), ("date_range", JVal.str dr)])])

/-! ## AI query endpoint (src/blueprints/ai_query.py lines 19-69)

The pipeline's outcome (or the exception it raises) is an input of the
model: the endpoint's own control flow is what claim C9 is about.
-/

/-- Phase-1 artifacts of the pipeline result. -/
structure PipelinePhase1 where
  prompt : String
  sql_query : String
  raw_response : String
deriving Repr, DecidableEq

/-- Phase-2 artifacts of the pipeline result. -/
structure PipelinePhase2 where
  raw_data : JVal
  pivot_data : JVal
  row_count : Nat
deriving Repr, BEq

/-- Phase-3 artifacts of the pipeline result. -/
structure PipelinePhase3 where
  prompt : String
  d3_code : String
  raw_response : String
deriving Repr, DecidableEq

/-- The three-phase pipeline result dict. -/
structure PipelineResult where
  phase1 : PipelinePhase1
  phase2 : PipelinePhase2
  phase3 : PipelinePhase3
deriving Repr, BEq

/-- A raised Python exception, as the endpoint reports it:
`str(e)` and `type(e).__name__`. -/
structure PyExc where
  message : String
  typeName : String
deriving Repr, DecidableEq

/-- `ai_query.process_query`: an empty prompt is rejected with
`jsonify({'error': 'No prompt provided'}), 400`; a pipeline exception
yields the 500 body with `success: False`, `error` and `error_type`;
success yields the 200 body with `success: True` and the three phases'
artifacts. -/
def ai_process_query (prompt : String) (pipeline : Except PyExc PipelineResult) :
    Nat × JVal :=
  if prompt = "" then (400, JVal.obj [("error", JVal.str "No prompt provided")])
  else
    match pipeline with
    | Except.ok r =>
        (200, JVal.obj
          [("success", JVal.bool true),
           ("phase1_sql_generation", JVal.obj
             [("prompt", JVal.str r.phase1.prompt),
              ("sql_query", JVal.str r.phase1.sql_query),
              ("ai_response", JVal.str r.phase1.raw_response)]),
           ("phase2_data_retrieval", JVal.obj
             [("raw_data", r.phase2.raw_data),
              ("pivot_data", r.phase2.pivot_data),
              ("row_count", JVal.num r.phase2.row_count)]),
           ("phase3_visualization", JVal.obj
             [("prompt", JVal.str r.phase3.prompt),
              ("d3_code", JVal.str r.phase3.d3_code),
              ("ai_response", JVal.str r.phase3.raw_response)])])
    | Except.error e =>
        (500, JVal.obj
          [("success", JVal.bool false),
           ("error", JVal.str e.message),
           ("error_type", JVal.str e.typeName)])

/-! ## Loading grid save (src/blueprints/loading.py lines 122-199)

`grid_save` walks the submitted form fields named
`percent-{item_id}-{monthyear}-{product_id}`, splitting the key at its
last and first hyphens, parsing the ids with `int(...)` and the value
with `float(...)` inside a `try/except` that records an error and
moves on.  Python `int`/`float` accept surrounding whitespace and an
optional sign; underscore digit grouping and exponent/`inf`/`nan`
float forms are not modelled (no grid form produces them).
-/

/-- Digits-to-value, `none` when empty or a non-digit appears. -/
def digitsVal? (ds : List Char) : Option Nat :=
  if ds.isEmpty || !ds.all isDigitChar then none
  else some (ds.foldl (fun acc c => 10 * acc + digitVal c) 0)

/-- Python `int(s)`: strip whitespace, optional `+`/`-` sign, one or
more digits. -/
def pyInt? (s : List Char) : Option Int :=
  match stripPy s with
  | '-' :: ds => (digitsVal? ds).map (fun n => -(n : Int))
  | '+' :: ds => (digitsVal? ds).map (fun n => (n : Int))
  | ds => (digitsVal? ds).map (fun n => (n : Int))

/-- An unsigned decimal as a rational: `digits`, `digits.`,
`digits.digits` or `.digits`. -/
def unsignedFloat? (s : List Char) : Option ℚ :=
  let intPart := s.takeWhile isDigitChar
  match s.drop intPart.length with
  | [] => (digitsVal? intPart).map (fun n => (n : ℚ))
  | '.' :: fracPart =>
      if !fracPart.all isDigitChar then none
      else if intPart.isEmpty && fracPart.isEmpty then none
      else
        some ((intPart.foldl (fun acc c => 10 * acc + digitVal c) 0 : ℚ) +
          (fracPart.foldl (fun acc c => 10 * acc + digitVal c) 0 : ℚ) /
            ((10 : ℚ) ^ fracPart.length))
  | _ => none

/-- Python `float(s)` on decimal notation: strip whitespace, optional
sign, unsigned decimal. -/
def pyFloat? (s : List Char) : Option ℚ :=
  match stripPy s with
  | '-' :: ds => (unsignedFloat? ds).map (fun q => -q)
  | '+' :: ds => (unsignedFloat? ds).map (fun q => q)
  | ds => unsignedFloat? ds

/-- `str.rfind('-')` split: text before and after the last hyphen
(`none` when the string has no hyphen, the `rfind == -1` case). -/
def splitAtLastHyphen? (s : List Char) : Option (List Char × List Char) :=
  let revAfter := s.reverse.takeWhile (fun c => c ≠ '-')
  match s.reverse.drop revAfter.length with
  | '-' :: revBefore => some (revBefore.reverse, revAfter.reverse)
  | _ => none

/-- `str.find('-')` split: text before and after the first hyphen. -/
def splitAtFirstHyphen? (s : List Char) : Option (List Char × List Char) :=
  let before := s.takeWhile (fun c => c ≠ '-')
  match s.drop before.length with
  | '-' :: after => some (before, after)
  | _ => none

/-- An error recorded by `grid_save` (message formatting abstracted):
either a `ValueError` caught while parsing a field, or the
`Invalid percent ...` range warning. -/
inductive GridError where
  | parseError (key : String) : GridError
  | invalidPercent (item_id : Int) (monthyear : String) (percent : ℚ) : GridError
deriving Repr, DecidableEq

/-- The running state of `grid_save`'s loop: the `itemloading` table,
the `updates` counter, and the accumulated `errors` (in order). -/
structure GridState where
  table : List LoadingRow
  updates : Nat
  errors : List GridError
deriving Repr, DecidableEq

/-- One iteration of `grid_save`'s field loop, in the code's order:
skip keys without the `percent-` prefix; split off `product_id` at the
last hyphen and `item_id`/`monthyear` at the first hyphen of the rest
(silently skipping malformed keys); parse the ids (`'None'` means a
null product); skip blank values; parse the value; record a warning
and skip values outside `0..100`; otherwise upsert. -/
def grid_save_field (st : GridState) (key value : String) : GridState :=
  if !isPrefixOfCS "percent-".toList key.toList then st
  else
    let kwp := key.toList.drop 8
    match splitAtLastHyphen? kwp with
    | none => st
    | some (remainder, product_id_str) =>
        match splitAtFirstHyphen? remainder with
        | none => st
        | some (item_id_str, monthyear) =>
            match pyInt? item_id_str with
            | none => { st with errors := st.errors ++ [GridError.parseError key] }
            | some item_id =>
                match (if product_id_str = "None".toList then some none
                       else (pyInt? product_id_str).map some) with
                | none => { st with errors := st.errors ++ [GridError.parseError key] }
                | some product_id =>
                    if value = "" || stripPy value.toList = [] then st
                    else
                      match pyFloat? value.toList with
                      | none => { st with errors := st.errors ++ [GridError.parseError key] }
                      | some percent =>
                          if !(0 ≤ percent && percent ≤ 100) then
                            { st with errors := st.errors ++
                                [GridError.invalidPercent item_id (String.mk monthyear) percent] }
                          else
                            { st with
                              table := upsert_loading st.table item_id
                                (String.mk monthyear) percent product_id
                              updates := st.updates + 1 }

/-- `loading.grid_save`: fold the field loop over the submitted form
pairs. -/
def grid_save (t : List LoadingRow) (form : List (String × String)) : GridState :=
  form.foldl (fun st kv => grid_save_field st kv.1 kv.2) ⟨t, 0, []⟩

/-! ## SQL extraction and auto-fix (src/ai_wrapper.py)

`_extract_sql` (lines 199-230), `_validate_and_fix_sql` (lines
248-394) and the tail of `phase1_generate_sql` (lines 556-574).  Each
regular expression of the source is transcribed into a `Matcher`
expression; the character classes never contain the delimiter that
follows them, so deterministic maximal-munch scanning agrees with
Python's backtracking engine (where a class can end one character
early — the `'%([^']+)%'` group — the single forced backtracking step
is written out).
-/

instance : Monad Matcher where
  pure := mPure
  bind := mBind

/-- The apostrophe character (written via its code point to keep the
pattern definitions readable). -/
def sq : Char := Char.ofNat 39

/-- `\bi\.itemtype\b` (FIX 1; the leading `\b` is the caller's
`needB`). -/
def patIItemtype : Matcher Unit := do
  mLitCI "i.itemtype".toList
  mBoundary

/-- `WHERE\s+i\.itemname\s+LIKE\s+'%([A-Z][A-Z0-9\s\-]+)%'` with
`re.IGNORECASE` (FIX 2 detection); yields the group. -/
def patProductLike : Matcher (List Char) := do
  mLitCI "where".toList; mWs1
  mLitCI "i.itemname".toList; mWs1
  mLitCI "like".toList; mWs1
  mLitCS "'%".toList
  let c ← mChar (fun c => isUpperA c || isLowerA c)
  let run ← mClassPlus (fun c =>
    isUpperA c || isLowerA c || isDigitChar c || isSpaceChar c || c = '-')
  mLitCS "%'".toList
  pure (c :: run)

/-- `WHERE\s+i\.itemname\s+LIKE\s+'%([^']+)%'` (FIX 2 rewrite); the
greedy `[^']+` run must end in `%` with the closing quote after it, so
the group is the run minus that `%`. -/
def patProductLikeSub : Matcher (List Char) := do
  mLitCI "where".toList; mWs1
  mLitCI "i.itemname".toList; mWs1
  mLitCI "like".toList; mWs1
  mLitCS "'%".toList
  fun t =>
    let r := t.takeWhile (fun c => c ≠ sq)
    if r.length ≥ 2 && r.getLast? = some '%' then
      match t.drop r.length with
      | c :: rest => if c = sq then some (r.dropLast, rest) else none
      | [] => none
    else none

/-- `it\.typename\s*=\s*['\"]STATION['\"]` (the STATION-filter
presence test of FIX 2). -/
def patStationEq : Matcher Unit := do
  mLitCI "it.typename".toList; mWsStar
  mLitCS "=".toList; mWsStar
  let _ ← mChar (fun c => c = sq || c = '"')
  mLitCI "STATION".toList
  let _ ← mChar (fun c => c = sq || c = '"')
  pure ()

/-- `JOIN\s+itemtypes\s+it\s+ON` (itemtypes-join presence test). -/
def patItemtypesJoin : Matcher Unit := do
  mLitCI "join".toList; mWs1
  mLitCI "itemtypes".toList; mWs1
  mLitCI "it".toList; mWs1
  mLitCI "on".toList

/-- `JOIN\s+items\s+i\s+ON\s+[^\n]+` (the items join, matched through
the end of its line, after which the itemtypes join is inserted). -/
def patItemsJoinLine : Matcher Unit := do
  mLitCI "join".toList; mWs1
  mLitCI "items".toList; mWs1
  mLitCI "i".toList; mWs1
  mLitCI "on".toList; mWs1
  let _ ← mClassPlus (fun c => c ≠ '\n')
  pure ()

/-- `WHERE\s+p\.itemname[^\n]+` (FIX 2's insertion point for the
STATION predicate). -/
def patWherePItemname : Matcher Unit := do
  mLitCI "where".toList; mWs1
  mLitCI "p.itemname".toList
  let _ ← mClassPlus (fun c => c ≠ '\n')
  pure ()

/-- FIX 3's subquery pattern
`WHERE\s+i\.fkitemtype\s*=\s*\(\s*SELECT\s+id\s+FROM\s+itemtypes\s+WHERE\s+\w+\.typename\s*=\s*["\'](\w+)["\']\s*\)`;
yields the typename group. -/
def patSubqueryTypeFilter : Matcher (List Char) := do
  mLitCI "where".toList; mWs1
  mLitCI "i.fkitemtype".toList; mWsStar
  mLitCS "=".toList; mWsStar
  mLitCS "(".toList; mWsStar
  mLitCI "select".toList; mWs1
  mLitCI "id".toList; mWs1
  mLitCI "from".toList; mWs1
  mLitCI "itemtypes".toList; mWs1
  mLitCI "where".toList; mWs1
  let _ ← mClassPlus isWordChar
  mLitCS ".".toList
  mLitCI "typename".toList; mWsStar
  mLitCS "=".toList; mWsStar
  let _ ← mChar (fun c => c = '"' || c = sq)
  let g ← mClassPlus isWordChar
  let _ ← mChar (fun c => c = '"' || c = sq)
  mWsStar
  mLitCS ")".toList
  pure g

/-- `\bWHERE\b` (with the caller's `needB` as the leading `\b`). -/
def patWhereWord : Matcher Unit := do
  mLitCI "where".toList
  mBoundary

/-- `\bWHERE\b\s*` (FIX 3's insertion point inside an existing `WHERE`
clause). -/
def patWhereWordWs : Matcher Unit := do
  mLitCI "where".toList
  mBoundary
  mWsStar

/-- `\b(GROUP BY|ORDER BY)\b`. -/
def patGroupOrOrderBy : Matcher Unit := do
  mOr (mLitCI "group by".toList) (mLitCI "order by".toList)
  mBoundary

/-- `\bit\.typename\b` (FIX 4's presence test). -/
def patItTypename : Matcher Unit := do
  mLitCI "it.typename".toList
  mBoundary

/-- `WHERE\s+typename\s*=` (FIX 5's trigger). -/
def patWhereTypenameEq : Matcher Unit := do
  mLitCI "where".toList; mWs1
  mLitCI "typename".toList; mWsStar
  mLitCS "=".toList

/-- `WHERE\s+it\.typename\s*=` (FIX 5's already-fixed test). -/
def patWhereItTypenameEq : Matcher Unit := do
  mLitCI "where".toList; mWs1
  mLitCI "it.typename".toList; mWsStar
  mLitCS "=".toList

/-- `\bWHERE\s+typename\b` (FIX 5's rewrite pattern). -/
def patWhereTypenameWord : Matcher Unit := do
  mLitCI "where".toList; mWs1
  mLitCI "typename".toList
  mBoundary

/-- `GROUP BY.*COALESCE` with `re.DOTALL` as a presence test: a
`GROUP BY` with a `COALESCE` anywhere after it. -/
def patGroupByCoalesceTest : Matcher Unit := fun s =>
  match mLitCI "group by".toList s with
  | some (_, rest) =>
      if containsSubCI "coalesce".toList rest then some ((), []) else none
  | none => none

/-- A lazy `(.*?)` group: the shortest prefix after which `tail`
matches; yields the group and the tail's value. -/
def mLazyUpTo {α : Type} (tail : Matcher α) : Matcher (List Char × α) := fun s =>
  match tail s with
  | some (a, rest) => some (([], a), rest)
  | none =>
      match s with
      | [] => none
      | c :: cs =>
          match mLazyUpTo tail cs with
          | some ((g, a), rest) => some ((c :: g, a), rest)
          | none => none

/-- `COALESCE\([^,]+,\s*["\']UNALLOCATED["\']\)` (tail of FIX 6's
rewrite pattern). -/
def patCoalesceTail : Matcher Unit := do
  mLitCI "coalesce(".toList
  let _ ← mClassPlus (fun c => c ≠ ',')
  mLitCS ",".toList; mWsStar
  let _ ← mChar (fun c => c = '"' || c = sq)
  mLitCI "unallocated".toList
  let _ ← mChar (fun c => c = '"' || c = sq)
  mLitCS ")".toList

/-- `GROUP BY\s+(.*?)COALESCE\([^,]+,\s*["\']UNALLOCATED["\']\)`
(FIX 6's rewrite pattern); yields the lazy group. -/
def patGroupByCoalesceSub : Matcher (List Char) := do
  mLitCI "group by".toList; mWs1
  let ga ← mLazyUpTo patCoalesceTail
  pure ga.1

/-- Insert `ins` right after the first match of `m` (no match: return
`s` unchanged, as the source's `if match:` guards do). -/
def insertAfterMatch {α : Type} (m : Matcher α) (needB : Bool) (ins s : List Char) :
    List Char :=
  match searchM m needB s with
  | some (_, _, rest) => s.take (s.length - rest.length) ++ ins ++ rest
  | none => s

/-- Insert `ins` right before the first match of `m`. -/
def insertBeforeMatch {α : Type} (m : Matcher α) (needB : Bool) (ins s : List Char) :
    List Char :=
  match searchM m needB s with
  | some (pre, _, _) => pre ++ ins ++ s.drop pre.length
  | none => s

/-- Strip a run of characters satisfying `p` from the end. -/
def rstripChars (p : Char → Bool) (s : List Char) : List Char :=
  (s.reverse.dropWhile p).reverse

/-- The product-name keywords of FIX 2. -/
def productKeywords : List String := ["BEEHIVE", "GENERIC", "VHAGAR", "R64", "R72", "OCM"]

/-- `LlamaQueryProcessor._validate_and_fix_sql`: the six auto-fixes, in
source order.  FIX 1 rewrites `i.itemtype`; FIX 2 redirects a
product-keyword filter from `i.itemname` to `p.itemname` and injects
the STATION join/filter; FIX 3 converts the itemtype subquery filter to
a join; FIX 4 backs `it.typename` references with the itemtypes join;
FIX 5 adds the missing `it.` alias to `WHERE typename`; FIX 6 removes
`COALESCE(..., 'UNALLOCATED')` from a `GROUP BY` clause. -/
def validate_and_fix_sql (sql0 : List Char) : List Char :=
  let s1 :=
    if hasMatch patIItemtype true sql0 then
      subAll patIItemtype (fun _ => "i.fkitemtype".toList) true sql0
    else sql0
  let s2 :=
    match searchM patProductLike false s1 with
    | some (_, group, _) =>
        if productKeywords.any (fun kw => containsSubCS kw.toList (group.map upperA)) then
          let sA := subAll patProductLikeSub
            (fun g => "WHERE p.itemname LIKE '%".toList ++ g ++ "%'".toList) false s1
          if hasMatch patStationEq false sA then sA
          else
            let sB :=
              if hasMatch patItemtypesJoin false sA then sA
              else insertAfterMatch patItemsJoinLine false
                "\n  JOIN itemtypes it ON i.fkitemtype = it.id".toList sA
            insertAfterMatch patWherePItemname false
              "\n  AND it.typename = 'STATION'".toList sB
        else s1
    | none => s1
  let s3 :=
    match searchM patSubqueryTypeFilter false s2 with
    | some (_, typename, _) =>
        let sA := subAll patSubqueryTypeFilter (fun _ => []) false s2
        let sB :=
          if hasMatch patItemtypesJoin false sA then sA
          else insertAfterMatch patItemsJoinLine false
            "\n  JOIN itemtypes it ON i.fkitemtype = it.id".toList sA
        if hasMatch patWhereWord true sB then
          insertAfterMatch patWhereWordWs true
            ("it.typename = '".toList ++ typename ++ "' AND ".toList) sB
        else
          match searchM patGroupOrOrderBy true sB with
          | some _ =>
              insertBeforeMatch patGroupOrOrderBy true
                ("WHERE it.typename = '".toList ++ typename ++ ("'" ++ "\n").toList) sB
          | none =>
              rstripChars isSpaceChar (rstripChars (fun c => c = ';') sB) ++
                ("\nWHERE it.typename = '".toList ++ typename ++ "';".toList)
    | none => s2
  let s4 :=
    if hasMatch patItTypename true s3 && !hasMatch patItemtypesJoin false s3 then
      insertAfterMatch patItemsJoinLine false
        "\n  JOIN itemtypes it ON i.fkitemtype = it.id".toList s3
    else s3
  let s5 :=
    if hasMatch patWhereTypenameEq false s4 && !hasMatch patWhereItTypenameEq false s4 then
      subAll patWhereTypenameWord (fun _ => "WHERE it.typename".toList) true s4
    else s4
  if hasMatch patGroupByCoalesceTest false s5 then
    subAll patGroupByCoalesceSub
      (fun g => "GROUP BY ".toList ++ g ++ "p.itemname".toList) false s5
  else s5

/-- Split at the first triple-backtick fence: the text before it and
the text after it. -/
def nextFence : List Char → Option (List Char × List Char)
  | [] => none
  | c :: cs =>
      if isPrefixOfCS ("``" ++ "`").toList (c :: cs) then some ([], cs.drop 2)
      else
        match nextFence cs with
        | some (pre, rest) => some (c :: pre, rest)
        | none => none

/-- The stripped group contents of every fenced code block, in
`re.findall` order (pattern
` ```sql\s*(.*?)\s*``` | ```\s*(.*?)\s*``` ` with `DOTALL` +
`IGNORECASE`): an opener optionally tagged `sql`, the enclosed text
with surrounding whitespace trimmed, then scanning resumes after the
closing fence.  An opener with no closing fence matches nothing. -/
def fencedGroups : Nat → List Char → List (List Char)
  | 0, _ => []
  | fuel + 1, s =>
      match nextFence s with
      | none => []
      | some (_, after) =>
          let body := if isPrefixOfCI "sql".toList after then after.drop 3 else after
          match nextFence body with
          | some (content, after2) => stripPy content :: fencedGroups fuel after2
          | none => []

/-- `SELECT\s+` (the head of the bare-statement fallback pattern). -/
def patSelectWs : Matcher Unit := do
  mLitCI "select".toList
  mWs1

/-- Take characters up to and including the first `;` (the whole rest
when there is none: the `(?:;|$)` alternative; a final `$`-before-
newline difference is erased by the `strip` that follows). -/
def takeThroughSemi (s : List Char) : List Char :=
  let pre := s.takeWhile (fun c => c ≠ ';')
  match s.drop pre.length with
  | ';' :: _ => pre ++ [';']
  | _ => pre

/-- First match of `SELECT\s+.*?(?:;|$)` (`DOTALL`, `IGNORECASE`):
from the first `SELECT` followed by whitespace through the first
semicolon, or to the end. -/
def findSelectStmt (s : List Char) : Option (List Char) :=
  match searchM patSelectWs false s with
  | some (pre, _, _) => some (takeThroughSemi (s.drop pre.length))
  | none => none

/-- The lead-in phrases `_extract_sql` strips as a last resort. -/
def leadInPrefixes : List String :=
  ["Here's the SQL query:", "SQL query:", "Query:", "Here is the query:"]

/-- `LlamaQueryProcessor._extract_sql`: first non-empty fenced code
block, else the first bare `SELECT` statement, else the stripped
response with any lead-in phrase removed. -/
def extract_sql (ai_response : List Char) : List Char :=
  match (fencedGroups (ai_response.length + 1) ai_response).find? (fun g => !g.isEmpty) with
  | some sql => sql
  | none =>
      match findSelectStmt ai_response with
      | some stmt => stripPy stmt
      | none =>
          leadInPrefixes.foldl
            (fun cleaned p =>
              if isPrefixOfCS p.toList cleaned then stripPy (cleaned.drop p.toList.length)
              else cleaned)
            (stripPy ai_response)

/-- The hard-coded safe fallback query of phase 1. -/
def fallbackQuery : String := "SELECT * FROM items LIMIT 10;"

/-- The `sql_query` produced by `phase1_generate_sql` from the model's
raw response: extraction, then the auto-fix pass, then the fallback
substitution when the result does not start with `SELECT`
(`sql_query.upper().startswith('SELECT')`). -/
def phase1_sql_query (ai_response : String) : String :=
  let sql_query := validate_and_fix_sql (extract_sql ai_response.toList)
  if isPrefixOfCS "SELECT".toList (sql_query.map upperA) then String.mk sql_query
  else fallbackQuery

/-! ## Resource-name extraction (src/fallback_viz.py lines 9-38)

`extract_resource_name` runs
`re.findall(r'\b([A-Z][a-z]+(?:\s+[A-Z][a-z]+)*)\b', user_prompt)`
(no `IGNORECASE`), drops the matches that equal a stop word, and
returns the first survivor.  A run of Title-Case words separated by
whitespace matches as one group; a candidate word followed by another
word character (so the trailing `\b` fails) cannot match at all, since
every shorter split of `[a-z]+` also lands inside the word. -/

/-- One `[A-Z][a-z]+` word with its trailing `\b`: an upper-case
letter, a maximal non-empty lower-case run, and no word character
right after. -/
def titleWord : Matcher (List Char) := fun s =>
  match s with
  | [] => none
  | c :: rest =>
      if isUpperA c then
        let low := rest.takeWhile isLowerA
        if low.isEmpty then none
        else
          match rest.drop low.length with
          | [] => some (c :: low, [])
          | d :: ds => if isWordChar d then none else some (c :: low, d :: ds)
      else none

/-- The greedy `(?:\s+[A-Z][a-z]+)*` continuation: keep consuming a
whitespace run followed by a clean Title-Case word. -/
def titleRunExt : Nat → List Char → List Char × List Char
  | 0, s => ([], s)
  | fuel + 1, s =>
      let ws := s.takeWhile isSpaceChar
      if ws.isEmpty then ([], s)
      else
        match titleWord (s.drop ws.length) with
        | some (w, rest) =>
            let (ext, rest') := titleRunExt fuel rest
            (ws ++ w ++ ext, rest')
        | none => ([], s)

/-- A full `[A-Z][a-z]+(?:\s+[A-Z][a-z]+)*` run. -/
def titleRun : Matcher (List Char) := fun s =>
  match titleWord s with
  | none => none
  | some (w, rest) =>
      let (ext, rest') := titleRunExt (rest.length + 1) rest
      some (w ++ ext, rest')

/-- `re.findall` of the name pattern: scan left to right, requiring the
leading `\b` (previous character not a word character), collecting each
run and resuming after it. -/
def titleRuns : Nat → Option Char → List Char → List (List Char)
  | 0, _, _ => []
  | _ + 1, _, [] => []
  | fuel + 1, prev, c :: cs =>
      let bOk := match prev with | none => true | some p => !isWordChar p
      match (if bOk then titleRun (c :: cs) else none) with
      | some (run, rest) => run :: titleRuns fuel run.getLast? rest
      | none => titleRuns fuel (some c) cs

/-- The stop words of `extract_resource_name`. -/
def commonWords : List String :=
  ["Show", "Give", "Display", "Usage", "Loading", "Month",
   "Year", "Next", "Time", "For", "The", "Allocation",
   "Capacity", "Utilization", "By", "Product", "Station",
   "Resource", "All", "List", "Get", "Find", "Search"]

/-- `fallback_viz.extract_resource_name`: the first capitalized-word
run that is not itself a stop word, or `None`. -/
def extract_resource_name (user_prompt : String) : Option String :=
  let found := titleRuns (user_prompt.toList.length + 1) none user_prompt.toList
  let names := found.filter (fun m => !commonWords.contains (String.mk m))
  names.head?.map String.mk

/-! ## Derived predicates and concrete instances used by the claims -/

/-- The item-level filters of the availability query (the loading-month
clause aside): type, characteristic and name, as they act on one item.
When the characteristic filter is active the `.any` matches the inner
join plus the `WHERE` key/`LIKE` clauses. -/
def itemPassesFilters (db : DB) (itemtypeF : Option Int)
    (charF : Option (String × String)) (nameF : Option String) (i : ItemRow) : Bool :=
  optAll (fun t => i.fkitemtype = t) itemtypeF &&
  (match charF with
   | some (k, v) =>
       db.itemcharacteristics.any fun c =>
         c.fkitem = i.id && c.itemkey = k && containsSubCI v.toList c.itemvalue.toList
   | none => true) &&
  optAll (fun nf => containsSubCI nf.toList i.itemname.toList) nameF

/-- Sum of the loading percentages of item `i` in month `m`. -/
def monthAllocSum (db : DB) (i : Int) (m : String) : ℚ :=
  ((db.itemloading.filter (fun l => l.fkitem = i && l.monthyear = m)).map (·.percent)).sum

/-- Number of `itemloading` rows matching an upsert key. -/
def keyCount (t : List LoadingRow) (fkitem : Int) (monthyear : String)
    (fkproduct : Option Int) : Nat :=
  (t.filter (fun r => loadingKeyMatches r fkitem monthyear fkproduct)).length

/-- A database whose only item is the `UNALLOCATED` product sentinel
(as the bootstrap creates it). -/
def unallocDB : DB :=
  { itemtypes := [⟨1, "PRODUCT"⟩],
    items := [⟨1, "UNALLOCATED", 1⟩],
    itemcharacteristics := [],
    itemloading := [],
    productrequirements := [],
    item_product_map := [] }

/-- A database with one resource whose only loading row lies outside
the month range requested below. -/
def availOutOfRangeDB : DB :=
  { itemtypes := [⟨1, "RESOURCE"⟩],
    items := [⟨1, "Alice", 1⟩],
    itemcharacteristics := [],
    itemloading := [⟨1, 1, 0, "2024-01", 50, none⟩],
    productrequirements := [],
    item_product_map := [] }

/-- The availability request with no filters and range 2025-01..2025-02. -/
def availOutOfRangeForm : AvailForm :=
  ⟨none, "", "", "", "2025-01", "2025-02"⟩

/-- A database whose single resource has one loading inside the range
of `availOutOfRangeForm`. -/
def availInRangeDB : DB :=
  { itemtypes := [⟨1, "RESOURCE"⟩],
    items := [⟨1, "Alice", 1⟩],
    itemcharacteristics := [],
    itemloading := [⟨1, 1, 0, "2025-01", 30, none⟩],
    productrequirements := [],
    item_product_map := [] }

/-- A database for the comparison examples: product 100, month 2025-01;
item 1 required 50 / allocated 30, item 2 allocated 70 with no
requirement, item 3 required and allocated 40. -/
def compareDB : DB :=
  { itemtypes := [⟨1, "RESOURCE"⟩, ⟨2, "PRODUCT"⟩],
    items := [⟨1, "Alice", 1⟩, ⟨2, "Bob", 1⟩, ⟨3, "Carol", 1⟩, ⟨100, "BEEHIVE 300G", 2⟩],
    itemcharacteristics := [],
    itemloading :=
      [⟨1, 1, 0, "2025-01", 30, some 100⟩,
       ⟨2, 2, 0, "2025-01", 70, some 100⟩,
       ⟨3, 3, 0, "2025-01", 40, some 100⟩],
    productrequirements :=
      [⟨1, 100, 1, "2025-01", 50⟩, ⟨2, 100, 3, "2025-01", 40⟩],
    item_product_map := [] }

/-- A generated SQL query whose `WHERE` clause ORs two single-word name
fragments against the item name (the multi-word-person-name pattern of
the claim). -/
def orNameQuery : String :=
  "SELECT i.itemname, il.monthyear, il.percent FROM itemloading il JOIN items i ON il.fkitem = i.id WHERE i.itemname LIKE '%Pavan%' OR i.itemname LIKE '%Eranki%' ORDER BY il.monthyear;"

/-- A second query of the same shape, with different fragments. -/
def orNameQuery2 : String :=
  "SELECT * FROM items i WHERE i.itemname LIKE '%Gabor%' OR i.itemname LIKE '%Farkas%';"

/-! ## Claim C6: `generate_month_range` -/

/-- C6 counterexample: `'2025-1'` is not a well-formed `YYYY-MM`
string, yet `generate_month_range` does not return the empty list on
it — `strptime('%Y-%m')` accepts a one-digit month, so
`generate_month_range('2025-1','2025-1')` is `['2025-01']`. -/
theorem c6_counterexample_single_digit_month :
    specWellFormedYYYYMM "2025-1" = false ∧
    generate_month_range "2025-1" "2025-1" = ["2025-01"] := by decide

/-- C6 (amended): `generate_month_range('2025-01','2025-03')` is
exactly `['2025-01','2025-02','2025-03']`; it returns `[]` whenever
either input fails the `strptime('%Y-%m')` parse (exactly four digits,
a hyphen, a one- or two-digit month `1..12`, nothing more) and
whenever the end month precedes the start month.  (Inputs with a
one-digit month parse successfully, so "any malformed input" is
narrowed to "any input strptime rejects".) -/
theorem c6_generate_month_range_amended :
    generate_month_range "2025-01" "2025-03" = ["2025-01", "2025-02", "2025-03"] ∧
    (∀ a b : String, pyStrptimeYM a.toList = none → generate_month_range a b = []) ∧
    (∀ a b : String, pyStrptimeYM b.toList = none → generate_month_range a b = []) ∧
    (∀ (a b : String) (ya ma yb mb : Nat),
      pyStrptimeYM a.toList = some (ya, ma) → pyStrptimeYM b.toList = some (yb, mb) →
      monthIndex yb mb < monthIndex ya ma → generate_month_range a b = []) := by
  refine ⟨by decide, ?_, ?_, ?_⟩
  · intro a b h
    have h' : pyStrptimeYM a.data = none := h
    simp [generate_month_range, String.toList, h']
  · intro a b h
    have h' : pyStrptimeYM b.data = none := h
    cases hpa : pyStrptimeYM a.data with
    | none => simp [generate_month_range, String.toList, hpa, h']
    | some p => simp [generate_month_range, String.toList, hpa, h']
  · intro a b ya ma yb mb ha hb hlt
    have ha' : pyStrptimeYM a.data = some (ya, ma) := ha
    have hb' : pyStrptimeYM b.data = some (yb, mb) := hb
    simp only [generate_month_range, String.toList, ha', hb']
    rw [if_neg (by omega)]

/-- Witness for the amended C6 theorem: a rejected month `'2025-00'`
and a reversed range both yield `[]`. -/
theorem c6_generate_month_range_amended_witness :
    (pyStrptimeYM (String.toList "2025-00") = none ∧
      generate_month_range "2025-00" "2025-02" = []) ∧
    (pyStrptimeYM (String.toList "2025-03") = some (2025, 3) ∧
      pyStrptimeYM (String.toList "2025-01") = some (2025, 1) ∧
      monthIndex 2025 1 < monthIndex 2025 3 ∧
      generate_month_range "2025-03" "2025-01" = []) :=
  ⟨⟨by decide, c6_generate_month_range_amended.2.1 "2025-00" "2025-02" (by decide)⟩,
   ⟨by decide, by decide, by decide,
    c6_generate_month_range_amended.2.2.2 "2025-03" "2025-01" 2025 3 2025 1
      (by decide) (by decide) (by decide)⟩⟩

/-! ## Claim C3: `UNALLOCATED` deletion -/

/-- C3 counterexample: the generic items blueprint's delete removes
the `UNALLOCATED` row — it performs no `UNALLOCATED` guard — so not
every delete operation of the application rejects it. -/
theorem c3_counterexample_items_delete_removes_unallocated :
    unallocDB.items.find? (fun i => i.id = 1) = some ⟨1, "UNALLOCATED", 1⟩ ∧
    (items_delete_item unallocDB 1).1 = DeleteOutcome.deleted ∧
    (items_delete_item unallocDB 1).2.items.find? (fun i => i.id = 1) = none := by decide

/-- C3 (amended): the products blueprint's delete always rejects the
item named `UNALLOCATED` and leaves the database unchanged,
independent of usage; but the generic items blueprint's delete removes
any existing item unconditionally — `UNALLOCATED` included — with no
usage check and no guard. -/
theorem c3_unallocated_delete_amended :
    (∀ (db : DB) (id : Int) (p : ItemRow),
      db.items.find? (fun i => i.id = id) = some p → p.itemname = "UNALLOCATED" →
      products_delete_product db id = (DeleteOutcome.reservedUnallocated, db)) ∧
    (∀ (db : DB) (id : Int) (p : ItemRow),
      db.items.find? (fun i => i.id = id) = some p →
      (items_delete_item db id).1 = DeleteOutcome.deleted ∧
      (items_delete_item db id).2.items = db.items.filter (fun i => i.id ≠ id)) := by
  constructor
  · intro db id p hfind hname
    simp [products_delete_product, hfind, hname]
  · intro db id p hfind
    simp [items_delete_item, hfind, deleteItemCascade]

/-- Witness for the amended C3 theorem, on the bootstrap database. -/
theorem c3_unallocated_delete_amended_witness :
    (unallocDB.items.find? (fun i => i.id = 1) = some ⟨1, "UNALLOCATED", 1⟩ ∧
      (⟨1, "UNALLOCATED", 1⟩ : ItemRow).itemname = "UNALLOCATED" ∧
      products_delete_product unallocDB 1 = (DeleteOutcome.reservedUnallocated, unallocDB)) ∧
    ((items_delete_item unallocDB 1).1 = DeleteOutcome.deleted ∧
      (items_delete_item unallocDB 1).2.items =
        unallocDB.items.filter (fun i => i.id ≠ 1)) :=
  ⟨⟨by decide, by decide,
    c3_unallocated_delete_amended.1 unallocDB 1 ⟨1, "UNALLOCATED", 1⟩ (by decide) (by decide)⟩,
   c3_unallocated_delete_amended.2 unallocDB 1 ⟨1, "UNALLOCATED", 1⟩ (by decide)⟩

/-! ## Claim C9: JSON error bodies -/

/-- C9 counterexample: the availability endpoint's missing-date-range
rejection is `jsonify({'error': 'Date range required'}), 400` — its
body has no `success` key at all, so not every JSON API error response
carries `success: false`.  (The AI endpoint's missing-prompt rejection
is likewise a bare `{'error': ...}`.) -/
theorem c9_counterexample_missing_params_lack_success :
    availabilityResponse unallocDB ⟨none, "", "", "", "", ""⟩ =
      (400, JVal.obj [("error", JVal.str "Date range required")]) ∧
    jLookup (availabilityResponse unallocDB ⟨none, "", "", "", "", ""⟩).2 "success" = none ∧
    (∀ pipeline, ai_process_query "" pipeline =
      (400, JVal.obj [("error", JVal.str "No prompt provided")])) :=
  ⟨rfl, rfl, fun _ => rfl⟩

/-- C9 (amended): the missing-required-parameter rejections return 400
with a body holding only an `error` field (no `success` key): the
availability endpoint's missing date range and the AI endpoint's
missing prompt.  Only the AI endpoint's unexpected-failure path
returns a body with `success: false` together with `error` and
`error_type`, under status 500. -/
theorem c9_error_bodies_amended :
    (∀ (db : DB) (form : AvailForm),
      (form.start_month = "" ∨ form.end_month = "") →
      availabilityResponse db form =
        (400, JVal.obj [("error", JVal.str "Date range required")])) ∧
    (∀ pipeline, ai_process_query "" pipeline =
      (400, JVal.obj [("error", JVal.str "No prompt provided")])) ∧
    (∀ (prompt : String) (e : PyExc), prompt ≠ "" →
      (ai_process_query prompt (Except.error e)).1 = 500 ∧
      jLookup (ai_process_query prompt (Except.error e)).2 "success" =
        some (JVal.bool false) ∧
      jLookup (ai_process_query prompt (Except.error e)).2 "error" =
        some (JVal.str e.message) ∧
      jLookup (ai_process_query prompt (Except.error e)).2 "error_type" =
        some (JVal.str e.typeName)) := by
  refine ⟨?_, fun _ => rfl, ?_⟩
  · intro db form h
    have hcond : ¬(¬form.start_month = "" ∧ ¬form.end_month = "") := by
      rcases h with h | h <;> simp [h]
    simp [availabilityResponse, query_availability, hcond]
  · intro prompt e h
    simp [ai_process_query, h, jLookup]

/-- Witness for the amended C9 theorem. -/
theorem c9_error_bodies_amended_witness :
    (("" : String) = "" ∨ ("2025-02" : String) = "") ∧
    availabilityResponse unallocDB ⟨none, "", "", "", "", "2025-02"⟩ =
      (400, JVal.obj [("error", JVal.str "Date range required")]) ∧
    (("ask" : String) ≠ "" ∧
      (ai_process_query "ask" (Except.error ⟨"boom", "RuntimeError"⟩)).1 = 500 ∧
      jLookup (ai_process_query "ask" (Except.error ⟨"boom", "RuntimeError"⟩)).2 "success" =
        some (JVal.bool false)) :=
  ⟨Or.inl rfl,
   c9_error_bodies_amended.1 unallocDB ⟨none, "", "", "", "", "2025-02"⟩ (Or.inl rfl),
   by simp,
   (c9_error_bodies_amended.2.2 "ask" ⟨"boom", "RuntimeError"⟩ (by simp)).1,
   (c9_error_bodies_amended.2.2 "ask" ⟨"boom", "RuntimeError"⟩ (by simp)).2.1⟩

/-! ## Claim C7: phase-1 fallback substitution -/

/-- C7: for every model response, if the text left after SQL extraction
and the auto-fix pass does not begin with `SELECT` case-insensitively
(`sql_query.upper().startswith('SELECT')`), phase 1 returns exactly
`SELECT * FROM items LIMIT 10;`, and otherwise it returns the
extracted-and-fixed text unchanged.  Concrete instances: a response
with no SQL at all falls back, a fenced `SELECT` is kept as extracted. -/
theorem c7_phase1_fallback :
    (∀ r : String,
      phase1_sql_query r =
        if isPrefixOfCS "SELECT".toList
            ((validate_and_fix_sql (extract_sql r.toList)).map upperA) then
          String.mk (validate_and_fix_sql (extract_sql r.toList))
        else "SELECT * FROM items LIMIT 10;") ∧
    fallbackQuery = "SELECT * FROM items LIMIT 10;" ∧
    phase1_sql_query "I cannot answer that." = "SELECT * FROM items LIMIT 10;" ∧
    phase1_sql_query "```sql\nselect itemname FROM items;\n```" =
      "select itemname FROM items;" :=
  ⟨fun _ => rfl, rfl, by decide, by decide⟩

/-! ## Claim C8: the multi-word-person-name rewrite -/

set_option maxRecDepth 40000 in
/-- C8 counterexample: `orNameQuery` ORs the single-word fragments
`Pavan` and `Eranki` against the item name, yet the auto-fix pass
returns it completely unchanged: no clause matching the concatenated
forms (`PavanEranki` / `ErankiPavan`) is produced, and the two `LIKE`
predicates are not merged.  `_validate_and_fix_sql` contains no
multi-word-person-name rewrite. -/
theorem c8_counterexample_no_or_fragments_rewrite :
    containsSubCS "WHERE i.itemname LIKE '%Pavan%' OR i.itemname LIKE '%Eranki%'".toList
      orNameQuery.toList = true ∧
    String.mk (validate_and_fix_sql orNameQuery.toList) = orNameQuery ∧
    containsSubCS "PavanEranki".toList (validate_and_fix_sql orNameQuery.toList) = false ∧
    containsSubCS "ErankiPavan".toList (validate_and_fix_sql orNameQuery.toList) = false := by
  decide

set_option maxRecDepth 40000 in
/-- C8 (amended): the auto-fix pass has no rewrite for the
multi-word-person-name pattern; a generated query whose `WHERE` clause
ORs two single-word name fragments against the item name (and that
triggers none of the six implemented fixes) passes through the auto-fix
unchanged. -/
theorem c8_no_multiword_rewrite_amended :
    String.mk (validate_and_fix_sql orNameQuery2.toList) = orNameQuery2 ∧
    containsSubCS "GaborFarkas".toList (validate_and_fix_sql orNameQuery2.toList) = false ∧
    containsSubCS "FarkasGabor".toList (validate_and_fix_sql orNameQuery2.toList) = false := by
  decide

/-! ## Claim C10: `extract_resource_name` -/

/-- C10: a candidate is discarded only when the entire capitalized run
equals a stop word: `'Show Pavan Eranki usage'` yields the whole run
`'Show Pavan Eranki'` (command word included), not `'Pavan Eranki'`;
and the result is `None` exactly when every capitalized run equals a
stop word (e.g. `'Show usage'`, whose only run is `'Show'`). -/
theorem c10_extract_resource_name_spec :
    extract_resource_name "Show Pavan Eranki usage" = some "Show Pavan Eranki" ∧
    extract_resource_name "Show usage" = none ∧
    (∀ p : String, extract_resource_name p = none ↔
      ∀ m ∈ titleRuns (p.toList.length + 1) none p.toList,
        commonWords.contains (String.mk m) = true) := by
  refine ⟨by decide, by decide, ?_⟩
  intro p
  simp only [extract_resource_name]
  rw [Option.map_eq_none', List.head?_eq_none_iff, List.filter_eq_nil_iff]
  simp

/-! ## Claim C5: `upsert_loading` -/

theorem mem_le_foldr_max {l : List Int} {x : Int} (hx : x ∈ l) : x ≤ l.foldr max 0 := by
  induction l with
  | nil => cases hx
  | cons a as ih =>
      rcases List.mem_cons.mp hx with h | h
      · exact h ▸ le_max_left a (as.foldr max 0)
      · exact le_trans (ih h) (le_max_right a (as.foldr max 0))

theorem nextLoadingId_not_mem (t : List LoadingRow) : ∀ r ∈ t, r.id ≠ nextLoadingId t := by
  intro r hr
  have : r.id ≤ (t.map (·.id)).foldr max 0 :=
    mem_le_foldr_max (List.mem_map_of_mem (·.id) hr)
  simp only [nextLoadingId]
  omega

theorem two_mem_one_lt_length {α : Type} {l : List α} {a b : α}
    (ha : a ∈ l) (hb : b ∈ l) (hne : a ≠ b) : 1 < l.length := by
  induction l with
  | nil => cases ha
  | cons c cs ih =>
      rcases List.mem_cons.mp ha with rfl | ha'
      · rcases List.mem_cons.mp hb with rfl | hb'
        · exact absurd rfl hne
        · have := List.length_pos_of_mem hb'
          simp only [List.length_cons]; omega
      · have := List.length_pos_of_mem ha'
        simp only [List.length_cons]; omega

/-- The fields of a row matching an upsert key. -/
theorem loadingKeyMatches_fields {r : LoadingRow} {item : Int} {my : String}
    {p : Option Int} (h : loadingKeyMatches r item my p = true) :
    r.fkitem = item ∧ r.monthyear = my ∧ r.fkproduct = p := by
  have h' : (r.fkitem = item ∧ r.monthyear = my) ∧ r.fkproduct = p := by
    simpa [loadingKeyMatches] using h
  exact ⟨h'.1.1, h'.1.2, h'.2⟩

/-- A percent-only update preserves the upsert key. -/
theorem loadingKeyMatches_setPercent (r : LoadingRow) (v : ℚ) (item : Int)
    (my : String) (p : Option Int) :
    loadingKeyMatches { r with percent := v } item my p = loadingKeyMatches r item my p := by
  simp [loadingKeyMatches]

/-- What one `upsert_loading` call does, stated for a table whose ids
are unique and that holds at most one row for the key. -/
theorem upsert_loading_once (t : List LoadingRow) (item : Int) (my : String)
    (p : Option Int) (v : ℚ)
    (hid : (t.map (·.id)).Nodup) (hk : keyCount t item my p ≤ 1) :
    keyCount (upsert_loading t item my v p) item my p = 1 ∧
    ((upsert_loading t item my v p).map (·.id)).Nodup ∧
    (∀ r ∈ upsert_loading t item my v p,
      loadingKeyMatches r item my p = true → r.percent = v) ∧
    (∀ r ∈ upsert_loading t item my v p,
      loadingKeyMatches r item my p = false → r ∈ t) ∧
    (∀ r ∈ t, loadingKeyMatches r item my p = false → r ∈ upsert_loading t item my v p) ∧
    (∀ r ∈ upsert_loading t item my v p, r ∉ t →
      r.fkitem = item ∧ r.monthyear = my ∧ r.fkproduct = p) ∧
    (∀ r ∈ upsert_loading t item my v p, loadingKeyMatches r item my p = true →
      r.dailyrollupexists = 0 ∨
        ∃ r0 ∈ t, loadingKeyMatches r0 item my p = true ∧
          r0.dailyrollupexists = r.dailyrollupexists) := by
  cases hfind : t.find? (fun r => loadingKeyMatches r item my p) with
  | none =>
      have hnone : ∀ r ∈ t, ¬ loadingKeyMatches r item my p = true :=
        fun r hr => by simpa using List.find?_eq_none.mp hfind r hr
      have hfilter : t.filter (fun r => loadingKeyMatches r item my p) = [] :=
        List.filter_eq_nil_iff.mpr hnone
      have hkeyNew :
          loadingKeyMatches ⟨nextLoadingId t, item, 0, my, v, p⟩ item my p = true := by
        simp [loadingKeyMatches]
      have hup : upsert_loading t item my v p =
          t ++ [⟨nextLoadingId t, item, 0, my, v, p⟩] := by
        unfold upsert_loading add_loading
        rw [hfind]
      rw [hup]
      refine ⟨?_, ?_, ?_, ?_, ?_, ?_, ?_⟩
      · simp [keyCount, List.filter_append, hfilter, hkeyNew]
      · have hnotmem : nextLoadingId t ∉ t.map (·.id) := by
          intro hmem
          obtain ⟨r, hr, hr'⟩ := List.mem_map.mp hmem
          exact nextLoadingId_not_mem t r hr hr'
        simp only [List.map_append, List.map_cons, List.map_nil]
        exact List.Nodup.append hid (List.nodup_singleton _)
          (by simpa [List.disjoint_singleton] using hnotmem)
      · intro r hr hkey
        rcases List.mem_append.mp hr with h | h
        · exact absurd hkey (hnone r h)
        · simp only [List.mem_singleton] at h; subst h; rfl
      · intro r hr hkey
        rcases List.mem_append.mp hr with h | h
        · exact h
        · simp only [List.mem_singleton] at h; subst h
          rw [hkeyNew] at hkey; cases hkey
      · intro r hr _; exact List.mem_append_left _ hr
      · intro r hr hnot
        rcases List.mem_append.mp hr with h | h
        · exact absurd h hnot
        · simp only [List.mem_singleton] at h; subst h
          exact ⟨rfl, rfl, rfl⟩
      · intro r hr hkey
        rcases List.mem_append.mp hr with h | h
        · exact absurd hkey (hnone r h)
        · simp only [List.mem_singleton] at h; subst h; exact Or.inl rfl
  | some e =>
      have hemem : e ∈ t := List.mem_of_find?_eq_some hfind
      have hekey : loadingKeyMatches e item my p = true := by
        have := List.find?_some hfind
        simpa using this
      have hinj := List.inj_on_of_nodup_map hid
      set f : LoadingRow → LoadingRow :=
        fun r => if r.id = e.id then { r with percent := v } else r with hf
      have hfid : ∀ r, (f r).id = r.id := by
        intro r; by_cases h : r.id = e.id <;> simp [hf, h]
      have hfkey : ∀ r, loadingKeyMatches (f r) item my p = loadingKeyMatches r item my p := by
        intro r; by_cases h : r.id = e.id <;> simp [hf, h, loadingKeyMatches]
      have hfe : f e = { e with percent := v } := by simp [hf]
      have hfother : ∀ r ∈ t, r ≠ e → f r = r := by
        intro r hr hne
        have : r.id ≠ e.id := fun h => hne (hinj hr hemem h)
        simp [hf, this]
      have huniq : ∀ r ∈ t, loadingKeyMatches r item my p = true → r = e := by
        intro r hr hkey
        by_contra hne
        have h2 : 1 < (t.filter (fun r => loadingKeyMatches r item my p)).length :=
          two_mem_one_lt_length (List.mem_filter.mpr ⟨hr, hkey⟩)
            (List.mem_filter.mpr ⟨hemem, hekey⟩) hne
        simp only [keyCount] at hk; omega
      have hup : upsert_loading t item my v p = t.map f := by
        unfold upsert_loading
        rw [hfind]
      rw [hup]
      refine ⟨?_, ?_, ?_, ?_, ?_, ?_, ?_⟩
      · have : (t.map f).filter (fun r => loadingKeyMatches r item my p) =
            (t.filter (fun r => loadingKeyMatches r item my p)).map f := by
          rw [List.filter_map]
          congr 1
          exact List.filter_congr (fun r _ => by rw [Function.comp_apply, hfkey])
        have hlen : keyCount (t.map f) item my p = keyCount t item my p := by
          simp [keyCount, this]
        have hge : 1 ≤ keyCount t item my p := by
          have : e ∈ t.filter (fun r => loadingKeyMatches r item my p) :=
            List.mem_filter.mpr ⟨hemem, hekey⟩
          have := List.length_pos_of_mem this
          simp only [keyCount]; omega
        omega
      · have : (t.map f).map (·.id) = t.map (·.id) := by
          rw [List.map_map]
          exact List.map_congr_left (fun r _ => hfid r)
        rw [this]; exact hid
      · intro r' hr' hkey
        obtain ⟨r, hr, rfl⟩ := List.mem_map.mp hr'
        by_cases h : r = e
        · rw [h, hfe]
        · rw [hfother r hr h] at hkey ⊢
          exact absurd (huniq r hr hkey) h
      · intro r' hr' hkey
        obtain ⟨r, hr, rfl⟩ := List.mem_map.mp hr'
        by_cases h : r = e
        · rw [hfkey r, h, hekey] at hkey; cases hkey
        · rw [hfother r hr h]; exact hr
      · intro r hr hkey
        have hne : r ≠ e := fun h => by rw [h, hekey] at hkey; cases hkey
        have : f r = r := hfother r hr hne
        exact List.mem_map.mpr ⟨r, hr, this⟩
      · intro r' hr' hnot
        obtain ⟨r, hr, rfl⟩ := List.mem_map.mp hr'
        by_cases h : r = e
        · rw [h, hfe]
          obtain ⟨h1, h2, h3⟩ := loadingKeyMatches_fields hekey
          exact ⟨h1, h2, h3⟩
        · rw [hfother r hr h] at hnot; exact absurd hr hnot
      · intro r' hr' hkey
        obtain ⟨r, hr, rfl⟩ := List.mem_map.mp hr'
        by_cases h : r = e
        · refine Or.inr ⟨e, hemem, hekey, ?_⟩
          rw [h, hfe]
        · rw [hfother r hr h] at hkey
          exact absurd (huniq r hr hkey) h

/-- C5: two successive `upsert_loading` calls with the same
`(fkitem, monthyear, fkproduct)` key — a provided and a null product id
being distinct keys by the lookup's `IS NULL` arm — leave exactly one
row for that key, holding the second call's percent; rows of any other
key (in particular the other product-id variant) are untouched, and a
row the calls created carries exactly that key and
`dailyrollupexists = 0`. -/
theorem c5_upsert_loading_twice (t : List LoadingRow) (item : Int) (my : String)
    (p : Option Int) (v1 v2 : ℚ)
    (hid : (t.map (·.id)).Nodup) (hk : keyCount t item my p ≤ 1) :
    keyCount (upsert_loading (upsert_loading t item my v1 p) item my v2 p) item my p = 1 ∧
    (∀ r ∈ upsert_loading (upsert_loading t item my v1 p) item my v2 p,
      loadingKeyMatches r item my p = true → r.percent = v2) ∧
    (∀ r ∈ upsert_loading (upsert_loading t item my v1 p) item my v2 p,
      loadingKeyMatches r item my p = false → r ∈ t) ∧
    (∀ r ∈ t, loadingKeyMatches r item my p = false →
      r ∈ upsert_loading (upsert_loading t item my v1 p) item my v2 p) ∧
    (∀ r ∈ upsert_loading (upsert_loading t item my v1 p) item my v2 p, r ∉ t →
      r.fkitem = item ∧ r.monthyear = my ∧ r.fkproduct = p) ∧
    (keyCount t item my p = 0 →
      ∀ r ∈ upsert_loading (upsert_loading t item my v1 p) item my v2 p,
        loadingKeyMatches r item my p = true → r.dailyrollupexists = 0) := by
  obtain ⟨h1cnt, h1id, h1pct, h1nk, h1nk', h1new, h1drx⟩ :=
    upsert_loading_once t item my p v1 hid hk
  obtain ⟨h2cnt, _, h2pct, h2nk, h2nk', h2new, h2drx⟩ :=
    upsert_loading_once (upsert_loading t item my v1 p) item my p v2 h1id (by omega)
  refine ⟨h2cnt, h2pct, ?_, ?_, ?_, ?_⟩
  · intro r hr hkey
    exact h1nk r (h2nk r hr hkey) hkey
  · intro r hr hkey
    exact h2nk' r (h1nk' r hr hkey) hkey
  · intro r hr hnot
    by_cases h : r ∈ upsert_loading t item my v1 p
    · exact h1new r h hnot
    · exact h2new r hr h
  · intro hzero r hr hkey
    have hall1 : ∀ r1 ∈ upsert_loading t item my v1 p,
        loadingKeyMatches r1 item my p = true → r1.dailyrollupexists = 0 := by
      intro r1 hr1 hkey1
      rcases h1drx r1 hr1 hkey1 with h | ⟨r0, hr0, hkey0, _⟩
      · exact h
      · have : r0 ∈ t.filter (fun r => loadingKeyMatches r item my p) :=
          List.mem_filter.mpr ⟨hr0, hkey0⟩
        have := List.length_pos_of_mem this
        simp only [keyCount] at hzero; omega
    rcases h2drx r hr hkey with h | ⟨r1, hr1, hkey1, heq⟩
    · exact h
    · rw [← heq]; exact hall1 r1 hr1 hkey1

/-- Witness for the C5 theorem: on the empty table, two upserts for
`(item 7, '2025-02', product 3)` leave one row with percent `80`. -/
theorem c5_upsert_loading_twice_witness :
    (([] : List LoadingRow).map (·.id)).Nodup ∧
    keyCount [] 7 "2025-02" (some 3) ≤ 1 ∧
    keyCount (upsert_loading (upsert_loading [] 7 "2025-02" 55 (some 3))
      7 "2025-02" 80 (some 3)) 7 "2025-02" (some 3) = 1 :=
  ⟨by decide, by decide,
   (c5_upsert_loading_twice [] 7 "2025-02" (some 3) 55 80 (by decide) (by decide)).1⟩

/-! ## Claim C4: grid save value handling -/

/-- A parsed float is never blank. -/
theorem pyFloat?_not_blank {value : String} {q : ℚ}
    (hq : pyFloat? value.toList = some q) :
    ¬(value = "" ∨ stripPy value.toList = []) := by
  intro h
  have hstrip : stripPy value.toList = [] := by
    rcases h with h | h
    · rw [h]; rfl
    · exact h
  rw [pyFloat?, hstrip] at hq
  simp [unsignedFloat?, digitsVal?] at hq

/-- C4: for a well-formed loading-grid field
`percent-{item}-{monthyear}-{product}`, a blank value is skipped (state
unchanged, no error), a numeric value outside `0..100` is recorded as a
warning with the state otherwise unchanged (not clamped, not saved),
and a value within `0..100` is upserted via `upsert_loading` with the
updates counter bumped. -/
theorem c4_grid_save_field_spec (st : GridState) (key value : String)
    (remainder product_id_str item_id_str monthyear : List Char)
    (item_id : Int) (product_id : Option Int)
    (hpfx : isPrefixOfCS "percent-".toList key.toList = true)
    (hsplit1 : splitAtLastHyphen? (key.toList.drop 8) = some (remainder, product_id_str))
    (hsplit2 : splitAtFirstHyphen? remainder = some (item_id_str, monthyear))
    (hitem : pyInt? item_id_str = some item_id)
    (hprod : (if product_id_str = "None".toList then some none
              else (pyInt? product_id_str).map some) = some product_id) :
    (value = "" ∨ stripPy value.toList = [] → grid_save_field st key value = st) ∧
    (∀ q : ℚ, pyFloat? value.toList = some q → (q < 0 ∨ 100 < q) →
      grid_save_field st key value =
        { st with errors := st.errors ++
            [GridError.invalidPercent item_id (String.mk monthyear) q] }) ∧
    (∀ q : ℚ, pyFloat? value.toList = some q → 0 ≤ q → q ≤ 100 →
      grid_save_field st key value =
        { st with
            table := upsert_loading st.table item_id (String.mk monthyear) q product_id,
            updates := st.updates + 1 }) := by
  refine ⟨?_, ?_, ?_⟩
  · intro hblank
    simp only [grid_save_field, hpfx, hsplit1, hsplit2, hitem, hprod, Bool.not_true,
      Bool.false_eq_true, if_false]
    rcases hblank with h | h
    · rw [if_pos (by simp [h])]
    · rw [if_pos (by simp only [Bool.or_eq_true, decide_eq_true_eq]; exact Or.inr h)]
  · intro q hq hout
    have hblank := pyFloat?_not_blank hq
    push_neg at hblank
    simp only [grid_save_field, hpfx, hsplit1, hsplit2, hitem, hprod, Bool.not_true,
      Bool.false_eq_true, if_false]
    rw [if_neg (by simp only [Bool.or_eq_true, decide_eq_true_eq]; exact fun hc => hc.elim hblank.1 hblank.2)]
    simp only [hq]
    rcases hout with h | h
    · rw [if_pos (by simp [not_le.mpr h])]
    · rw [if_pos (by simp [not_le.mpr h])]
  · intro q hq h0 h100
    have hblank := pyFloat?_not_blank hq
    push_neg at hblank
    simp only [grid_save_field, hpfx, hsplit1, hsplit2, hitem, hprod, Bool.not_true,
      Bool.false_eq_true, if_false]
    rw [if_neg (by simp only [Bool.or_eq_true, decide_eq_true_eq]; exact fun hc => hc.elim hblank.1 hblank.2)]
    simp only [hq]
    rw [if_neg (by simp [h0, h100])]

/-- Witness for the C4 theorem, on the field
`percent-7-2025-02-None`: `-5` and `150` are warned and not saved,
`50` is upserted, a blank is skipped. -/
theorem c4_grid_save_field_spec_witness :
    (isPrefixOfCS "percent-".toList ("percent-7-2025-02-None").toList = true ∧
      grid_save_field ⟨[], 0, []⟩ "percent-7-2025-02-None" " " = ⟨[], 0, []⟩) ∧
    (grid_save_field ⟨[], 0, []⟩ "percent-7-2025-02-None" "-5" =
      ⟨[], 0, [GridError.invalidPercent 7 "2025-02" (-5)]⟩) ∧
    (grid_save_field ⟨[], 0, []⟩ "percent-7-2025-02-None" "150" =
      ⟨[], 0, [GridError.invalidPercent 7 "2025-02" 150]⟩) ∧
    (grid_save_field ⟨[], 0, []⟩ "percent-7-2025-02-None" "50" =
      ⟨upsert_loading [] 7 "2025-02" 50 none, 1, []⟩) := by
  have h := c4_grid_save_field_spec ⟨[], 0, []⟩ "percent-7-2025-02-None" ""
  refine ⟨⟨by decide, ?_⟩, ?_, ?_, ?_⟩
  · exact (c4_grid_save_field_spec ⟨[], 0, []⟩ "percent-7-2025-02-None" " "
      "7-2025-02".toList "None".toList "7".toList "2025-02".toList 7 none
      (by decide) (by decide) (by decide) (by decide) (by decide)).1
      (Or.inr (by decide))
  · exact (c4_grid_save_field_spec ⟨[], 0, []⟩ "percent-7-2025-02-None" "-5"
      "7-2025-02".toList "None".toList "7".toList "2025-02".toList 7 none
      (by decide) (by decide) (by decide) (by decide) (by decide)).2.1
      (-5) (by decide) (Or.inl (by norm_num))
  · exact (c4_grid_save_field_spec ⟨[], 0, []⟩ "percent-7-2025-02-None" "150"
      "7-2025-02".toList "None".toList "7".toList "2025-02".toList 7 none
      (by decide) (by decide) (by decide) (by decide) (by decide)).2.1
      150 (by decide) (Or.inr (by norm_num))
  · exact (c4_grid_save_field_spec ⟨[], 0, []⟩ "percent-7-2025-02-None" "50"
      "7-2025-02".toList "None".toList "7".toList "2025-02".toList 7 none
      (by decide) (by decide) (by decide) (by decide) (by decide)).2.2
      50 (by decide) (by norm_num) (by norm_num)

/-! ## Claim C1: requirements-vs-allocations comparison -/

theorem dictInsert_keys {α : Type} (d : List (Int × α)) (k : Int) (v : α) :
    (dictInsert d k v).map (·.1) =
      if d.any (fun kv => kv.1 = k) then d.map (·.1) else d.map (·.1) ++ [k] := by
  unfold dictInsert
  split
  · rw [List.map_map]
    refine List.map_congr_left ?_
    intro kv _
    by_cases h : kv.1 = k <;> simp [h]
  · simp

theorem buildDict_keys_nodup {α : Type} (key : α → Int) (rows : List α) :
    ((buildDict key rows).map (·.1)).Nodup := by
  suffices h : ∀ d : List (Int × α), (d.map (·.1)).Nodup →
      ((rows.foldl (fun d r => dictInsert d (key r) r) d).map (·.1)).Nodup by
    exact h [] (by simp)
  induction rows with
  | nil => intro d hd; simpa using hd
  | cons r rs ih =>
      intro d hd
      refine ih (dictInsert d (key r) r) ?_
      rw [dictInsert_keys]
      split
      · exact hd
      · rename_i hany
        have hnot : key r ∉ d.map (·.1) := by
          intro hmem
          obtain ⟨kv, hkv, hk⟩ := List.mem_map.mp hmem
          exact hany (List.any_eq_true.mpr ⟨kv, hkv, by simp [hk]⟩)
        exact List.Nodup.append hd (List.nodup_singleton _)
          (by simpa [List.disjoint_singleton] using hnot)

theorem dictGet_eq_some_iff {α : Type} {d : List (Int × α)}
    (hnd : (d.map (·.1)).Nodup) (k : Int) (v : α) :
    dictGet d k = some v ↔ (k, v) ∈ d := by
  constructor
  · intro h
    obtain ⟨kv, hfind, hv⟩ : ∃ kv, d.find? (fun kv => kv.1 = k) = some kv ∧ kv.2 = v := by
      unfold dictGet at h
      cases hf : d.find? (fun kv => kv.1 = k) with
      | none => rw [hf] at h; cases h
      | some kv => rw [hf] at h; exact ⟨kv, rfl, by simpa using h⟩
    have hmem := List.mem_of_find?_eq_some hfind
    have hk : kv.1 = k := by simpa using List.find?_some hfind
    have : kv = (k, v) := Prod.ext hk hv
    exact this ▸ hmem
  · intro hmem
    have hinj := List.inj_on_of_nodup_map hnd
    cases hf : d.find? (fun kv => kv.1 = k) with
    | none =>
        have := List.find?_eq_none.mp hf (k, v) hmem
        simp at this
    | some kv =>
        have hmem' := List.mem_of_find?_eq_some hf
        have hk : kv.1 = k := by simpa using List.find?_some hf
        have : kv = (k, v) := hinj hmem' hmem (by simpa using hk)
        simp [dictGet, hf, this]

theorem map_filterMap_sublist {α β γ : Type} (f : α → Option β) (key : β → γ)
    (pk : α → γ) (l : List α) (h : ∀ a b, f a = some b → key b = pk a) :
    ((l.filterMap f).map key).Sublist (l.map pk) := by
  induction l with
  | nil => simp
  | cons a as ih =>
      cases hf : f a with
      | none => simpa [List.filterMap_cons, hf] using ih.cons (pk a)
      | some b =>
          simpa [List.filterMap_cons, hf, h a b hf] using ih.cons₂ (pk a)

/-- C1: the gaps list holds exactly the items of the requirement map
that are absent from the allocation map (with `allocated_percent 0` and
`gap_percent` the required percent) or allocated strictly less than
required (`gap_percent = required - allocated`); the excess list holds
exactly the items of the allocation map absent from the requirement map
(`excess_percent` the allocated percent) or allocated strictly more
(`excess_percent = allocated - required`); an item with equal
requirement and allocation appears in neither, and no item appears
twice in either list. -/
theorem c1_compare_requirements_vs_allocations (db : DB) (product_id : Int)
    (monthyear : String) :
    (∀ k : Int,
      (∃ g ∈ (compare_requirements_vs_allocations db product_id monthyear).gaps,
        g.fkitem = k) ↔
      (∃ req, dictGet (reqDict db product_id monthyear) k = some req ∧
        (dictGet (allocDict db product_id monthyear) k = none ∨
         ∃ al, dictGet (allocDict db product_id monthyear) k = some al ∧
           al.allocated_percent < req.required_percent))) ∧
    (∀ g ∈ (compare_requirements_vs_allocations db product_id monthyear).gaps,
      ∃ req, dictGet (reqDict db product_id monthyear) g.fkitem = some req ∧
        g.required_percent = req.required_percent ∧
        ((dictGet (allocDict db product_id monthyear) g.fkitem = none ∧
            g.allocated_percent = 0 ∧ g.gap_percent = req.required_percent) ∨
         (∃ al, dictGet (allocDict db product_id monthyear) g.fkitem = some al ∧
            al.allocated_percent < req.required_percent ∧
            g.allocated_percent = al.allocated_percent ∧
            g.gap_percent = req.required_percent - al.allocated_percent))) ∧
    (∀ k : Int,
      (∃ e ∈ (compare_requirements_vs_allocations db product_id monthyear).excess,
        e.fkitem = k) ↔
      (∃ al, dictGet (allocDict db product_id monthyear) k = some al ∧
        (dictGet (reqDict db product_id monthyear) k = none ∨
         ∃ req, dictGet (reqDict db product_id monthyear) k = some req ∧
           req.required_percent < al.allocated_percent))) ∧
    (∀ e ∈ (compare_requirements_vs_allocations db product_id monthyear).excess,
      ∃ al, dictGet (allocDict db product_id monthyear) e.fkitem = some al ∧
        e.allocated_percent = al.allocated_percent ∧
        ((dictGet (reqDict db product_id monthyear) e.fkitem = none ∧
            e.required_percent = 0 ∧ e.excess_percent = al.allocated_percent) ∨
         (∃ req, dictGet (reqDict db product_id monthyear) e.fkitem = some req ∧
            req.required_percent < al.allocated_percent ∧
            e.required_percent = req.required_percent ∧
            e.excess_percent = al.allocated_percent - req.required_percent))) ∧
    (∀ (k : Int) (req : ReqFetched) (al : AllocFetched),
      dictGet (reqDict db product_id monthyear) k = some req →
      dictGet (allocDict db product_id monthyear) k = some al →
      al.allocated_percent = req.required_percent →
      (∀ g ∈ (compare_requirements_vs_allocations db product_id monthyear).gaps,
        g.fkitem ≠ k) ∧
      (∀ e ∈ (compare_requirements_vs_allocations db product_id monthyear).excess,
        e.fkitem ≠ k)) ∧
    ((compare_requirements_vs_allocations db product_id monthyear).gaps.map
      (·.fkitem)).Nodup ∧
    ((compare_requirements_vs_allocations db product_id monthyear).excess.map
      (·.fkitem)).Nodup := by
  have hrd : (reqDict db product_id monthyear).map (·.1) |>.Nodup :=
    buildDict_keys_nodup _ _
  have had : (allocDict db product_id monthyear).map (·.1) |>.Nodup :=
    buildDict_keys_nodup _ _
  have hgaps : (compare_requirements_vs_allocations db product_id monthyear).gaps =
      (reqDict db product_id monthyear).filterMap
        (gapEntryOf (allocDict db product_id monthyear)) := rfl
  have hexcess : (compare_requirements_vs_allocations db product_id monthyear).excess =
      (allocDict db product_id monthyear).filterMap
        (excessEntryOf (reqDict db product_id monthyear)) := rfl
  have hgkey : ∀ kv g, gapEntryOf (allocDict db product_id monthyear) kv = some g →
      g.fkitem = kv.1 := by
    intro kv g h
    unfold gapEntryOf at h
    cases hl : dictGet (allocDict db product_id monthyear) kv.1 with
    | none => rw [hl] at h; cases h; rfl
    | some al =>
        rw [hl] at h
        simp only at h
        split at h
        · cases h; rfl
        · cases h
  have hekey : ∀ kv e, excessEntryOf (reqDict db product_id monthyear) kv = some e →
      e.fkitem = kv.1 := by
    intro kv e h
    unfold excessEntryOf at h
    cases hl : dictGet (reqDict db product_id monthyear) kv.1 with
    | none => rw [hl] at h; cases h; rfl
    | some req =>
        rw [hl] at h
        simp only at h
        split at h
        · cases h; rfl
        · cases h
  refine ⟨?_, ?_, ?_, ?_, ?_, ?_, ?_⟩
  · intro k
    rw [hgaps]
    constructor
    · rintro ⟨g, hg, rfl⟩
      obtain ⟨kv, hkv, hf⟩ := List.mem_filterMap.mp hg
      have hk := hgkey kv g hf
      have hreq : dictGet (reqDict db product_id monthyear) kv.1 = some kv.2 :=
        (dictGet_eq_some_iff hrd kv.1 kv.2).mpr hkv
      rw [hk]
      refine ⟨kv.2, hreq, ?_⟩
      unfold gapEntryOf at hf
      cases hl : dictGet (allocDict db product_id monthyear) kv.1 with
      | none => exact Or.inl rfl
      | some al =>
          rw [hl] at hf
          simp only at hf
          split at hf
          · rename_i hgt
            exact Or.inr ⟨al, rfl, by linarith⟩
          · cases hf
    · rintro ⟨req, hreq, hcond⟩
      have hkv : (k, req) ∈ reqDict db product_id monthyear :=
        (dictGet_eq_some_iff hrd k req).mp hreq
      rcases hcond with hl | ⟨al, hl, hlt⟩
      · refine ⟨⟨k, req.itemname, req.typename, req.required_percent, 0,
          req.required_percent⟩, ?_, rfl⟩
        exact List.mem_filterMap.mpr ⟨(k, req), hkv, by simp [gapEntryOf, hl]⟩
      · refine ⟨⟨k, req.itemname, req.typename, req.required_percent,
          al.allocated_percent, req.required_percent - al.allocated_percent⟩, ?_, rfl⟩
        refine List.mem_filterMap.mpr ⟨(k, req), hkv, ?_⟩
        simp only [gapEntryOf, hl]
        rw [if_pos (by linarith)]
  · intro g hg
    rw [hgaps] at hg
    obtain ⟨kv, hkv, hf⟩ := List.mem_filterMap.mp hg
    have hk := hgkey kv g hf
    have hreq : dictGet (reqDict db product_id monthyear) kv.1 = some kv.2 :=
      (dictGet_eq_some_iff hrd kv.1 kv.2).mpr hkv
    refine ⟨kv.2, hk ▸ hreq, ?_⟩
    unfold gapEntryOf at hf
    cases hl : dictGet (allocDict db product_id monthyear) kv.1 with
    | none =>
        rw [hl] at hf
        cases hf
        exact ⟨rfl, Or.inl ⟨hl, rfl, rfl⟩⟩
    | some al =>
        rw [hl] at hf
        simp only at hf
        split at hf
        · rename_i hgt
          cases hf
          exact ⟨rfl, Or.inr ⟨al, hl, by linarith, rfl, rfl⟩⟩
        · cases hf
  · intro k
    rw [hexcess]
    constructor
    · rintro ⟨e, he, rfl⟩
      obtain ⟨kv, hkv, hf⟩ := List.mem_filterMap.mp he
      have hk := hekey kv e hf
      have hal : dictGet (allocDict db product_id monthyear) kv.1 = some kv.2 :=
        (dictGet_eq_some_iff had kv.1 kv.2).mpr hkv
      rw [hk]
      refine ⟨kv.2, hal, ?_⟩
      unfold excessEntryOf at hf
      cases hl : dictGet (reqDict db product_id monthyear) kv.1 with
      | none => exact Or.inl rfl
      | some req =>
          rw [hl] at hf
          simp only at hf
          split at hf
          · rename_i hgt
            exact Or.inr ⟨req, rfl, by linarith⟩
          · cases hf
    · rintro ⟨al, hal, hcond⟩
      have hkv : (k, al) ∈ allocDict db product_id monthyear :=
        (dictGet_eq_some_iff had k al).mp hal
      rcases hcond with hl | ⟨req, hl, hlt⟩
      · refine ⟨⟨k, al.itemname, al.typename, 0, al.allocated_percent,
          al.allocated_percent⟩, ?_, rfl⟩
        exact List.mem_filterMap.mpr ⟨(k, al), hkv, by simp [excessEntryOf, hl]⟩
      · refine ⟨⟨k, al.itemname, al.typename, req.required_percent,
          al.allocated_percent, al.allocated_percent - req.required_percent⟩, ?_, rfl⟩
        refine List.mem_filterMap.mpr ⟨(k, al), hkv, ?_⟩
        simp only [excessEntryOf, hl]
        rw [if_pos (by linarith)]
  · intro e he
    rw [hexcess] at he
    obtain ⟨kv, hkv, hf⟩ := List.mem_filterMap.mp he
    have hk := hekey kv e hf
    have hal : dictGet (allocDict db product_id monthyear) kv.1 = some kv.2 :=
      (dictGet_eq_some_iff had kv.1 kv.2).mpr hkv
    refine ⟨kv.2, hk ▸ hal, ?_⟩
    unfold excessEntryOf at hf
    cases hl : dictGet (reqDict db product_id monthyear) kv.1 with
    | none =>
        rw [hl] at hf
        cases hf
        exact ⟨rfl, Or.inl ⟨hl, rfl, rfl⟩⟩
    | some req =>
        rw [hl] at hf
        simp only at hf
        split at hf
        · rename_i hgt
          cases hf
          exact ⟨rfl, Or.inr ⟨req, hl, by linarith, rfl, rfl⟩⟩
        · cases hf
  · intro k req al hreq hal heq
    constructor
    · intro g hg hk
      rw [hgaps] at hg
      obtain ⟨kv, hkv, hf⟩ := List.mem_filterMap.mp hg
      have hkk : kv.1 = k := by rw [← hgkey kv g hf, hk]
      have : dictGet (reqDict db product_id monthyear) kv.1 = some kv.2 :=
        (dictGet_eq_some_iff hrd kv.1 kv.2).mpr hkv
      have hkv2 : kv.2 = req := by
        rw [hkk] at this; rw [this] at hreq; exact Option.some.inj hreq
      unfold gapEntryOf at hf
      rw [hkk, hal] at hf
      simp only at hf
      rw [if_neg (by rw [hkv2, heq]; simp)] at hf
      cases hf
    · intro e he hk
      rw [hexcess] at he
      obtain ⟨kv, hkv, hf⟩ := List.mem_filterMap.mp he
      have hkk : kv.1 = k := by rw [← hekey kv e hf, hk]
      have : dictGet (allocDict db product_id monthyear) kv.1 = some kv.2 :=
        (dictGet_eq_some_iff had kv.1 kv.2).mpr hkv
      have hkv2 : kv.2 = al := by
        rw [hkk] at this; rw [this] at hal; exact Option.some.inj hal
      unfold excessEntryOf at hf
      rw [hkk, hreq] at hf
      simp only at hf
      rw [if_neg (by rw [hkv2, heq]; simp)] at hf
      cases hf
  · rw [hgaps]
    exact List.Nodup.sublist
      (map_filterMap_sublist (gapEntryOf (allocDict db product_id monthyear))
        (fun g : GapEntry => g.fkitem) (fun kv : Int × ReqFetched => kv.1)
        (reqDict db product_id monthyear) hgkey) hrd
  · rw [hexcess]
    exact List.Nodup.sublist
      (map_filterMap_sublist (excessEntryOf (reqDict db product_id monthyear))
        (fun e : ExcessEntry => e.fkitem) (fun kv : Int × AllocFetched => kv.1)
        (allocDict db product_id monthyear) hekey) had

/-- Witness for the C1 theorem, on the concrete comparison database:
item 1 (required 50, allocated 30) appears among the gaps, item 2
(allocated 70, no requirement) among the excess, and item 3 (equal 40)
in neither. -/
theorem c1_compare_requirements_vs_allocations_witness :
    (∃ g ∈ (compare_requirements_vs_allocations compareDB 100 "2025-01").gaps,
      g.fkitem = 1) ∧
    (∃ e ∈ (compare_requirements_vs_allocations compareDB 100 "2025-01").excess,
      e.fkitem = 2) ∧
    (∀ g ∈ (compare_requirements_vs_allocations compareDB 100 "2025-01").gaps,
      g.fkitem ≠ 3) ∧
    (∀ e ∈ (compare_requirements_vs_allocations compareDB 100 "2025-01").excess,
      e.fkitem ≠ 3) := by
  refine ⟨?_, ?_, ?_, ?_⟩
  · exact ((c1_compare_requirements_vs_allocations compareDB 100 "2025-01").1 1).mpr
      ⟨⟨1, "Alice", "RESOURCE", 50⟩, by decide,
       Or.inr ⟨⟨1, "Alice", "RESOURCE", 30⟩, by decide, by norm_num⟩⟩
  · exact ((c1_compare_requirements_vs_allocations compareDB 100 "2025-01").2.2.1 2).mpr
      ⟨⟨2, "Bob", "RESOURCE", 70⟩, by decide, Or.inl (by decide)⟩
  · exact ((c1_compare_requirements_vs_allocations compareDB 100 "2025-01").2.2.2.2.1
      3 ⟨3, "Carol", "RESOURCE", 40⟩ ⟨3, "Carol", "RESOURCE", 40⟩
      (by decide) (by decide) (by norm_num)).1
  · exact ((c1_compare_requirements_vs_allocations compareDB 100 "2025-01").2.2.2.2.1
      3 ⟨3, "Carol", "RESOURCE", 40⟩ ⟨3, "Carol", "RESOURCE", 40⟩
      (by decide) (by decide) (by norm_num)).2

/-! ## Claim C2: availability report

First, the arithmetic of `YYYY-MM` strings: `formatYM` output parses
back (so a generated month range is traversed correctly) and compares
under SQLite's byte ordering exactly as the month index does, which is
what puts every generated month inside the SQL `BETWEEN` filter. -/

theorem natDigit_toNat (n : Nat) : (natDigit n).toNat = 48 + n % 10 := by
  have h10 : n % 10 < 10 := Nat.mod_lt _ (by norm_num)
  unfold natDigit
  generalize hk : n % 10 = k at h10 ⊢
  interval_cases k <;> rfl

theorem isDigitChar_natDigit (n : Nat) : isDigitChar (natDigit n) = true := by
  have h10 : n % 10 < 10 := Nat.mod_lt _ (by norm_num)
  unfold natDigit
  generalize hk : n % 10 = k at h10
  interval_cases k <;> decide

theorem digitVal_natDigit (n : Nat) : digitVal (natDigit n) = n % 10 := by
  have h10 : n % 10 < 10 := Nat.mod_lt _ (by norm_num)
  unfold natDigit
  generalize hk : n % 10 = k at h10 ⊢
  interval_cases k <;> rfl

theorem parseMonthDirective_digits (m : Nat) (h1 : 1 ≤ m) (h2 : m ≤ 12) :
    parseMonthDirective [natDigit (m / 10), natDigit m] = some (m, []) := by
  interval_cases m <;> decide

theorem formatYM_toList (y m : Nat) :
    (formatYM y m).toList =
      [natDigit (y / 1000), natDigit (y / 100), natDigit (y / 10), natDigit y,
       '-', natDigit (m / 10), natDigit m] := rfl

theorem pyStrptimeYM_formatYM (y m : Nat) (hy : y < 10000) (h1 : 1 ≤ m) (h2 : m ≤ 12) :
    pyStrptimeYM (formatYM y m).toList = some (y, m) := by
  rw [formatYM_toList]
  have hd : (isDigitChar (natDigit (y / 1000)) && isDigitChar (natDigit (y / 100)) &&
      isDigitChar (natDigit (y / 10)) && isDigitChar (natDigit y)) = true := by
    simp [isDigitChar_natDigit]
  show (if (isDigitChar (natDigit (y / 1000)) && isDigitChar (natDigit (y / 100)) &&
      isDigitChar (natDigit (y / 10)) && isDigitChar (natDigit y)) = true then
      match parseMonthDirective [natDigit (m / 10), natDigit m] with
      | some (mv, []) =>
          some (1000 * digitVal (natDigit (y / 1000)) + 100 * digitVal (natDigit (y / 100)) +
            10 * digitVal (natDigit (y / 10)) + digitVal (natDigit y), mv)
      | _ => none
    else none) = some (y, m)
  rw [if_pos hd, parseMonthDirective_digits m h1 h2]
  show some (1000 * digitVal (natDigit (y / 1000)) + 100 * digitVal (natDigit (y / 100)) +
      10 * digitVal (natDigit (y / 10)) + digitVal (natDigit y), m) = some (y, m)
  simp only [digitVal_natDigit]
  have : 1000 * (y / 1000 % 10) + 100 * (y / 100 % 10) + 10 * (y / 10 % 10) + y % 10 = y := by
    omega
  rw [this]

theorem monthIndex_ofMonthIndex (i : Nat) :
    monthIndex (ofMonthIndex i).1 (ofMonthIndex i).2 = i := by
  simp only [monthIndex, ofMonthIndex]
  omega

theorem memcmpLe_cons_lt {a b : Char} {x y : List Char} (h : a.toNat < b.toNat) :
    memcmpLe (a :: x) (b :: y) = true := by
  simp [memcmpLe, h]

theorem memcmpLe_cons_eq {a b : Char} (x y : List Char) (h : a.toNat = b.toNat) :
    memcmpLe (a :: x) (b :: y) = memcmpLe x y := by
  simp [memcmpLe, h]

theorem memcmpLe_digits2 (a b : Nat) (hab : a ≤ b) (hhi : a / 100 = b / 100)
    (x y : List Char) (hxy : a = b → memcmpLe x y = true) :
    memcmpLe (natDigit (a / 10) :: natDigit a :: x)
      (natDigit (b / 10) :: natDigit b :: y) = true := by
  have hda : a / 10 / 10 = a / 100 := by rw [Nat.div_div_eq_div_mul]
  have hdb : b / 10 / 10 = b / 100 := by rw [Nat.div_div_eq_div_mul]
  by_cases h1 : a / 10 % 10 < b / 10 % 10
  · exact memcmpLe_cons_lt (by rw [natDigit_toNat, natDigit_toNat]; omega)
  · have e1 : a / 10 = b / 10 := by omega
    rw [memcmpLe_cons_eq _ _ (by rw [natDigit_toNat, natDigit_toNat, e1])]
    by_cases h2 : a % 10 < b % 10
    · exact memcmpLe_cons_lt (by rw [natDigit_toNat, natDigit_toNat]; omega)
    · have e2 : a = b := by omega
      rw [memcmpLe_cons_eq _ _ (by rw [natDigit_toNat, natDigit_toNat, e2])]
      exact hxy e2

theorem memcmpLe_digits4 (a b : Nat) (hab : a ≤ b) (hb : b < 10000)
    (x y : List Char) (hxy : a = b → memcmpLe x y = true) :
    memcmpLe (natDigit (a / 1000) :: natDigit (a / 100) :: natDigit (a / 10) ::
        natDigit a :: x)
      (natDigit (b / 1000) :: natDigit (b / 100) :: natDigit (b / 10) ::
        natDigit b :: y) = true := by
  have hda : a / 100 / 10 = a / 1000 := by rw [Nat.div_div_eq_div_mul]
  have hdb : b / 100 / 10 = b / 1000 := by rw [Nat.div_div_eq_div_mul]
  have ha4 : a / 1000 % 10 = a / 1000 := Nat.mod_eq_of_lt (by omega)
  have hb4 : b / 1000 % 10 = b / 1000 := Nat.mod_eq_of_lt (by omega)
  by_cases h1 : a / 1000 < b / 1000
  · exact memcmpLe_cons_lt (by rw [natDigit_toNat, natDigit_toNat, ha4, hb4]; omega)
  · have e1 : a / 1000 = b / 1000 := by omega
    rw [memcmpLe_cons_eq _ _ (by rw [natDigit_toNat, natDigit_toNat, ha4, hb4, e1])]
    by_cases h2 : a / 100 % 10 < b / 100 % 10
    · exact memcmpLe_cons_lt (by rw [natDigit_toNat, natDigit_toNat]; omega)
    · have e2 : a / 100 = b / 100 := by omega
      rw [memcmpLe_cons_eq _ _ (by rw [natDigit_toNat, natDigit_toNat, e2])]
      exact memcmpLe_digits2 a b hab e2 x y hxy

theorem memcmpLe_formatYM {y1 m1 y2 m2 : Nat}
    (hy2 : y2 < 10000) (hm1b : m1 ≤ 12) (hm2b : m2 ≤ 12)
    (h : monthIndex y1 m1 ≤ monthIndex y2 m2) (hm1a : 1 ≤ m1) (hm2a : 1 ≤ m2) :
    memcmpLe (formatYM y1 m1).toList (formatYM y2 m2).toList = true := by
  simp only [monthIndex] at h
  rw [formatYM_toList, formatYM_toList]
  refine memcmpLe_digits4 y1 y2 (by omega) hy2 _ _ ?_
  intro hyeq
  rw [memcmpLe_cons_eq _ _ rfl]
  exact memcmpLe_digits2 m1 m2 (by omega) (by omega) [] [] (fun _ => rfl)

theorem generate_month_range_formatYM (ys ms ye me : Nat)
    (hys : ys < 10000) (hms1 : 1 ≤ ms) (hms2 : ms ≤ 12)
    (hye : ye < 10000) (hme1 : 1 ≤ me) (hme2 : me ≤ 12) :
    generate_month_range (formatYM ys ms) (formatYM ye me) =
      if monthIndex ys ms ≤ monthIndex ye me then
        (List.range (monthIndex ye me - monthIndex ys ms + 1)).map fun i =>
          formatYM (ofMonthIndex (monthIndex ys ms + i)).1
            (ofMonthIndex (monthIndex ys ms + i)).2
      else [] := by
  unfold generate_month_range
  rw [pyStrptimeYM_formatYM ys ms hys hms1 hms2, pyStrptimeYM_formatYM ye me hye hme1 hme2]

/-- Every month of a generated range is a well-bounded `formatYM` and
satisfies the SQL `BETWEEN` filter against the range's endpoints. -/
theorem mem_generate_month_range_between (ys ms ye me : Nat)
    (hys : ys < 10000) (hms1 : 1 ≤ ms) (hms2 : ms ≤ 12)
    (hye : ye < 10000) (hme1 : 1 ≤ me) (hme2 : me ≤ 12)
    (m : String) (hm : m ∈ generate_month_range (formatYM ys ms) (formatYM ye me)) :
    ∃ yi mi : Nat, m = formatYM yi mi ∧ yi < 10000 ∧ 1 ≤ mi ∧ mi ≤ 12 ∧
      sqlBetween m (formatYM ys ms) (formatYM ye me) = true := by
  rw [generate_month_range_formatYM ys ms ye me hys hms1 hms2 hye hme1 hme2] at hm
  split at hm
  case isFalse => cases hm
  case isTrue hle =>
    obtain ⟨i, hi, rfl⟩ := List.mem_map.mp hm
    have hirange := List.mem_range.mp hi
    have hidxle : monthIndex ys ms + i ≤ monthIndex ye me := by
      simp only [monthIndex] at hle hirange ⊢
      omega
    have hyi : (ofMonthIndex (monthIndex ys ms + i)).1 < 10000 := by
      simp only [ofMonthIndex, monthIndex] at hidxle ⊢
      omega
    have hmi1 : 1 ≤ (ofMonthIndex (monthIndex ys ms + i)).2 := by
      simp [ofMonthIndex]
    have hmi2 : (ofMonthIndex (monthIndex ys ms + i)).2 ≤ 12 := by
      simp only [ofMonthIndex]
      omega
    refine ⟨(ofMonthIndex (monthIndex ys ms + i)).1,
      (ofMonthIndex (monthIndex ys ms + i)).2, rfl, hyi, hmi1, hmi2, ?_⟩
    unfold sqlBetween
    rw [memcmpLe_formatYM hyi hms2 hmi2
        (by rw [monthIndex_ofMonthIndex]; omega) hms1 hmi1,
      memcmpLe_formatYM hye hmi2 hme2
        (by rw [monthIndex_ofMonthIndex]; exact hidxle) hmi1 hme1]
    rfl

/-! ### `GROUP BY` fold lemmas -/

theorem find?_congr_mem {α : Type} {p q : α → Bool} {l : List α}
    (h : ∀ a ∈ l, p a = q a) : l.find? p = l.find? q := by
  induction l with
  | nil => rfl
  | cons a as ih =>
      rw [List.find?_cons, List.find?_cons, h a (List.mem_cons_self a as)]
      split
      · rfl
      · exact ih (fun x hx => h x (List.mem_cons_of_mem a hx))

theorem lookupQ_map_upd (acc : List (AvailKey × ℚ)) (k' : AvailKey) (v' : ℚ)
    (k : AvailKey) :
    lookupQ (acc.map (fun e => if e.1 = k' then (e.1, e.2 + v') else e)) k =
      (lookupQ acc k).map (fun v => if k = k' then v + v' else v) := by
  unfold lookupQ
  rw [List.find?_map]
  rw [find?_congr_mem (q := fun kv : AvailKey × ℚ => kv.1 = k) (fun e _ => by
    by_cases h : e.1 = k' <;> simp [h])]
  cases hf : acc.find? (fun kv => kv.1 = k) with
  | none => rfl
  | some e =>
      have hek : e.1 = k := by simpa using List.find?_some hf
      by_cases h : k = k'
      · simp [hek, h]
      · have hne : ¬ e.1 = k' := by rw [hek]; exact h
        simp [hne, h]

theorem lookupQ_isSome_iff_any (acc : List (AvailKey × ℚ)) (k : AvailKey) :
    (lookupQ acc k).isSome = acc.any (fun kv => kv.1 = k) := by
  unfold lookupQ
  by_cases h : acc.any (fun kv => kv.1 = k)
  · rw [h]
    cases hf : acc.find? (fun kv => kv.1 = k) with
    | some e => rfl
    | none =>
        obtain ⟨kv, hkv, hk⟩ := List.any_eq_true.mp h
        exact absurd hk (by simpa using List.find?_eq_none.mp hf kv hkv)
  · rw [Bool.eq_false_iff.mpr h]
    cases hf : acc.find? (fun kv => kv.1 = k) with
    | none => rfl
    | some kv =>
        exact absurd (List.any_eq_true.mpr
          ⟨kv, List.mem_of_find?_eq_some hf, List.find?_some hf⟩) h

theorem lookupQ_gStep (acc : List (AvailKey × ℚ)) (k' : AvailKey) (v' : ℚ)
    (k : AvailKey) :
    lookupQ (gStep acc (k', v')) k =
      if k = k' then
        match lookupQ acc k with
        | some v => some (v + v')
        | none => some v'
      else lookupQ acc k := by
  unfold gStep
  by_cases hany : acc.any (fun e => e.1 = k')
  · rw [if_pos hany, lookupQ_map_upd]
    by_cases h : k = k'
    · subst h
      cases hl : lookupQ acc k with
      | none =>
          have hs := lookupQ_isSome_iff_any acc k
          rw [hl, hany] at hs
          cases hs
      | some v => simp
    · cases hl : lookupQ acc k <;> simp [h]
  · rw [if_neg hany]
    have hsingle : List.find? (fun kv : AvailKey × ℚ => kv.1 = k) [(k', v')] =
        if k = k' then some (k', v') else none := by
      rcases eq_or_ne k k' with h | h
      · subst h; simp [List.find?_cons]
      · simp [List.find?_cons, Ne.symm h, h]
    unfold lookupQ
    rw [List.find?_append, hsingle]
    by_cases h : k = k'
    · subst h
      have hn : acc.find? (fun kv => kv.1 = k) = none := by
        cases hf : acc.find? (fun kv => kv.1 = k) with
        | none => rfl
        | some kv =>
            exact absurd (List.any_eq_true.mpr
              ⟨kv, List.mem_of_find?_eq_some hf, List.find?_some hf⟩) hany
      rw [hn, if_pos rfl, if_pos rfl]
      rfl
    · rw [if_neg h, if_neg h]
      cases hf : acc.find? (fun kv => kv.1 = k) <;> rfl

theorem sumK_cons (k' : AvailKey) (v' : ℚ) (rest : List (AvailKey × ℚ)) (k : AvailKey) :
    sumK ((k', v') :: rest) k = if k' = k then v' + sumK rest k else sumK rest k := by
  unfold sumK
  rw [List.filter_cons]
  by_cases h : k' = k <;> simp [h]

theorem groupSum_go_lookup (rows : List (AvailKey × ℚ)) :
    ∀ (acc : List (AvailKey × ℚ)) (k : AvailKey),
    lookupQ (rows.foldl gStep acc) k =
      match lookupQ acc k with
      | some v => some (v + sumK rows k)
      | none =>
          if rows.any (fun kv => kv.1 = k) then some (sumK rows k) else none := by
  induction rows with
  | nil =>
      intro acc k
      simp only [List.foldl_nil]
      cases hl : lookupQ acc k <;> simp [sumK]
  | cons kv rest ih =>
      intro acc k
      rw [List.foldl_cons, ih (gStep acc kv) k]
      obtain ⟨k', v'⟩ := kv
      rw [lookupQ_gStep, sumK_cons]
      by_cases h : k = k'
      · subst h
        rw [if_pos rfl, if_pos rfl]
        cases hl : lookupQ acc k with
        | none => simp [List.any_cons]
        | some v => simp [add_assoc]
      · have hne : k' ≠ k := Ne.symm h
        rw [if_neg h, if_neg hne]
        cases hl : lookupQ acc k with
        | none =>
            have hsame : (((k', v') :: rest).any fun kv => kv.1 = k) =
                (rest.any fun kv => kv.1 = k) := by
              simp [List.any_cons, hne]
            rw [hsame]
        | some v => rfl

theorem groupSum_lookup (rows : List (AvailKey × ℚ)) (k : AvailKey) :
    lookupQ (groupSum rows) k =
      if rows.any (fun kv => kv.1 = k) then some (sumK rows k) else none := by
  unfold groupSum
  rw [groupSum_go_lookup rows [] k]
  rfl

theorem groupSum_keys_sub (rows : List (AvailKey × ℚ)) :
    ∀ kv ∈ groupSum rows, ∃ kv' ∈ rows, kv'.1 = kv.1 := by
  intro kv hkv
  suffices h : ∀ acc : List (AvailKey × ℚ),
      kv ∈ rows.foldl gStep acc →
      (∃ kv' ∈ acc, kv'.1 = kv.1) ∨ (∃ kv' ∈ rows, kv'.1 = kv.1) by
    rcases h [] hkv with ⟨kv', hkv', _⟩ | h2
    · cases hkv'
    · exact h2
  clear hkv
  induction rows with
  | nil => intro acc h; exact Or.inl ⟨kv, by simpa using h, rfl⟩
  | cons r rest ih =>
      intro acc h
      rw [List.foldl_cons] at h
      rcases ih (gStep acc r) h with hacc | hrest
      · obtain ⟨kv', hkv', hk⟩ := hacc
        unfold gStep at hkv'
        by_cases hc : acc.any (fun e => e.1 = r.1)
        · rw [if_pos hc] at hkv'
          obtain ⟨e, he, hekv⟩ := List.mem_map.mp hkv'
          by_cases heq : e.1 = r.1
          · rw [if_pos heq] at hekv
            subst hekv
            exact Or.inl ⟨e, he, hk⟩
          · rw [if_neg heq] at hekv
            subst hekv
            exact Or.inl ⟨e, he, hk⟩
        · rw [if_neg hc] at hkv'
          rcases List.mem_append.mp hkv' with he | he
          · exact Or.inl ⟨kv', he, hk⟩
          · simp only [List.mem_singleton] at he
            subst he
            exact Or.inr ⟨kv', List.mem_cons_self kv' rest, hk⟩
      · obtain ⟨kv', hkv', hk⟩ := hrest
        exact Or.inr ⟨kv', List.mem_cons_of_mem r hkv', hk⟩

theorem groupSum_keys_nodup (rows : List (AvailKey × ℚ)) :
    ((groupSum rows).map (·.1)).Nodup := by
  suffices h : ∀ acc : List (AvailKey × ℚ), ((acc.map (·.1)).Nodup) →
      (((rows.foldl gStep acc).map (·.1)).Nodup) by
    exact h [] (by simp)
  induction rows with
  | nil => intro acc hacc; simpa using hacc
  | cons r rest ih =>
      intro acc hacc
      rw [List.foldl_cons]
      refine ih (gStep acc r) ?_
      unfold gStep
      split
      · have hkeys : (acc.map (fun e => if e.1 = r.1 then (e.1, e.2 + r.2) else e)).map
            (·.1) = acc.map (·.1) := by
          rw [List.map_map]
          refine List.map_congr_left ?_
          intro e _
          by_cases h : e.1 = r.1 <;> simp [h]
        rw [hkeys]; exact hacc
      · rename_i hany
        have hnot : r.1 ∉ acc.map (·.1) := by
          intro hmem
          obtain ⟨kv, hkv, hk⟩ := List.mem_map.mp hmem
          exact hany (List.any_eq_true.mpr ⟨kv, hkv, by simp [hk]⟩)
        rw [List.map_append]
        exact List.Nodup.append hacc (List.nodup_singleton _)
          (by simpa [List.disjoint_singleton] using hnot)

theorem filter_gStep (P : AvailKey → Bool) (acc : List (AvailKey × ℚ))
    (r : AvailKey × ℚ) :
    (gStep acc r).filter (fun kv => P kv.1) =
      if P r.1 then gStep (acc.filter (fun kv => P kv.1)) r
      else acc.filter (fun kv => P kv.1) := by
  unfold gStep
  by_cases hany : acc.any (fun e => e.1 = r.1)
  · rw [if_pos hany, List.filter_map]
    have hcomp : ((fun kv : AvailKey × ℚ => P kv.1) ∘
        (fun e => if e.1 = r.1 then (e.1, e.2 + r.2) else e)) =
        (fun kv : AvailKey × ℚ => P kv.1) := by
      funext e
      by_cases h : e.1 = r.1 <;> simp [h]
    rw [hcomp]
    by_cases hP : P r.1
    · rw [if_pos hP]
      have hany' : (acc.filter (fun kv => P kv.1)).any (fun e => e.1 = r.1) = true := by
        obtain ⟨kv, hkv, hk⟩ := List.any_eq_true.mp hany
        have hk' : kv.1 = r.1 := by simpa using hk
        exact List.any_eq_true.mpr
          ⟨kv, List.mem_filter.mpr ⟨hkv, by simpa [hk'] using hP⟩, hk⟩
      rw [if_pos hany']
    · rw [if_neg hP]
      have hid : ∀ e ∈ acc.filter (fun kv => P kv.1),
          (if e.1 = r.1 then (e.1, e.2 + r.2) else e) = e := by
        intro e he
        have heP : P e.1 = true := by simpa using (List.mem_filter.mp he).2
        have : ¬ e.1 = r.1 := by
          intro hc
          rw [hc] at heP
          exact hP (by simpa using heP)
        rw [if_neg this]
      rw [List.map_congr_left hid]
      simp
  · rw [if_neg hany]
    by_cases hP : P r.1
    · rw [if_pos hP]
      have hany' : ¬ (acc.filter (fun kv => P kv.1)).any (fun e => e.1 = r.1) = true := by
        intro hc
        obtain ⟨kv, hkv, hk⟩ := List.any_eq_true.mp hc
        exact hany (List.any_eq_true.mpr ⟨kv, (List.mem_filter.mp hkv).1, hk⟩)
      rw [if_neg hany']
      simp [List.filter_append, List.filter_cons, hP]
    · rw [if_neg hP]
      simp [List.filter_append, List.filter_cons, hP]

theorem groupSum_filter_key (P : AvailKey → Bool) (rows : List (AvailKey × ℚ)) :
    (groupSum rows).filter (fun kv => P kv.1) =
      groupSum (rows.filter (fun kv => P kv.1)) := by
  suffices h : ∀ acc : List (AvailKey × ℚ),
      (rows.foldl gStep acc).filter (fun kv => P kv.1) =
        (rows.filter (fun kv => P kv.1)).foldl gStep
          (acc.filter (fun kv => P kv.1)) by
    unfold groupSum
    rw [h []]
    rfl
  induction rows with
  | nil => intro acc; rfl
  | cons r rest ih =>
      intro acc
      rw [List.foldl_cons, ih (gStep acc r), filter_gStep, List.filter_cons]
      by_cases hP : P r.1
      · rw [if_pos hP, if_pos (by simpa using hP), List.foldl_cons]
      · rw [if_neg hP, if_neg (by simpa using hP)]

/-! ### Closed forms of the per-item joined rows -/

theorem flatMap_if_singleton {α β : Type} (l : List α) (p : α → Bool) (g : α → β) :
    (l.flatMap fun a => if p a then [g a] else []) =
      l.filterMap (fun a => if p a then some (g a) else none) := by
  induction l with
  | nil => rfl
  | cons a as ih =>
      rw [List.flatMap_cons, List.filterMap_cons, ih]
      by_cases h : p a <;> simp [h]

theorem map_some_flatMap {α β : Type} (l : List α) (g : Option α → List β) :
    (l.map some).flatMap g = l.flatMap (fun a => g (some a)) := by
  induction l with
  | nil => rfl
  | cons a as ih =>
      rw [List.map_cons, List.flatMap_cons, List.flatMap_cons, ih]

theorem map_some_filterMap {α β : Type} (l : List α) (g : Option α → Option β) :
    (l.map some).filterMap g = l.filterMap (fun a => g (some a)) := by
  induction l with
  | nil => rfl
  | cons a as ih =>
      rw [List.map_cons, List.filterMap_cons, List.filterMap_cons, ih]

theorem filterMap_const_if {α β : Type} (l : List α) (p : α → Bool) (x : β) :
    l.filterMap (fun a => if p a then some x else none) =
      List.replicate (l.countP p) x := by
  induction l with
  | nil => rfl
  | cons a as ih =>
      rw [List.filterMap_cons, List.countP_cons]
      by_cases h : p a <;> simp [h, ih, List.replicate_succ]

/-- With the item passing the item-level filters and at most one of its
characteristic rows matching the characteristic filter, the joined rows
an optional loading row contributes reduce to the loading-month
`BETWEEN` test alone. -/
theorem availLoRow_eq (db : DB) (tF : Option Int)
    (cF : Option (String × String)) (nF : Option String) (s e : String)
    (i : ItemRow) (it : ItemTypeRow)
    (hpass : itemPassesFilters db tF cF nF i = true)
    (hch : ∀ k v, cF = some (k, v) →
      ((db.itemcharacteristics.filter (fun c => c.fkitem = i.id)).filter
        (fun c => c.itemkey = k && containsSubCI v.toList c.itemvalue.toList)).length ≤ 1)
    (lo : Option LoadingRow) :
    availLoRow db tF cF nF s e i it lo =
      (if optAll (fun l => sqlBetween l.monthyear s e) lo then
        [(⟨i.id, i.itemname, it.typename, lo.map (·.monthyear)⟩, loPercent lo)]
      else []) := by
  simp only [itemPassesFilters, Bool.and_eq_true] at hpass
  obtain ⟨⟨hA, hC⟩, hN⟩ := hpass
  unfold availLoRow
  cases hB : optAll (fun l => sqlBetween l.monthyear s e) lo with
  | true =>
      cases cF with
      | none =>
          have hw : availWhere tF none nF s e i lo none = true := by
            unfold availWhere
            rw [hA, hN, hB]
            rfl
          show List.filterMap _ [none] = _
          rw [List.filterMap_cons, hw]
          rfl
      | some kv =>
          obtain ⟨k, v⟩ := kv
          have hw : ∀ c : CharRow,
              availWhere tF (some (k, v)) nF s e i lo (some c) =
                (c.itemkey = k && containsSubCI v.toList c.itemvalue.toList) := by
            intro c
            unfold availWhere
            rw [hA, hN, hB]
            simp
          show ((db.itemcharacteristics.filter (fun c => c.fkitem = i.id)).map
            some).filterMap _ = _
          rw [map_some_filterMap]
          have hfe : (fun c => if availWhere tF (some (k, v)) nF s e i lo (some c)
                then some ((⟨i.id, i.itemname, it.typename, lo.map (·.monthyear)⟩ :
                  AvailKey), loPercent lo) else none) =
              (fun c : CharRow => if (c.itemkey = k &&
                  containsSubCI v.toList c.itemvalue.toList) then
                some ((⟨i.id, i.itemname, it.typename, lo.map (·.monthyear)⟩ : AvailKey),
                  loPercent lo)
              else none) := by
            funext c
            rw [hw c]
          rw [hfe, filterMap_const_if, List.countP_eq_length_filter]
          have hle := hch k v rfl
          have hmem : ∃ c ∈ db.itemcharacteristics.filter (fun c => c.fkitem = i.id),
              (c.itemkey = k && containsSubCI v.toList c.itemvalue.toList) = true := by
            obtain ⟨c, hc, hcc⟩ := List.any_eq_true.mp hC
            obtain ⟨⟨h1, h2⟩, h3⟩ := by simpa using hcc
            exact ⟨c, List.mem_filter.mpr ⟨hc, by simpa using h1⟩, by simp [h2, h3]⟩
          obtain ⟨c, hc, hcc⟩ := hmem
          have hpos : 0 < ((db.itemcharacteristics.filter
              (fun c => c.fkitem = i.id)).filter
              (fun c => c.itemkey = k &&
                containsSubCI v.toList c.itemvalue.toList)).length :=
            List.length_pos.mpr (List.ne_nil_of_mem (List.mem_filter.mpr ⟨hc, hcc⟩))
          have hone : ((db.itemcharacteristics.filter (fun c => c.fkitem = i.id)).filter
              (fun c => c.itemkey = k &&
                containsSubCI v.toList c.itemvalue.toList)).length = 1 := by omega
          rw [hone]
          rfl
  | false =>
      have hw : ∀ ic : Option CharRow,
          availWhere tF cF nF s e i lo ic = false := by
        intro ic
        unfold availWhere
        rw [hB]
        simp
      rw [List.filterMap_eq_nil_iff.mpr (fun ic _ => by rw [hw ic]; rfl)]
      rfl

/-- An item with no loading rows joins as the single null-extended row
(percent contribution `0`). -/
theorem availItemRows_no_loadings (db : DB) (tF : Option Int)
    (cF : Option (String × String)) (nF : Option String) (s e : String)
    (i : ItemRow) (it : ItemTypeRow)
    (hpass : itemPassesFilters db tF cF nF i = true)
    (hch : ∀ k v, cF = some (k, v) →
      ((db.itemcharacteristics.filter (fun c => c.fkitem = i.id)).filter
        (fun c => c.itemkey = k && containsSubCI v.toList c.itemvalue.toList)).length ≤ 1)
    (hlos : db.itemloading.filter (fun l => l.fkitem = i.id) = []) :
    availItemRows db tF cF nF s e i it =
      [(⟨i.id, i.itemname, it.typename, none⟩, (0 : ℚ))] := by
  simp only [availItemRows]
  rw [hlos]
  show ([(none : Option LoadingRow)]).flatMap (availLoRow db tF cF nF s e i it) =
    [(⟨i.id, i.itemname, it.typename, none⟩, (0 : ℚ))]
  rw [List.flatMap_cons, List.flatMap_nil, List.append_nil,
    availLoRow_eq db tF cF nF s e i it hpass hch none]
  rfl

/-- An item with loading rows joins them one-for-one, kept exactly when
the loading month passes the `BETWEEN` filter. -/
theorem availItemRows_loadings (db : DB) (tF : Option Int)
    (cF : Option (String × String)) (nF : Option String) (s e : String)
    (i : ItemRow) (it : ItemTypeRow)
    (hpass : itemPassesFilters db tF cF nF i = true)
    (hch : ∀ k v, cF = some (k, v) →
      ((db.itemcharacteristics.filter (fun c => c.fkitem = i.id)).filter
        (fun c => c.itemkey = k && containsSubCI v.toList c.itemvalue.toList)).length ≤ 1)
    (hlos : db.itemloading.filter (fun l => l.fkitem = i.id) ≠ []) :
    availItemRows db tF cF nF s e i it =
      (db.itemloading.filter (fun l => l.fkitem = i.id)).filterMap fun l =>
        if sqlBetween l.monthyear s e then
          some (⟨i.id, i.itemname, it.typename, some l.monthyear⟩, l.percent)
        else none := by
  simp only [availItemRows]
  have hne : ¬ ((db.itemloading.filter (fun l => l.fkitem = i.id)).isEmpty = true) := by
    intro hc
    exact hlos (List.isEmpty_iff.mp hc)
  rw [if_neg hne, map_some_flatMap]
  have hfe : (fun l => availLoRow db tF cF nF s e i it (some l)) =
      (fun l : LoadingRow => if sqlBetween l.monthyear s e then
        [((⟨i.id, i.itemname, it.typename, some l.monthyear⟩ : AvailKey), l.percent)]
      else []) := by
    funext l
    rw [availLoRow_eq db tF cF nF s e i it hpass hch (some l)]
    rfl
  rw [hfe, flatMap_if_singleton]
/-! ### `items_dict` fold characterization -/

theorem find?_map_upd_month (ms : List (String × ℚ × ℚ))
    (f : (String × ℚ × ℚ) → (String × ℚ × ℚ)) (hpres : ∀ p, (f p).1 = p.1)
    (m : String) :
    (ms.map f).find? (fun p => p.1 = m) = (ms.find? (fun p => p.1 = m)).map f := by
  rw [List.find?_map]
  rw [find?_congr_mem (q := fun p : String × ℚ × ℚ => p.1 = m) (fun p _ => by
    simp [Function.comp, hpres p])]

theorem find?_map_upd_entry (acc : List AvailItemEntry)
    (f : AvailItemEntry → AvailItemEntry) (hpres : ∀ e, (f e).id = e.id) (i0 : Int) :
    (acc.map f).find? (fun e => e.id = i0) = (acc.find? (fun e => e.id = i0)).map f := by
  rw [List.find?_map]
  rw [find?_congr_mem (q := fun e : AvailItemEntry => e.id = i0) (fun e _ => by
    simp [Function.comp, hpres e])]

theorem monthsStep_none (ms : List (String × ℚ × ℚ)) (kv : AvailKey × ℚ)
    (h : kv.1.monthyear = none) : monthsStep ms kv = ms := by
  unfold monthsStep
  rw [h]

theorem monthsStep_some (ms : List (String × ℚ × ℚ)) (kv : AvailKey × ℚ) (mk : String)
    (h : kv.1.monthyear = some mk) :
    monthsStep ms kv =
      if ms.any (fun p => p.1 = mk) then
        ms.map (fun p => if p.1 = mk then (mk, kv.2, 100 - kv.2) else p)
      else ms ++ [(mk, kv.2, 100 - kv.2)] := by
  unfold monthsStep
  rw [h]

theorem find?_monthsStep (ms : List (String × ℚ × ℚ)) (kv : AvailKey × ℚ) (m : String) :
    (monthsStep ms kv).find? (fun p => p.1 = m) =
      if kv.1.monthyear = some m then some (m, kv.2, 100 - kv.2)
      else ms.find? (fun p => p.1 = m) := by
  cases hmy : kv.1.monthyear with
  | none => rw [monthsStep_none _ _ hmy, if_neg (by simp)]
  | some mk =>
      rw [monthsStep_some _ _ _ hmy]
      by_cases hany : ms.any (fun p => p.1 = mk)
      · rw [if_pos hany]
        rw [find?_map_upd_month ms _ (fun p => by
          by_cases h : p.1 = mk <;> simp [h]) m]
        by_cases hm : mk = m
        · subst hm
          rw [if_pos rfl]
          obtain ⟨p, hp, hpk⟩ := List.any_eq_true.mp hany
          cases hf : ms.find? (fun p => p.1 = mk) with
          | none =>
              exact absurd hpk (by simpa using List.find?_eq_none.mp hf p hp)
          | some q =>
              have hq : q.1 = mk := by simpa using List.find?_some hf
              simp [hq]
        · rw [if_neg (by simpa using hm)]
          cases hf : ms.find? (fun p => p.1 = m) with
          | none => rfl
          | some q =>
              have hq : q.1 = m := by simpa using List.find?_some hf
              have hqk : ¬ q.1 = mk := by rw [hq]; exact fun hc => hm hc.symm
              simp [hqk]
      · rw [if_neg hany]
        rw [List.find?_append]
        by_cases hm : mk = m
        · subst hm
          rw [if_pos rfl]
          have hf : ms.find? (fun p => p.1 = mk) = none := by
            cases hf : ms.find? (fun p => p.1 = mk) with
            | none => rfl
            | some q =>
                exact absurd (List.any_eq_true.mpr
                  ⟨q, List.mem_of_find?_eq_some hf, List.find?_some hf⟩) hany
          rw [hf]
          simp [List.find?_cons]
        · rw [if_neg (by simpa using hm)]
          have hsingle : List.find? (fun p : String × ℚ × ℚ => p.1 = m)
              [(mk, kv.2, 100 - kv.2)] = none := by
            simp [List.find?_cons, hm]
          rw [hsingle]
          cases hf : ms.find? (fun p => p.1 = m) <;> rfl

theorem find?_monthsOfRows (rows : List (AvailKey × ℚ)) (m : String) :
    ∀ ms, (monthsOfRows ms rows).find? (fun p => p.1 = m) =
      match rows.reverse.find? (fun kv => kv.1.monthyear = some m) with
      | some kv => some (m, kv.2, 100 - kv.2)
      | none => ms.find? (fun p => p.1 = m) := by
  induction rows with
  | nil => intro ms; rfl
  | cons r rest ih =>
      intro ms
      show (monthsOfRows (monthsStep ms r) rest).find? (fun p => p.1 = m) = _
      rw [ih (monthsStep ms r), List.reverse_cons, List.find?_append]
      cases hrev : rest.reverse.find? (fun kv => kv.1.monthyear = some m) with
      | some kv => rfl
      | none =>
          rw [find?_monthsStep]
          by_cases hq : r.1.monthyear = some m
          · rw [if_pos hq]
            have : List.find? (fun kv : AvailKey × ℚ => kv.1.monthyear = some m) [r] =
                some r := by
              simp [List.find?_cons, hq]
            rw [this]
            rfl
          · rw [if_neg hq]
            have : List.find? (fun kv : AvailKey × ℚ => kv.1.monthyear = some m) [r] =
                none := by
              simp [List.find?_cons, hq]
            rw [this]
            rfl

theorem find?_iStep (acc : List AvailItemEntry) (kv : AvailKey × ℚ) (i0 : Int) :
    (iStep acc kv).find? (fun e => e.id = i0) =
      if kv.1.id = i0 then
        match acc.find? (fun e => e.id = i0) with
        | some e => some { e with months := monthsStep e.months kv }
        | none => some ⟨kv.1.id, kv.1.itemname, kv.1.typename, monthsStep [] kv⟩
      else acc.find? (fun e => e.id = i0) := by
  simp only [iStep]
  have hupd : ∀ e : AvailItemEntry,
      ((if e.id = kv.1.id then { e with months := monthsStep e.months kv } else e) :
        AvailItemEntry).id = e.id := by
    intro e
    by_cases h : e.id = kv.1.id <;> simp [h]
  by_cases hid : kv.1.id = i0
  · rw [if_pos hid]
    by_cases hany : acc.any (fun e => e.id = kv.1.id)
    · rw [if_pos hany]
      cases hf : acc.find? (fun e => e.id = i0) with
      | some e =>
          have he : e.id = i0 := by simpa using List.find?_some hf
          cases hmy : kv.1.monthyear with
          | none =>
              rw [hf]
              show some e = some { e with months := monthsStep e.months kv }
              rw [monthsStep_none _ _ hmy]
          | some mk =>
              rw [find?_map_upd_entry _ _ hupd, hf]
              have : e.id = kv.1.id := by rw [he, hid]
              simp [this]
      | none =>
          obtain ⟨e, he, hek⟩ := List.any_eq_true.mp hany
          have : e.id = i0 := by
            have := by simpa using hek
            rw [this, hid]
          exact absurd this (by simpa using List.find?_eq_none.mp hf e he)
    · rw [if_neg hany]
      have hf : acc.find? (fun e => e.id = i0) = none := by
        cases hf : acc.find? (fun e => e.id = i0) with
        | none => rfl
        | some e =>
            have he : e.id = i0 := by simpa using List.find?_some hf
            exact absurd (List.any_eq_true.mpr
              ⟨e, List.mem_of_find?_eq_some hf, by simp [he, hid]⟩) hany
      cases hmy : kv.1.monthyear with
      | none =>
          rw [List.find?_append, hf]
          show (Option.none).or (List.find? (fun e : AvailItemEntry => e.id = i0)
              [⟨kv.1.id, kv.1.itemname, kv.1.typename, []⟩]) =
            some ⟨kv.1.id, kv.1.itemname, kv.1.typename, monthsStep [] kv⟩
          rw [monthsStep_none _ _ hmy]
          simp [List.find?_cons, hid]
      | some mk =>
          rw [List.map_append, List.find?_append, find?_map_upd_entry _ _ hupd, hf]
          have hnew : ((if (⟨kv.1.id, kv.1.itemname, kv.1.typename, []⟩ :
              AvailItemEntry).id = kv.1.id then
              { (⟨kv.1.id, kv.1.itemname, kv.1.typename, []⟩ : AvailItemEntry) with
                months := monthsStep [] kv }
              else ⟨kv.1.id, kv.1.itemname, kv.1.typename, []⟩) : AvailItemEntry) =
              ⟨kv.1.id, kv.1.itemname, kv.1.typename, monthsStep [] kv⟩ := by
            rw [if_pos rfl]
          show (Option.none).or (List.find? (fun e : AvailItemEntry => e.id = i0)
              (List.map (fun e => if e.id = kv.1.id then
                { e with months := monthsStep e.months kv } else e)
                [⟨kv.1.id, kv.1.itemname, kv.1.typename, []⟩])) =
            some ⟨kv.1.id, kv.1.itemname, kv.1.typename, monthsStep [] kv⟩
          rw [List.map_cons, List.map_nil, hnew]
          simp [List.find?_cons, hid]
  · rw [if_neg hid]
    have hidn : ¬ ((⟨kv.1.id, kv.1.itemname, kv.1.typename, []⟩ :
        AvailItemEntry).id = i0) := hid
    by_cases hany : acc.any (fun e => e.id = kv.1.id)
    · rw [if_pos hany]
      cases hmy : kv.1.monthyear with
      | none => rfl
      | some mk =>
          rw [find?_map_upd_entry _ _ hupd]
          cases hf : acc.find? (fun e => e.id = i0) with
          | none => rfl
          | some e =>
              have he : e.id = i0 := by simpa using List.find?_some hf
              have : ¬ e.id = kv.1.id := by rw [he]; exact fun hc => hid hc.symm
              simp [this]
    · rw [if_neg hany]
      cases hmy : kv.1.monthyear with
      | none =>
          rw [List.find?_append]
          have hsingle : List.find? (fun e : AvailItemEntry => e.id = i0)
              [⟨kv.1.id, kv.1.itemname, kv.1.typename, []⟩] = none := by
            simp [List.find?_cons, hidn]
          rw [hsingle]
          cases hf : acc.find? (fun e => e.id = i0) <;> rfl
      | some mk =>
          rw [List.map_append, List.find?_append, find?_map_upd_entry _ _ hupd]
          have hsingle : List.find? (fun e : AvailItemEntry => e.id = i0)
              (List.map (fun e => if e.id = kv.1.id then
                { e with months := monthsStep e.months kv } else e)
                [⟨kv.1.id, kv.1.itemname, kv.1.typename, []⟩]) = none := by
            rw [List.map_cons, List.map_nil]
            simp [List.find?_cons, hid]
          rw [hsingle]
          cases hf : acc.find? (fun e => e.id = i0) with
          | none => rfl
          | some e =>
              have he : e.id = i0 := by simpa using List.find?_some hf
              have : ¬ e.id = kv.1.id := by rw [he]; exact fun hc => hid hc.symm
              simp [this]
theorem find?_foldl_iStep (i0 : Int) (name0 type0 : String)
    (rows : List (AvailKey × ℚ))
    (hname : ∀ kv ∈ rows, kv.1.id = i0 →
      kv.1.itemname = name0 ∧ kv.1.typename = type0) :
    ∀ acc : List AvailItemEntry,
    (rows.foldl iStep acc).find? (fun e => e.id = i0) =
      match acc.find? (fun e => e.id = i0) with
      | some e =>
          some { e with
                 months := monthsOfRows e.months
                   (rows.filter (fun kv => kv.1.id = i0)) }
      | none =>
          if rows.any (fun kv => kv.1.id = i0) then
            some ⟨i0, name0, type0,
              monthsOfRows [] (rows.filter (fun kv => kv.1.id = i0))⟩
          else none := by
  induction rows with
  | nil =>
      intro acc
      rw [List.foldl_nil]
      cases hf : acc.find? (fun e => e.id = i0) with
      | none => rfl
      | some e => rfl
  | cons r rest ih =>
      intro acc
      have hnr : ∀ kv ∈ rest, kv.1.id = i0 →
          kv.1.itemname = name0 ∧ kv.1.typename = type0 :=
        fun kv hkv => hname kv (List.mem_cons_of_mem r hkv)
      rw [List.foldl_cons, ih hnr (iStep acc r), find?_iStep]
      by_cases hid : r.1.id = i0
      · rw [if_pos hid]
        have hfilter : (r :: rest).filter (fun kv => kv.1.id = i0) =
            r :: rest.filter (fun kv => kv.1.id = i0) := by
          simp [List.filter_cons, hid]
        have hany : ((r :: rest).any fun kv => kv.1.id = i0) = true :=
          List.any_eq_true.mpr ⟨r, List.mem_cons_self r rest, by simp [hid]⟩
        rw [hfilter, hany]
        obtain ⟨hn, ht⟩ := hname r (List.mem_cons_self r rest) hid
        cases hf : acc.find? (fun e => e.id = i0) with
        | some e => rfl
        | none =>
            show some (⟨r.1.id, r.1.itemname, r.1.typename,
              monthsOfRows (monthsStep [] r) (rest.filter (fun kv => kv.1.id = i0))⟩ :
                AvailItemEntry) = _
            rw [hid, hn, ht]
            rfl
      · rw [if_neg hid]
        have hfilter : (r :: rest).filter (fun kv => kv.1.id = i0) =
            rest.filter (fun kv => kv.1.id = i0) := by
          simp [List.filter_cons, hid]
        have hany : ((r :: rest).any fun kv => kv.1.id = i0) =
            (rest.any fun kv => kv.1.id = i0) := by
          simp [List.any_cons, hid]
        rw [hfilter, hany]

/-- The `items_dict` entry of an id, when the grouped rows carry
coherent item metadata for that id. -/
theorem find?_availItemsDict (grouped : List (AvailKey × ℚ)) (i0 : Int)
    (name0 type0 : String)
    (hname : ∀ kv ∈ grouped, kv.1.id = i0 →
      kv.1.itemname = name0 ∧ kv.1.typename = type0) :
    (availItemsDict grouped).find? (fun e => e.id = i0) =
      if grouped.any (fun kv => kv.1.id = i0) then
        some ⟨i0, name0, type0,
          monthsOfRows [] (grouped.filter (fun kv => kv.1.id = i0))⟩
      else none := by
  unfold availItemsDict
  rw [find?_foldl_iStep i0 name0 type0 grouped hname []]
  rfl

theorem mem_iStep_id (acc : List AvailItemEntry) (r : AvailKey × ℚ) :
    ∀ x ∈ iStep acc r, (∃ y ∈ acc, y.id = x.id) ∨ x.id = r.1.id := by
  intro x hx
  simp only [iStep] at hx
  cases hmy : r.1.monthyear with
  | none =>
      rw [hmy] at hx
      by_cases hany : acc.any (fun e => e.id = r.1.id)
      · rw [if_pos hany] at hx
        exact Or.inl ⟨x, hx, rfl⟩
      · rw [if_neg hany] at hx
        rcases List.mem_append.mp hx with h | h
        · exact Or.inl ⟨x, h, rfl⟩
        · simp only [List.mem_singleton] at h
          subst h
          exact Or.inr rfl
  | some mk =>
      rw [hmy] at hx
      obtain ⟨y, hy, hyx⟩ := List.mem_map.mp hx
      have hyid : x.id = y.id := by
        rw [← hyx]
        by_cases h : y.id = r.1.id <;> simp [h]
      by_cases hany : acc.any (fun e => e.id = r.1.id)
      · rw [if_pos hany] at hy
        exact Or.inl ⟨y, hy, hyid.symm⟩
      · rw [if_neg hany] at hy
        rcases List.mem_append.mp hy with h | h
        · exact Or.inl ⟨y, h, hyid.symm⟩
        · simp only [List.mem_singleton] at h
          subst h
          rw [hyid]
          exact Or.inr rfl

/-- Every `items_dict` entry's id comes from some grouped row. -/
theorem availItemsDict_ids (grouped : List (AvailKey × ℚ)) :
    ∀ x ∈ availItemsDict grouped, ∃ kv ∈ grouped, kv.1.id = x.id := by
  intro x hx
  suffices h : ∀ acc : List AvailItemEntry,
      x ∈ grouped.foldl iStep acc →
      (∃ y ∈ acc, y.id = x.id) ∨ (∃ kv ∈ grouped, kv.1.id = x.id) by
    rcases h [] hx with ⟨y, hy, _⟩ | h2
    · cases hy
    · exact h2
  clear hx
  induction grouped with
  | nil => intro acc h; exact Or.inl ⟨x, by simpa using h, rfl⟩
  | cons r rest ih =>
      intro acc h
      rw [List.foldl_cons] at h
      rcases ih (iStep acc r) h with hacc | hrest
      · obtain ⟨y, hy, hyx⟩ := hacc
        rcases mem_iStep_id acc r y hy with ⟨z, hz, hzy⟩ | hyr
        · exact Or.inl ⟨z, hz, by rw [hzy, hyx]⟩
        · exact Or.inr ⟨r, List.mem_cons_self r rest, by rw [← hyr, hyx]⟩
      · obtain ⟨kv, hkv, hk⟩ := hrest
        exact Or.inr ⟨kv, List.mem_cons_of_mem r hkv, hk⟩
/-! ### Decomposition of the joined row set by item -/

theorem availItemRows_key (db : DB) (tF : Option Int)
    (cF : Option (String × String)) (nF : Option String) (s e : String)
    (i : ItemRow) (it : ItemTypeRow) :
    ∀ kv ∈ availItemRows db tF cF nF s e i it,
      kv.1.id = i.id ∧ kv.1.itemname = i.itemname ∧ kv.1.typename = it.typename := by
  intro kv hkv
  simp only [availItemRows] at hkv
  obtain ⟨lo, _, hkv2⟩ := List.mem_flatMap.mp hkv
  simp only [availLoRow] at hkv2
  obtain ⟨ic, _, hic⟩ := List.mem_filterMap.mp hkv2
  split at hic
  · injection hic with h
    subst h
    exact ⟨rfl, rfl, rfl⟩
  · cases hic

theorem filter_eq_singleton_of_unique {α : Type} {l : List α} {p : α → Bool} {a : α}
    (hl : l.Nodup) (ha : a ∈ l) (hpa : p a = true)
    (huniq : ∀ b ∈ l, p b = true → b = a) :
    l.filter p = [a] := by
  induction l with
  | nil => cases ha
  | cons x xs ih =>
      rw [List.filter_cons]
      rcases List.mem_cons.mp ha with rfl | hmem
      · rw [if_pos hpa]
        have hxs : xs.filter p = [] := List.filter_eq_nil_iff.mpr (fun b hb hpb => by
          have hba : b = a := huniq b (List.mem_cons_of_mem a hb) hpb
          exact (List.nodup_cons.mp hl).1 (hba ▸ hb))
        rw [hxs]
      · have hxne : x ≠ a := by
          intro hc
          exact (List.nodup_cons.mp hl).1 (hc ▸ hmem)
        have hx : ¬ (p x = true) := fun hc => hxne (huniq x (List.mem_cons_self x xs) hc)
        rw [if_neg hx]
        exact ih (List.nodup_cons.mp hl).2 hmem
          (fun b hb hpb => huniq b (List.mem_cons_of_mem x hb) hpb)

theorem flatMap_eq_nil_of {α β : Type} (l : List α) (g : α → List β)
    (h : ∀ a ∈ l, g a = []) : l.flatMap g = [] := by
  induction l with
  | nil => rfl
  | cons a as ih =>
      rw [List.flatMap_cons, h a (List.mem_cons_self a as), List.nil_append]
      exact ih (fun b hb => h b (List.mem_cons_of_mem a hb))

theorem flatMap_eq_of_unique {α β : Type} {l : List α} {a : α} (g : α → List β)
    (hl : l.Nodup) (ha : a ∈ l) (hother : ∀ b ∈ l, b ≠ a → g b = []) :
    l.flatMap g = g a := by
  induction l with
  | nil => cases ha
  | cons x xs ih =>
      rw [List.flatMap_cons]
      rcases List.mem_cons.mp ha with rfl | hmem
      · have hxs : xs.flatMap g = [] := flatMap_eq_nil_of xs g (fun b hb =>
          hother b (List.mem_cons_of_mem a hb)
            (fun hba => (List.nodup_cons.mp hl).1 (hba ▸ hb)))
        rw [hxs, List.append_nil]
      · have hx : g x = [] := hother x (List.mem_cons_self x xs)
          (fun hxa => (List.nodup_cons.mp hl).1 (hxa ▸ hmem))
        rw [hx, List.nil_append]
        exact ih (List.nodup_cons.mp hl).2 hmem
          (fun b hb hba => hother b (List.mem_cons_of_mem x hb) hba)

/-- Every joined row's key carries the identity of one `items` row and
the typename of one matching `itemtypes` row, and the row itself comes
from that item's per-item row list. -/
theorem mem_availJoinedRows (db : DB) (tF : Option Int)
    (cF : Option (String × String)) (nF : Option String) (s e : String) :
    ∀ kv ∈ availJoinedRows db tF cF nF s e, ∃ i' ∈ db.items, ∃ it' ∈ db.itemtypes,
      it'.id = i'.fkitemtype ∧ kv ∈ availItemRows db tF cF nF s e i' it' := by
  intro kv hkv
  unfold availJoinedRows at hkv
  obtain ⟨i', hi', hkv2⟩ := List.mem_flatMap.mp hkv
  obtain ⟨it', hit', hkv3⟩ := List.mem_flatMap.mp hkv2
  have hmem := List.mem_filter.mp hit'
  exact ⟨i', hi', it', hmem.1, by simpa using hmem.2, hkv3⟩

/-- With unique item and itemtype ids, the joined rows carrying a given
item's id are exactly that item's per-item rows. -/
theorem availJoinedRows_filter_item (db : DB) (tF : Option Int)
    (cF : Option (String × String)) (nF : Option String) (s e : String)
    (i : ItemRow) (it : ItemTypeRow)
    (hni : (db.items.map (·.id)).Nodup) (hnt : (db.itemtypes.map (·.id)).Nodup)
    (hi : i ∈ db.items) (hit : it ∈ db.itemtypes) (htid : it.id = i.fkitemtype) :
    (availJoinedRows db tF cF nF s e).filter (fun kv => kv.1.id = i.id) =
      availItemRows db tF cF nF s e i it := by
  unfold availJoinedRows
  rw [List.filter_flatMap]
  have htypes : db.itemtypes.filter (fun it' => it'.id = i.fkitemtype) = [it] :=
    filter_eq_singleton_of_unique (List.Nodup.of_map _ hnt) hit (by simp [htid])
      (fun b hb hpb => List.inj_on_of_nodup_map hnt hb hit
        (by rw [htid]; simpa using hpb))
  have hstep : ∀ i' ∈ db.items, i' ≠ i →
      ((db.itemtypes.filter (fun it' => it'.id = i'.fkitemtype)).flatMap
        (fun it' => availItemRows db tF cF nF s e i' it')).filter
          (fun kv => kv.1.id = i.id) = [] := by
    intro i' hi' hne
    rw [List.filter_flatMap]
    refine flatMap_eq_nil_of _ _ (fun it' _ => ?_)
    refine List.filter_eq_nil_iff.mpr (fun kv hkv hp => ?_)
    have hkid : kv.1.id = i'.id :=
      (availItemRows_key db tF cF nF s e i' it' kv hkv).1
    have : i' = i := List.inj_on_of_nodup_map hni hi' hi (by
      rw [← hkid]; simpa using hp)
    exact hne this
  have hmain := flatMap_eq_of_unique
    (fun i' => ((db.itemtypes.filter (fun it' => it'.id = i'.fkitemtype)).flatMap
      (fun it' => availItemRows db tF cF nF s e i' it')).filter
        (fun kv => kv.1.id = i.id))
    (List.Nodup.of_map _ hni) hi hstep
  rw [hmain]
  show ((db.itemtypes.filter (fun it' => it'.id = i.fkitemtype)).flatMap
      (fun it' => availItemRows db tF cF nF s e i it')).filter
        (fun kv => kv.1.id = i.id) = availItemRows db tF cF nF s e i it
  rw [htypes, List.flatMap_cons, List.flatMap_nil, List.append_nil]
  exact List.filter_eq_self.mpr (fun kv hkv => by
    simp [(availItemRows_key db tF cF nF s e i it kv hkv).1])

theorem filter_filter_of_imp {α : Type} (l : List α) (p q : α → Bool)
    (h : ∀ a, p a = true → q a = true) :
    (l.filter q).filter p = l.filter p := by
  rw [List.filter_filter]
  exact List.filter_congr (fun a _ => by
    by_cases hp : p a
    · simp [hp, h a hp]
    · simp [hp])

/-- The per-item rows of an item with loadings, restricted to one
in-range month `m`, are its month-`m` loading rows. -/
theorem filterMap_if_filter_month (ls : List LoadingRow) (s e : String)
    (i : ItemRow) (it : ItemTypeRow) (m : String) (hbet : sqlBetween m s e = true) :
    ((ls.filterMap fun l =>
        if sqlBetween l.monthyear s e then
          some ((⟨i.id, i.itemname, it.typename, some l.monthyear⟩ : AvailKey),
            l.percent)
        else none).filter
      (fun kv => kv.1 = ⟨i.id, i.itemname, it.typename, some m⟩)) =
      (ls.filter (fun l => l.monthyear = m)).map
        (fun l => (⟨i.id, i.itemname, it.typename, some m⟩, l.percent)) := by
  induction ls with
  | nil => rfl
  | cons l ls ih =>
      by_cases hm : l.monthyear = m
      · simp [List.filterMap_cons, List.filter_cons, hm, hbet, ih]
      · by_cases hbl : sqlBetween l.monthyear s e
        · simp [List.filterMap_cons, List.filter_cons, hbl, hm, ih]
        · simp [List.filterMap_cons, List.filter_cons, hbl, hm, ih]

/-- The loading rows of an item in a month, as the item-filtered table
refiltered by month. -/
theorem monthAllocSum_as_filter (db : DB) (i : ItemRow) (m : String) :
    monthAllocSum db i.id m =
      (((db.itemloading.filter (fun l => l.fkitem = i.id)).filter
        (fun l => l.monthyear = m)).map (·.percent)).sum := by
  unfold monthAllocSum
  rw [List.filter_filter]
  congr 1
  refine congrArg _ (List.filter_congr (fun l _ => ?_))
  by_cases h1 : l.fkitem = i.id <;> by_cases h2 : l.monthyear = m <;> simp [h1, h2]

/-- An item with no loading rows at all has a zero month sum. -/
theorem monthAllocSum_no_loadings (db : DB) (i : ItemRow) (m : String)
    (hlos : db.itemloading.filter (fun l => l.fkitem = i.id) = []) :
    monthAllocSum db i.id m = 0 := by
  rw [monthAllocSum_as_filter, hlos]
  rfl

/-- An item with no loading row in month `m` has a zero month-`m`
sum. -/
theorem monthAllocSum_no_month (db : DB) (i : ItemRow) (m : String)
    (h : ∀ l ∈ db.itemloading.filter (fun l => l.fkitem = i.id),
      ¬ (l.monthyear = m)) :
    monthAllocSum db i.id m = 0 := by
  rw [monthAllocSum_as_filter]
  rw [List.filter_eq_nil_iff.mpr (fun l hl hp => h l hl (by simpa using hp))]
  rfl
/-! ### Grouped sums and month maps for one item -/

theorem formatYM_ne_empty (y m : Nat) : formatYM y m ≠ "" :=
  fun h => by simpa [formatYM] using congrArg String.data h

theorem mem_availJoinedRows_of_item (db : DB) (tF : Option Int)
    (cF : Option (String × String)) (nF : Option String) (s e : String)
    (i : ItemRow) (it : ItemTypeRow) (hi : i ∈ db.items) (hit : it ∈ db.itemtypes)
    (htid : it.id = i.fkitemtype) (kv : AvailKey × ℚ)
    (hkv : kv ∈ availItemRows db tF cF nF s e i it) :
    kv ∈ availJoinedRows db tF cF nF s e := by
  unfold availJoinedRows
  exact List.mem_flatMap.mpr ⟨i, hi, List.mem_flatMap.mpr
    ⟨it, List.mem_filter.mpr ⟨hit, by simp [htid]⟩, hkv⟩⟩

theorem mem_availItemRows_of_loading (db : DB) (tF : Option Int)
    (cF : Option (String × String)) (nF : Option String) (s e : String)
    (i : ItemRow) (it : ItemTypeRow)
    (hpass : itemPassesFilters db tF cF nF i = true)
    (hch : ∀ k v, cF = some (k, v) →
      ((db.itemcharacteristics.filter (fun c => c.fkitem = i.id)).filter
        (fun c => c.itemkey = k && containsSubCI v.toList c.itemvalue.toList)).length ≤ 1)
    (l : LoadingRow) (hl : l ∈ db.itemloading.filter (fun l => l.fkitem = i.id))
    (hb : sqlBetween l.monthyear s e = true) :
    ((⟨i.id, i.itemname, it.typename, some l.monthyear⟩ : AvailKey), l.percent) ∈
      availItemRows db tF cF nF s e i it := by
  rw [availItemRows_loadings db tF cF nF s e i it hpass hch (List.ne_nil_of_mem hl)]
  exact List.mem_filterMap.mpr ⟨l, hl, by rw [if_pos hb]⟩

theorem mem_availItemRows_loadings_shape (db : DB) (tF : Option Int)
    (cF : Option (String × String)) (nF : Option String) (s e : String)
    (i : ItemRow) (it : ItemTypeRow)
    (hpass : itemPassesFilters db tF cF nF i = true)
    (hch : ∀ k v, cF = some (k, v) →
      ((db.itemcharacteristics.filter (fun c => c.fkitem = i.id)).filter
        (fun c => c.itemkey = k && containsSubCI v.toList c.itemvalue.toList)).length ≤ 1)
    (hlos : db.itemloading.filter (fun l => l.fkitem = i.id) ≠ []) :
    ∀ kv ∈ availItemRows db tF cF nF s e i it,
      ∃ l ∈ db.itemloading.filter (fun l => l.fkitem = i.id),
        sqlBetween l.monthyear s e = true ∧
        kv = (⟨i.id, i.itemname, it.typename, some l.monthyear⟩, l.percent) := by
  intro kv hkv
  rw [availItemRows_loadings db tF cF nF s e i it hpass hch hlos] at hkv
  obtain ⟨l, hl, hfl⟩ := List.mem_filterMap.mp hkv
  split at hfl
  · rename_i hb
    exact ⟨l, hl, hb, (Option.some.inj hfl).symm⟩
  · cases hfl

/-- The grouped sum of one item's in-range month is exactly the item's
loading sum of that month. -/
theorem sumK_joined_month (db : DB) (tF : Option Int)
    (cF : Option (String × String)) (nF : Option String) (s e : String)
    (i : ItemRow) (it : ItemTypeRow)
    (hni : (db.items.map (·.id)).Nodup) (hnt : (db.itemtypes.map (·.id)).Nodup)
    (hi : i ∈ db.items) (hit : it ∈ db.itemtypes) (htid : it.id = i.fkitemtype)
    (hpass : itemPassesFilters db tF cF nF i = true)
    (hch : ∀ k v, cF = some (k, v) →
      ((db.itemcharacteristics.filter (fun c => c.fkitem = i.id)).filter
        (fun c => c.itemkey = k && containsSubCI v.toList c.itemvalue.toList)).length ≤ 1)
    (hlos : db.itemloading.filter (fun l => l.fkitem = i.id) ≠ [])
    (m : String) (hbet : sqlBetween m s e = true) :
    sumK (availJoinedRows db tF cF nF s e)
      ⟨i.id, i.itemname, it.typename, some m⟩ = monthAllocSum db i.id m := by
  unfold sumK
  have hff := filter_filter_of_imp (availJoinedRows db tF cF nF s e)
    (fun kv => kv.1 = ⟨i.id, i.itemname, it.typename, some m⟩)
    (fun kv => kv.1.id = i.id)
    (fun kv hp => by
      have hk : kv.1 = (⟨i.id, i.itemname, it.typename, some m⟩ : AvailKey) := by
        simpa using hp
      simp [hk])
  rw [← hff, availJoinedRows_filter_item db tF cF nF s e i it hni hnt hi hit htid,
    availItemRows_loadings db tF cF nF s e i it hpass hch hlos,
    filterMap_if_filter_month _ s e i it m hbet, monthAllocSum_as_filter,
    List.map_map]
  rfl

theorem grouped_any_of_joined_key (rows : List (AvailKey × ℚ)) (k : AvailKey)
    (hk : rows.any (fun kv => kv.1 = k) = true) :
    ∃ g ∈ groupSum rows, g.1 = k ∧ g.2 = sumK rows k := by
  have hl := groupSum_lookup rows k
  rw [if_pos hk] at hl
  unfold lookupQ at hl
  cases hf : (groupSum rows).find? (fun kv => kv.1 = k) with
  | none => rw [hf] at hl; cases hl
  | some g =>
      rw [hf] at hl
      exact ⟨g, List.mem_of_find?_eq_some hf, by simpa using List.find?_some hf,
        by simpa using hl⟩

/-- Grouped keys that carry a given item's id carry its name and its
type's typename. -/
theorem grouped_key_name (db : DB) (tF : Option Int)
    (cF : Option (String × String)) (nF : Option String) (s e : String)
    (i : ItemRow) (it : ItemTypeRow)
    (hni : (db.items.map (·.id)).Nodup) (hnt : (db.itemtypes.map (·.id)).Nodup)
    (hi : i ∈ db.items) (hit : it ∈ db.itemtypes) (htid : it.id = i.fkitemtype) :
    ∀ kv ∈ groupSum (availJoinedRows db tF cF nF s e), kv.1.id = i.id →
      kv.1.itemname = i.itemname ∧ kv.1.typename = it.typename := by
  intro kv hkv hid
  obtain ⟨kv', hkv', hk⟩ := groupSum_keys_sub _ kv hkv
  obtain ⟨i', hi', it', hit', htid', hmem⟩ :=
    mem_availJoinedRows db tF cF nF s e kv' hkv'
  obtain ⟨h1, h2, h3⟩ := availItemRows_key db tF cF nF s e i' it' kv' hmem
  have hii : i' = i := List.inj_on_of_nodup_map hni hi' hi (by rw [← h1, hk, hid])
  subst hii
  have hitit : it' = it := List.inj_on_of_nodup_map hnt hit' hit (by
    rw [htid', htid])
  subst hitit
  exact ⟨by rw [← hk, h2], by rw [← hk, h3]⟩

theorem months_find_of_unique (grouped : List (AvailKey × ℚ)) (i0 : Int) (m : String)
    (v : ℚ) (g : AvailKey × ℚ) (hg : g ∈ grouped)
    (hgid : g.1.id = i0) (hgmy : g.1.monthyear = some m) (hgv : g.2 = v)
    (hnodup : (grouped.map (·.1)).Nodup)
    (hdet : ∀ kv ∈ grouped, kv.1.id = i0 → kv.1.monthyear = some m → kv.1 = g.1) :
    (monthsOfRows [] (grouped.filter (fun kv => kv.1.id = i0))).find?
      (fun p => p.1 = m) = some (m, v, 100 - v) := by
  rw [find?_monthsOfRows]
  cases hf : ((grouped.filter (fun kv => kv.1.id = i0)).reverse.find?
      (fun kv => kv.1.monthyear = some m)) with
  | none =>
      have hgmem : g ∈ (grouped.filter (fun kv => kv.1.id = i0)).reverse :=
        List.mem_reverse.mpr (List.mem_filter.mpr ⟨hg, by simp [hgid]⟩)
      exact absurd hgmy (by simpa using List.find?_eq_none.mp hf g hgmem)
  | some kv0 =>
      have hkv0f := List.mem_filter.mp (List.mem_reverse.mp
        (List.mem_of_find?_eq_some hf))
      have hkv0id : kv0.1.id = i0 := by simpa using hkv0f.2
      have hkv0my : kv0.1.monthyear = some m := by simpa using List.find?_some hf
      have hkey : kv0.1 = g.1 := hdet kv0 hkv0f.1 hkv0id hkv0my
      have hkv0g : kv0 = g := List.inj_on_of_nodup_map hnodup hkv0f.1 hg hkey
      show some (m, kv0.2, 100 - kv0.2) = some (m, v, 100 - v)
      rw [hkv0g, hgv]

theorem months_find_none (grouped : List (AvailKey × ℚ)) (i0 : Int) (m : String)
    (hno : ∀ kv ∈ grouped, kv.1.id = i0 → kv.1.monthyear ≠ some m) :
    (monthsOfRows [] (grouped.filter (fun kv => kv.1.id = i0))).find?
      (fun p => p.1 = m) = none := by
  rw [find?_monthsOfRows]
  have hf : ((grouped.filter (fun kv => kv.1.id = i0)).reverse.find?
      (fun kv => kv.1.monthyear = some m)) = none :=
    List.find?_eq_none.mpr (fun kv hkv => by
      have h1 := List.mem_filter.mp (List.mem_reverse.mp hkv)
      simpa using hno kv h1.1 (by simpa using h1.2))
  rw [hf]
  rfl
/-! ### The data rows of one item -/

theorem availRowFor_some (e : AvailItemEntry) (m : String) (a b : ℚ)
    (hfm : e.months.find? (fun p => p.1 = m) = some (m, a, b)) :
    availRowFor e m = ⟨e.id, e.itemname, e.typename, m, a, b⟩ := by
  unfold availRowFor
  rw [hfm]

theorem availRowFor_none (e : AvailItemEntry) (m : String)
    (hfm : e.months.find? (fun p => p.1 = m) = none) :
    availRowFor e m = ⟨e.id, e.itemname, e.typename, m, 0, 100⟩ := by
  unfold availRowFor
  rw [hfm]

theorem availRowFor_id (e : AvailItemEntry) (m : String) :
    (availRowFor e m).id = e.id := by
  unfold availRowFor
  cases hfm : e.months.find? (fun p => p.1 = m) <;> rfl

theorem mem_availData (itemsDict : List AvailItemEntry) (range : List String)
    (e : AvailItemEntry) (he : e ∈ itemsDict) (m : String) (hm : m ∈ range) :
    availRowFor e m ∈ availData itemsDict range := by
  unfold availData
  exact List.mem_flatMap.mpr ⟨e, he, List.mem_map_of_mem _ hm⟩

theorem availData_row_ids (itemsDict : List AvailItemEntry) (range : List String) :
    ∀ row ∈ availData itemsDict range, ∃ e ∈ itemsDict, row.id = e.id := by
  intro row hrow
  unfold availData at hrow
  obtain ⟨e0, he0, hrow2⟩ := List.mem_flatMap.mp hrow
  obtain ⟨m, _, hrow3⟩ := List.mem_map.mp hrow2
  exact ⟨e0, he0, by rw [← hrow3]; exact availRowFor_id e0 m⟩

/-- Case kept: an item whose loadings are absent or partly in range
gets a row for every requested month, carrying its month loading sum. -/
theorem availData_row_of_item (db : DB) (tF : Option Int)
    (cF : Option (String × String)) (nF : Option String) (s e : String)
    (i : ItemRow) (it : ItemTypeRow)
    (hni : (db.items.map (·.id)).Nodup) (hnt : (db.itemtypes.map (·.id)).Nodup)
    (hi : i ∈ db.items) (hit : it ∈ db.itemtypes) (htid : it.id = i.fkitemtype)
    (hpass : itemPassesFilters db tF cF nF i = true)
    (hch : ∀ k v, cF = some (k, v) →
      ((db.itemcharacteristics.filter (fun c => c.fkitem = i.id)).filter
        (fun c => c.itemkey = k && containsSubCI v.toList c.itemvalue.toList)).length ≤ 1)
    (hA : db.itemloading.filter (fun l => l.fkitem = i.id) = [] ∨
      ∃ l ∈ db.itemloading.filter (fun l => l.fkitem = i.id),
        sqlBetween l.monthyear s e = true)
    (range : List String) (m : String) (hm : m ∈ range)
    (hbet : sqlBetween m s e = true) :
    (⟨i.id, i.itemname, it.typename, m, monthAllocSum db i.id m,
      100 - monthAllocSum db i.id m⟩ : AvailDataRow) ∈
      availData (availItemsDict (groupSum (availJoinedRows db tF cF nF s e))) range := by
  have hname := grouped_key_name db tF cF nF s e i it hni hnt hi hit htid
  have hnodup := groupSum_keys_nodup (availJoinedRows db tF cF nF s e)
  have hreg : (groupSum (availJoinedRows db tF cF nF s e)).any
      (fun kv => kv.1.id = i.id) = true := by
    rcases hA with hlos0 | ⟨l1, hl1, hb1⟩
    · have hrow : ((⟨i.id, i.itemname, it.typename, none⟩ : AvailKey), (0 : ℚ)) ∈
          availItemRows db tF cF nF s e i it := by
        rw [availItemRows_no_loadings db tF cF nF s e i it hpass hch hlos0]
        exact List.mem_cons_self _ _
      have hj := mem_availJoinedRows_of_item db tF cF nF s e i it hi hit htid _ hrow
      have hanyj : (availJoinedRows db tF cF nF s e).any
          (fun kv => kv.1 = ⟨i.id, i.itemname, it.typename, none⟩) = true :=
        List.any_eq_true.mpr ⟨_, hj, by simp⟩
      obtain ⟨g, hgmem, hgk, _⟩ := grouped_any_of_joined_key _ _ hanyj
      exact List.any_eq_true.mpr ⟨g, hgmem, by simp [hgk]⟩
    · have hrow := mem_availItemRows_of_loading db tF cF nF s e i it hpass hch l1 hl1 hb1
      have hj := mem_availJoinedRows_of_item db tF cF nF s e i it hi hit htid _ hrow
      have hanyj : (availJoinedRows db tF cF nF s e).any
          (fun kv => kv.1 = ⟨i.id, i.itemname, it.typename, some l1.monthyear⟩) = true :=
        List.any_eq_true.mpr ⟨_, hj, by simp⟩
      obtain ⟨g, hgmem, hgk, _⟩ := grouped_any_of_joined_key _ _ hanyj
      exact List.any_eq_true.mpr ⟨g, hgmem, by simp [hgk]⟩
  have hfind := find?_availItemsDict (groupSum (availJoinedRows db tF cF nF s e))
    i.id i.itemname it.typename hname
  rw [if_pos hreg] at hfind
  have he0mem := List.mem_of_find?_eq_some hfind
  by_cases hmm : ∃ l ∈ db.itemloading.filter (fun l => l.fkitem = i.id),
      l.monthyear = m
  · obtain ⟨l2, hl2, hl2my⟩ := hmm
    have hlos0 : db.itemloading.filter (fun l => l.fkitem = i.id) ≠ [] :=
      List.ne_nil_of_mem hl2
    have hb2 : sqlBetween l2.monthyear s e = true := by rw [hl2my]; exact hbet
    have hrow2 := mem_availItemRows_of_loading db tF cF nF s e i it hpass hch l2 hl2 hb2
    rw [hl2my] at hrow2
    have hj2 := mem_availJoinedRows_of_item db tF cF nF s e i it hi hit htid _ hrow2
    have hanyj2 : (availJoinedRows db tF cF nF s e).any
        (fun kv => kv.1 = ⟨i.id, i.itemname, it.typename, some m⟩) = true :=
      List.any_eq_true.mpr ⟨_, hj2, by simp⟩
    obtain ⟨g2, hg2mem, hg2k, hg2v⟩ := grouped_any_of_joined_key _ _ hanyj2
    have hsum := sumK_joined_month db tF cF nF s e i it hni hnt hi hit htid hpass hch
      hlos0 m hbet
    have hdet : ∀ kv ∈ groupSum (availJoinedRows db tF cF nF s e),
        kv.1.id = i.id → kv.1.monthyear = some m → kv.1 = g2.1 := by
      intro kv hkv hkid hkmy
      obtain ⟨hn2, ht2⟩ := hname kv hkv hkid
      rw [hg2k]
      calc kv.1 = ⟨kv.1.id, kv.1.itemname, kv.1.typename, kv.1.monthyear⟩ := rfl
        _ = ⟨i.id, i.itemname, it.typename, some m⟩ := by rw [hkid, hn2, ht2, hkmy]
    have hfm : (monthsOfRows [] ((groupSum (availJoinedRows db tF cF nF s e)).filter
        (fun kv => kv.1.id = i.id))).find? (fun p => p.1 = m) =
        some (m, monthAllocSum db i.id m, 100 - monthAllocSum db i.id m) :=
      months_find_of_unique _ i.id m (monthAllocSum db i.id m) g2 hg2mem
        (by rw [hg2k]) (by rw [hg2k]) (by rw [hg2v, hsum]) hnodup hdet
    have hrowmem := mem_availData _ range _ he0mem m hm
    rw [availRowFor_some _ m (monthAllocSum db i.id m)
      (100 - monthAllocSum db i.id m) hfm] at hrowmem
    exact hrowmem
  · have hno : ∀ kv ∈ groupSum (availJoinedRows db tF cF nF s e),
        kv.1.id = i.id → kv.1.monthyear ≠ some m := by
      intro kv hkv hkid
      obtain ⟨kv', hkv', hk⟩ := groupSum_keys_sub _ kv hkv
      obtain ⟨i', hi', it', hit', htid', hmem⟩ :=
        mem_availJoinedRows db tF cF nF s e kv' hkv'
      obtain ⟨h1, _, _⟩ := availItemRows_key db tF cF nF s e i' it' kv' hmem
      have hii : i' = i := List.inj_on_of_nodup_map hni hi' hi (by rw [← h1, hk, hkid])
      rw [hii] at hmem
      rcases hA with hlos0 | ⟨l1, hl1, _⟩
      · rw [availItemRows_no_loadings db tF cF nF s e i it' hpass hch hlos0] at hmem
        have hsing := List.mem_singleton.mp hmem
        rw [← hk, hsing]
        simp
      · have hlos0 : db.itemloading.filter (fun l => l.fkitem = i.id) ≠ [] :=
          List.ne_nil_of_mem hl1
        obtain ⟨l, hl, _, hkeq⟩ := mem_availItemRows_loadings_shape db tF cF nF s e
          i it' hpass hch hlos0 kv' hmem
        rw [← hk, hkeq]
        intro hcon
        exact hmm ⟨l, hl, by simpa using hcon⟩
    have hS : monthAllocSum db i.id m = 0 :=
      monthAllocSum_no_month db i m (fun l hl hq => hmm ⟨l, hl, hq⟩)
    have hfm : (monthsOfRows [] ((groupSum (availJoinedRows db tF cF nF s e)).filter
        (fun kv => kv.1.id = i.id))).find? (fun p => p.1 = m) = none :=
      months_find_none _ i.id m hno
    have hrowmem := mem_availData _ range _ he0mem m hm
    rw [availRowFor_none _ m hfm] at hrowmem
    rw [hS, sub_zero]
    exact hrowmem

/-- Case dropped: an item all of whose loadings fail the month filter
contributes no data row at all. -/
theorem availData_no_row_of_item (db : DB) (tF : Option Int)
    (cF : Option (String × String)) (nF : Option String) (s e : String)
    (i : ItemRow)
    (hni : (db.items.map (·.id)).Nodup)
    (hi : i ∈ db.items)
    (hpass : itemPassesFilters db tF cF nF i = true)
    (hch : ∀ k v, cF = some (k, v) →
      ((db.itemcharacteristics.filter (fun c => c.fkitem = i.id)).filter
        (fun c => c.itemkey = k && containsSubCI v.toList c.itemvalue.toList)).length ≤ 1)
    (hlos0 : db.itemloading.filter (fun l => l.fkitem = i.id) ≠ [])
    (hallout : ∀ l ∈ db.itemloading.filter (fun l => l.fkitem = i.id),
      sqlBetween l.monthyear s e = false)
    (range : List String) :
    ∀ row ∈ availData (availItemsDict (groupSum (availJoinedRows db tF cF nF s e)))
        range, row.id ≠ i.id := by
  intro row hrow hcon
  obtain ⟨e0, he0, hrid⟩ := availData_row_ids _ range row hrow
  obtain ⟨kv, hkv, hkid⟩ := availItemsDict_ids _ e0 he0
  obtain ⟨kv', hkv', hk⟩ := groupSum_keys_sub _ kv hkv
  obtain ⟨i', hi', it', hit', htid', hmem⟩ :=
    mem_availJoinedRows db tF cF nF s e kv' hkv'
  obtain ⟨h1, _, _⟩ := availItemRows_key db tF cF nF s e i' it' kv' hmem
  have hii : i' = i := List.inj_on_of_nodup_map hni hi' hi (by
    rw [← h1, hk, hkid, ← hrid, hcon])
  rw [hii] at hmem
  rw [availItemRows_loadings db tF cF nF s e i it' hpass hch hlos0] at hmem
  rw [List.filterMap_eq_nil_iff.mpr (fun l hl => by rw [hallout l hl]; rfl)] at hmem
  cases hmem
/-! ## Claim C2: the availability report -/

/-- C2 (amended): over a well-formed `YYYY-MM` range request against a
database with unique item and itemtype ids, for an item passing the
query's item-level filters (with at most one of its characteristic rows
matching an active characteristic filter): if the item has no loading
rows at all, or has at least one loading row whose month lies inside
the requested range, the report carries a row for every month of the
range, with `allocated_percent` the sum of the item's loadings of that
month and `available_percent` its complement to `100`; but if the item
has loading rows and all of them fall outside the range, the report
carries no row for the item at all (the claim's "in particular" case
fails).  The endpoint's success response carries exactly that report. -/
theorem c2_availability_amended
    (db : DB) (form : AvailForm) (i : ItemRow) (it : ItemTypeRow)
    (ys ms ye me : Nat)
    (hs : form.start_month = formatYM ys ms) (he : form.end_month = formatYM ye me)
    (hys : ys < 10000) (hms1 : 1 ≤ ms) (hms2 : ms ≤ 12)
    (hye : ye < 10000) (hme1 : 1 ≤ me) (hme2 : me ≤ 12)
    (hrange : monthIndex ys ms ≤ monthIndex ye me)
    (hni : (db.items.map (·.id)).Nodup) (hnt : (db.itemtypes.map (·.id)).Nodup)
    (hi : i ∈ db.items) (hit : it ∈ db.itemtypes) (htid : it.id = i.fkitemtype)
    (hpass : itemPassesFilters db (itemtypeFOf form) (charFOf form) (nameFOf form)
      i = true)
    (hch : ∀ k v, charFOf form = some (k, v) →
      ((db.itemcharacteristics.filter (fun c => c.fkitem = i.id)).filter
        (fun c => c.itemkey = k && containsSubCI v.toList c.itemvalue.toList)).length
          ≤ 1) :
    query_availability db form =
      AvailResponse.ok (availDataOf db form) form.itemtype_id (stripStr form.char_key)
        (stripStr form.char_value) (stripStr form.itemname_filter)
        (form.start_month ++ " to " ++ form.end_month) ∧
    ((db.itemloading.filter (fun l => l.fkitem = i.id) = [] ∨
      ∃ l ∈ db.itemloading.filter (fun l => l.fkitem = i.id),
        sqlBetween l.monthyear form.start_month form.end_month = true) →
      ∀ m ∈ generate_month_range form.start_month form.end_month,
        (⟨i.id, i.itemname, it.typename, m, monthAllocSum db i.id m,
          100 - monthAllocSum db i.id m⟩ : AvailDataRow) ∈ availDataOf db form) ∧
    ((db.itemloading.filter (fun l => l.fkitem = i.id) ≠ [] ∧
      ∀ l ∈ db.itemloading.filter (fun l => l.fkitem = i.id),
        sqlBetween l.monthyear form.start_month form.end_month = false) →
      ∀ row ∈ availDataOf db form, row.id ≠ i.id) := by
  refine ⟨?_, ?_, ?_⟩
  · unfold query_availability
    have h1 : (form.start_month ≠ "" && form.end_month ≠ "") = true := by
      rw [hs, he]
      simp [formatYM_ne_empty]
    have h2 : ¬ ((generate_month_range form.start_month form.end_month).isEmpty
        = true) := by
      rw [hs, he, generate_month_range_formatYM ys ms ye me hys hms1 hms2 hye hme1
        hme2, if_pos hrange]
      intro hc
      have hlen := congrArg List.length (List.isEmpty_iff.mp hc)
      simp at hlen
    rw [if_pos h1, if_neg h2]
  · intro hA m hm
    have hbet : sqlBetween m form.start_month form.end_month = true := by
      rw [hs, he] at hm ⊢
      obtain ⟨yi, mi, rfl, hyi, hmi1, hmi2, hb⟩ :=
        mem_generate_month_range_between ys ms ye me hys hms1 hms2 hye hme1 hme2 m hm
      exact hb
    unfold availDataOf
    exact availData_row_of_item db (itemtypeFOf form) (charFOf form) (nameFOf form)
      form.start_month form.end_month i it hni hnt hi hit htid hpass hch hA
      (generate_month_range form.start_month form.end_month) m hm hbet
  · rintro ⟨hlos0, hallout⟩ row hrow
    unfold availDataOf at hrow
    exact availData_no_row_of_item db (itemtypeFOf form) (charFOf form) (nameFOf form)
      form.start_month form.end_month i hni hi hpass hch hlos0 hallout
      (generate_month_range form.start_month form.end_month) row hrow

/-- C2 counterexample: the resource `Alice` passes every filter of the
request, the requested range `2025-01..2025-02` is non-empty, and
`Alice` has a loading row — but it lies outside the range, so the
report is empty: no `(Alice, month)` row with `allocated 0.0 /
available 100.0` is synthesized, refuting the claim's "in particular"
sentence. -/
theorem c2_counterexample_out_of_range_item_dropped :
    ((⟨1, "Alice", 1⟩ : ItemRow) ∈ availOutOfRangeDB.items ∧
     itemPassesFilters availOutOfRangeDB (itemtypeFOf availOutOfRangeForm)
       (charFOf availOutOfRangeForm) (nameFOf availOutOfRangeForm)
       ⟨1, "Alice", 1⟩ = true ∧
     generate_month_range availOutOfRangeForm.start_month
       availOutOfRangeForm.end_month = ["2025-01", "2025-02"] ∧
     availOutOfRangeDB.itemloading.filter (fun l => l.fkitem = 1) =
       [⟨1, 1, 0, "2024-01", 50, none⟩] ∧
     sqlBetween "2024-01" "2025-01" "2025-02" = false) ∧
    query_availability availOutOfRangeDB availOutOfRangeForm =
      AvailResponse.ok [] none "" "" "" "2025-01 to 2025-02" := by decide

/-- Witness for the amended C2 theorem at a concrete database: `Alice`
has a loading inside the range, so the success response holds the full
report and the no-loading month `2025-02` gets its synthesized row. -/
theorem c2_availability_amended_witness :
    query_availability availInRangeDB availOutOfRangeForm =
      AvailResponse.ok (availDataOf availInRangeDB availOutOfRangeForm) none
        "" "" "" "2025-01 to 2025-02" ∧
    (⟨1, "Alice", "RESOURCE", "2025-02", monthAllocSum availInRangeDB 1 "2025-02",
      100 - monthAllocSum availInRangeDB 1 "2025-02"⟩ : AvailDataRow) ∈
      availDataOf availInRangeDB availOutOfRangeForm := by
  have h := c2_availability_amended availInRangeDB availOutOfRangeForm
    ⟨1, "Alice", 1⟩ ⟨1, "RESOURCE"⟩ 2025 1 2025 2
    (by decide) (by decide) (by decide) (by decide) (by decide)
    (by decide) (by decide) (by decide) (by decide)
    (by decide) (by decide) (by decide) (by decide) (by decide)
    (by decide)
    (fun k v hkv => by
      rw [show charFOf availOutOfRangeForm = none from by decide] at hkv
      cases hkv)
  exact ⟨h.1, h.2.1 (Or.inr ⟨⟨1, 1, 0, "2025-01", 30, none⟩, by decide, by decide⟩)
    "2025-02" (by decide)⟩
end Fluid
